import Mathlib

/-!
# Verification of the Pilla compiler front-end

A shallow embedding of the Pilla compiler core (lexical scanner,
recursive-descent parser, semantic analyzer) translated from the C++
sources (`src/lexer/Lexer.cpp`, `src/parser/Parser.cpp`,
`src/sema/Sema.cpp` and the headers `Token.h`, `AST.h`, `Sema.h`),
together with theorems settling the specification claims.

Conventions of the embedding:
* C++ `std::string` values (source text, lexemes, diagnostic messages)
  are modelled as Lean `String`s; the scanner keeps the source text as a
  `List Char` indexed by `currentPos`, mirroring `std::string` indexing.
* C++ loops are modelled as fuel-indexed structural recursion returning
  `Option` (`none` = fuel exhausted); termination of a loop is proved as
  an explicit theorem that a concrete fuel always suffices.
* Mutation of AST annotation fields (`inferredType`, `constantValue`)
  is modelled by state passing: each visitor returns the updated node.
* `std::cerr` diagnostics are modelled as an ordered `List String`
  accumulated in the analyzer state (the "diagnostic channel").
-/

/-- The single-quote character (ASCII 39), used by the character-literal
scanner. -/
def squote : Char := Char.ofNat 39

/-- `enum class Tokentype` from `include/lexer/Token.h`. -/
inductive Tokentype where
  | LPAR | RPAR | LBRACE | RBRACE | LESS_THAN
  | GRE_THAN | SEMICOLON | PLUS | MINUS | MULTIPLY | DIVIDE | MODULO | POUND | ASSIGN | COMMA
  | EQUAL_EQUAL | NOT_EQUAL | LESS_EQUAL | GREATER_EQUAL
  | NUMBER | IDENTIFIER | FLOAT_LITERAL | CHAR_LITERAL | STRING_LITERAL
  | KW_INT | KW_RETURN | KW_FLOAT | KW_CHAR | KW_STRING | KW_DOUBLE
  | KW_VOID | KW_IF | KW_ELSE | KW_WHILE | KW_FOR
  | UNKNOWN
  | E_O_F
  deriving DecidableEq, Repr

/-- `struct Token` from `include/lexer/Token.h`. -/
structure Token where
  type : Tokentype
  lexeme : String
  line : Nat
  column : Nat
  deriving DecidableEq, Repr

/-- The mutable scanner state of `class Lexer` (`include/lexer/Lexer.h`):
the source text and the `currentPos`/`line`/`column` cursors.
(`tokenStartLine`/`tokenStartColumn` are passed explicitly to
`makeToken` instead of being stored.) -/
structure Lexer where
  sourcecode : List Char
  currentPos : Nat
  line : Nat
  column : Nat
  deriving DecidableEq, Repr

/-- `Lexer::isAtEnd`: `currentPos >= sourcecode.length()`. -/
def Lexer.isAtEnd (L : Lexer) : Bool :=
  L.sourcecode.length ≤ L.currentPos

/-- `Lexer::peek`: the current character, `'\0'` at end of input. -/
def Lexer.peek (L : Lexer) : Char :=
  if L.isAtEnd then '\x00' else L.sourcecode.getD L.currentPos '\x00'

/-- `Lexer::advance`: consume and return the current character,
incrementing `currentPos` and `column`; at end of input the state is
unchanged and the character before the cursor is returned. -/
def Lexer.advance (L : Lexer) : Char × Lexer :=
  if L.isAtEnd then (L.sourcecode.getD (L.currentPos - 1) '\x00', L)
  else (L.sourcecode.getD L.currentPos '\x00',
        { L with currentPos := L.currentPos + 1, column := L.column + 1 })

/-- `std::string::substr(start, len)` on the scanner source. -/
def substrOf (src : List Char) (start len : Nat) : String :=
  String.mk ((src.drop start).take len)

/-- `Lexer::makeToken`, with the token start position passed explicitly. -/
def makeToken (type : Tokentype) (lexeme : String) (sl sc : Nat) : Token :=
  ⟨type, lexeme, sl, sc⟩

/-- `Lexer::skipWhitespace`: skip spaces, carriage returns and tabs;
a newline additionally increments `line` and resets `column` to 0
before `advance` moves it to 1 (fuel-indexed loop). -/
def skipWhitespace : Nat → Lexer → Option Lexer
  | 0, _ => none
  | f + 1, L =>
    if L.isAtEnd then some L
    else
      let c := L.peek
      if c == ' ' || c == '\r' || c == '\t' then
        skipWhitespace f (L.advance).2
      else if c == '\n' then
        skipWhitespace f ({ L with line := L.line + 1, column := 0 }.advance).2
      else some L

/-- The `//` comment loop in `Lexer::scanToken`:
`while (peek() != '\n' && !isAtEnd()) advance();`. -/
def skipLineComment : Nat → Lexer → Option Lexer
  | 0, _ => none
  | f + 1, L =>
    if L.peek != '\n' && !L.isAtEnd then skipLineComment f (L.advance).2
    else some L

/-- The `/* ... */` comment loop in `Lexer::scanToken`: scan forward,
tracking newlines, until `*/` (both characters consumed) or end of
input. -/
def skipBlockComment : Nat → Lexer → Option Lexer
  | 0, _ => none
  | f + 1, L =>
    if L.isAtEnd then some L
    else if L.peek == '*' && decide (L.currentPos + 1 < L.sourcecode.length) &&
            L.sourcecode.getD (L.currentPos + 1) '\x00' == '/' then
      some ((L.advance).2.advance).2
    else
      let L1 := if L.peek == '\n' then { L with line := L.line + 1, column := 0 } else L
      skipBlockComment f (L1.advance).2

/-- The digit loop of `Lexer::number`:
`while (std::isdigit(peek())) advance();`. -/
def scanDigits : Nat → Lexer → Option Lexer
  | 0, _ => none
  | f + 1, L =>
    if L.peek.isDigit then scanDigits f (L.advance).2 else some L

/-- `Lexer::number`, entered with the first digit already consumed;
recognizes an optional fractional part (`.` followed by a digit). -/
def scanNumber (f : Nat) (L : Lexer) (sl sc : Nat) : Option (Token × Lexer) :=
  let start := L.currentPos - 1
  match scanDigits f L with
  | none => none
  | some L1 =>
    if L1.peek == '.' && (L1.sourcecode.getD (L1.currentPos + 1) '\x00').isDigit then
      match scanDigits f (L1.advance).2 with
      | none => none
      | some L3 =>
        some (makeToken .FLOAT_LITERAL (substrOf L3.sourcecode start (L3.currentPos - start))
          sl sc, L3)
    else
      some (makeToken .NUMBER (substrOf L1.sourcecode start (L1.currentPos - start)) sl sc, L1)

/-- The body loop of `Lexer::string`: consume characters (tracking
newlines) until the closing double quote or end of input. -/
def scanStringBody : Nat → Lexer → Option Lexer
  | 0, _ => none
  | f + 1, L =>
    if L.peek != '"' && !L.isAtEnd then
      let L1 := if L.peek == '\n' then { L with line := L.line + 1, column := 0 } else L
      scanStringBody f (L1.advance).2
    else some L

/-- `Lexer::string`, entered with the opening quote already consumed;
the lexeme keeps both quotes; an unterminated literal yields an
`UNKNOWN` token. -/
def scanString (f : Nat) (L : Lexer) (sl sc : Nat) : Option (Token × Lexer) :=
  let start := L.currentPos - 1
  match scanStringBody f L with
  | none => none
  | some L1 =>
    if L1.isAtEnd then
      some (makeToken .UNKNOWN "Unterminated string" sl sc, L1)
    else
      let L2 := (L1.advance).2
      some (makeToken .STRING_LITERAL (substrOf L2.sourcecode start (L2.currentPos - start))
        sl sc, L2)

/-- `Lexer::character`, entered with the opening quote already consumed:
one optional backslash escape, one content character, then the closing
quote; empty and unterminated forms yield `UNKNOWN` tokens. -/
def scanCharacter (L : Lexer) (sl sc : Nat) : Token × Lexer :=
  let start := L.currentPos
  if L.peek == squote then
    (makeToken .UNKNOWN "Empty character literal" sl sc, L)
  else
    let L1 := if L.peek == '\\' then (L.advance).2 else L
    let L2 := (L1.advance).2
    if L2.peek != squote then
      (makeToken .UNKNOWN "Unterminated character literal" sl sc, L2)
    else
      let L3 := (L2.advance).2
      (makeToken .CHAR_LITERAL (substrOf L3.sourcecode start (L3.currentPos - start - 1)) sl sc, L3)

/-- The keyword table at the end of `Lexer::identifier`. -/
def keywordType (s : String) : Tokentype :=
  if s = "int" then .KW_INT
  else if s = "return" then .KW_RETURN
  else if s = "float" then .KW_FLOAT
  else if s = "char" then .KW_CHAR
  else if s = "string" then .KW_STRING
  else if s = "double" then .KW_DOUBLE
  else if s = "void" then .KW_VOID
  else if s = "if" then .KW_IF
  else if s = "else" then .KW_ELSE
  else if s = "while" then .KW_WHILE
  else if s = "for" then .KW_FOR
  else .IDENTIFIER

/-- The body loop of `Lexer::identifier`:
`while (std::isalnum(peek()) || peek() == '_') advance();`. -/
def scanIdentBody : Nat → Lexer → Option Lexer
  | 0, _ => none
  | f + 1, L =>
    if L.peek.isAlphanum || L.peek == '_' then scanIdentBody f (L.advance).2
    else some L

/-- `Lexer::identifier`, entered with the first character already
consumed; classifies the lexeme through the keyword table. -/
def scanIdentifier (f : Nat) (L : Lexer) (sl sc : Nat) : Option (Token × Lexer) :=
  let start := L.currentPos - 1
  match scanIdentBody f L with
  | none => none
  | some L1 =>
    let lex := substrOf L1.sourcecode start (L1.currentPos - start)
    some (makeToken (keywordType lex) lex sl sc, L1)

/-- `Lexer::scanToken`: skip whitespace, capture the token start
position, and dispatch on the first character; comments restart the
scan recursively. -/
def scanToken : Nat → Lexer → Option (Token × Lexer)
  | 0, _ => none
  | f + 1, L0 =>
    match skipWhitespace (f + 1) L0 with
    | none => none
    | some L =>
    let sl := L.line
    let sc := L.column
    if L.isAtEnd then
      some (makeToken .E_O_F "SIGNING_OFF" sl sc, L)
    else
      let a := L.advance
      let c := a.1
      let L1 := a.2
      if c == '(' then some (makeToken .LPAR "(" sl sc, L1)
      else if c == ')' then some (makeToken .RPAR ")" sl sc, L1)
      else if c == '{' then some (makeToken .LBRACE "\x7b" sl sc, L1)
      else if c == '}' then some (makeToken .RBRACE "\x7d" sl sc, L1)
      else if c == ';' then some (makeToken .SEMICOLON ";" sl sc, L1)
      else if c == '+' then some (makeToken .PLUS "+" sl sc, L1)
      else if c == '-' then some (makeToken .MINUS "-" sl sc, L1)
      else if c == '*' then some (makeToken .MULTIPLY "*" sl sc, L1)
      else if c == '/' then
        if L1.peek == '/' then
          match skipLineComment (f + 1) L1 with
          | none => none
          | some L2 => scanToken f L2
        else if L1.peek == '*' then
          match skipBlockComment (f + 1) (L1.advance).2 with
          | none => none
          | some L2 => scanToken f L2
        else some (makeToken .DIVIDE "/" sl sc, L1)
      else if c == '%' then some (makeToken .MODULO "%" sl sc, L1)
      else if c == '#' then some (makeToken .POUND "#" sl sc, L1)
      else if c == '<' then
        if L1.peek == '=' then some (makeToken .LESS_EQUAL "<=" sl sc, (L1.advance).2)
        else some (makeToken .LESS_THAN "<" sl sc, L1)
      else if c == '>' then
        if L1.peek == '=' then some (makeToken .GREATER_EQUAL ">=" sl sc, (L1.advance).2)
        else some (makeToken .GRE_THAN ">" sl sc, L1)
      else if c == '=' then
        if L1.peek == '=' then some (makeToken .EQUAL_EQUAL "==" sl sc, (L1.advance).2)
        else some (makeToken .ASSIGN "=" sl sc, L1)
      else if c == '!' then
        if L1.peek == '=' then some (makeToken .NOT_EQUAL "!=" sl sc, (L1.advance).2)
        else some (makeToken .UNKNOWN "!" sl sc, L1)
      else if c == ',' then some (makeToken .COMMA "," sl sc, L1)
      else if c == '"' then scanString (f + 1) L1 sl sc
      else if c == squote then some (scanCharacter L1 sl sc)
      else if c.isDigit then scanNumber (f + 1) L1 sl sc
      else if c.isAlpha || c == '_' then scanIdentifier (f + 1) L1 sl sc
      else some (makeToken .UNKNOWN (String.mk [c]) sl sc, L1)

/-- The token-collecting loop of `Lexer::scanTokens`: gather tokens
until (and including) the end-of-input token. -/
def scanTokensLoop : Nat → Lexer → Option (List Token)
  | 0, _ => none
  | f + 1, L =>
    match scanToken (f + 1) L with
    | none => none
    | some r =>
      if r.1.type == .E_O_F then some [r.1]
      else
        match scanTokensLoop f r.2 with
        | none => none
        | some rest => some (r.1 :: rest)

/-- `Lexer::scanTokens` on a freshly constructed `Lexer` (`currentPos`
0, `line` 1, `column` 1), with fuel `length + 1`, which is proved
sufficient below. -/
def scanTokens (source : List Char) : Option (List Token) :=
  scanTokensLoop (source.length + 1) ⟨source, 0, 1, 1⟩

example : scanTokens "  ".toList =
    some [⟨.E_O_F, "SIGNING_OFF", 1, 3⟩] := by decide

example : scanTokens "int x".toList =
    some [⟨.KW_INT, "int", 1, 1⟩, ⟨.IDENTIFIER, "x", 1, 5⟩, ⟨.E_O_F, "SIGNING_OFF", 1, 6⟩] := by
  decide

/-! ## Abstract syntax tree (`include/parser/AST.h`)

Expression and statement nodes are mutual inductive families; child
lists (`std::vector<std::unique_ptr<...>>`) are the family members
`ExprListAST`/`StmtListAST`.  Every expression constructor carries the
two annotation fields of the C++ base class `ExprAST`:
`inferredType` (initialized `Type::Invalid`) and `constantValue`
(initialized `std::nullopt`); the in-place mutation done by the
semantic analyzer is modelled by returning an updated node.
`FloatExprAST` stores `double value`; the embedding keeps the source
lexeme from which `std::stod` computed it, since no embedded stage
reads the numeric value. -/

/-- `enum class Type` from `include/parser/AST.h`. -/
inductive Ty where
  | Int | Float | Double | Char | String | Void | Invalid
  deriving DecidableEq, Repr

mutual
/-- The expression node hierarchy (`NumberExprAST`, `FloatExprAST`,
`StringExprAST`, `CharExprAST`, `VariableExprAST`, `CallExprAST`,
`BinaryExprAST`), each with the base-class annotation fields. -/
inductive ExprAST where
  | number (value : Int) (inferredType : Ty) (constantValue : Option Int)
  | floatE (lexeme : String) (inferredType : Ty) (constantValue : Option Int)
  | stringE (value : String) (inferredType : Ty) (constantValue : Option Int)
  | charE (value : Char) (inferredType : Ty) (constantValue : Option Int)
  | varE (name : String) (inferredType : Ty) (constantValue : Option Int)
  | call (callee : String) (args : ExprListAST) (inferredType : Ty) (constantValue : Option Int)
  | binary (op : Tokentype) (left : ExprAST) (right : ExprAST)
      (inferredType : Ty) (constantValue : Option Int)
  deriving DecidableEq, Repr
/-- `std::vector<std::unique_ptr<ExprAST>>` (call argument lists). -/
inductive ExprListAST where
  | nil
  | cons (head : ExprAST) (tail : ExprListAST)
  deriving DecidableEq, Repr
end

/-- The `inferredType` field of the `ExprAST` base class. -/
def ExprAST.inferredType : ExprAST → Ty
  | .number _ t _ => t
  | .floatE _ t _ => t
  | .stringE _ t _ => t
  | .charE _ t _ => t
  | .varE _ t _ => t
  | .call _ _ t _ => t
  | .binary _ _ _ t _ => t

/-- The `constantValue` field of the `ExprAST` base class. -/
def ExprAST.constantValue : ExprAST → Option Int
  | .number _ _ v => v
  | .floatE _ _ v => v
  | .stringE _ _ v => v
  | .charE _ _ v => v
  | .varE _ _ v => v
  | .call _ _ _ v => v
  | .binary _ _ _ _ v => v

/-- `args.size()` for call argument lists. -/
def ExprListAST.length : ExprListAST → Nat
  | .nil => 0
  | .cons _ t => t.length + 1

mutual
/-- The statement node hierarchy (`VariableDeclAST`, `ReturnStmtAST`,
`PrintStmtAST`, `IfStmtAST`, `WhileStmtAST`, `ForStmtAST`). -/
inductive StmtAST where
  | varDecl (type : String) (name : String) (initializer : Option ExprAST)
  | returnStmt (expression : ExprAST)
  | print (expression : ExprAST)
  | ifStmt (condition : ExprAST) (thenBranch : StmtListAST) (elseBranch : StmtListAST)
  | whileStmt (condition : ExprAST) (body : StmtListAST)
  | forStmt (initializer : Option StmtAST) (condition : Option ExprAST)
      (increment : Option ExprAST) (body : StmtListAST)
/-- `std::vector<std::unique_ptr<StmtAST>>` (statement lists). -/
inductive StmtListAST where
  | nil
  | cons (head : StmtAST) (tail : StmtListAST)
end

/-- `FunctionAST`: return type name, function name, (paramType,
paramName) pairs, body statements. -/
structure FunctionAST where
  returnType : String
  name : String
  parameters : List (String × String)
  body : StmtListAST

/-- `ProgramAST`: the ordered top-level function list. -/
structure ProgramAST where
  functions : List FunctionAST

/-! ## Parser (`src/parser/Parser.cpp`)

Recursive descent with precedence climbing.  C++ `throw
std::runtime_error` is modelled with `Except String`; the whole parser
is additionally fuel-indexed (`none` = fuel exhausted), with one fuel
unit per call edge.  C++ error-message text that quoted lexemes in
single quotes is written here without the quote characters. -/

/-- The parser state of `class Parser`: the token vector and the
`current` index. -/
structure Parser' where
  tokens : List Token
  current : Nat

/-- Parser result: `none` is fuel exhaustion, `some (.error m)` a
thrown `std::runtime_error`, `some (.ok (a, p))` a normal return with
the updated token cursor. -/
def PRes (α : Type) : Type := Option (Except String (α × Parser'))

/-- Defensive out-of-range default for token vector access (the C++
token vector always ends with `E_O_F`, so it is never used). -/
def eofFallback : Token := ⟨.E_O_F, "", 0, 0⟩

/-- `Parser::peek`: `tokens[current]`. -/
def Parser'.peek (p : Parser') : Token := p.tokens.getD p.current eofFallback

/-- `Parser::previous`: `tokens[current-1]`. -/
def Parser'.previous (p : Parser') : Token := p.tokens.getD (p.current - 1) eofFallback

/-- `Parser::isAtEnd`: the cursor rests on the end-of-input token. -/
def Parser'.isAtEnd (p : Parser') : Bool := p.peek.type == .E_O_F

/-- `Parser::match`: conditionally consume one token of the given
kind, returning whether it was consumed. -/
def Parser'.matchTok (p : Parser') (type : Tokentype) : Bool × Parser' :=
  if p.isAtEnd then (false, p)
  else if p.peek.type == type then (true, { p with current := p.current + 1 })
  else (false, p)

/-- `Parser::consume`: require a token of the given kind or throw. -/
def Parser'.consume (p : Parser') (type : Tokentype) (message : String) :
    Except String (Token × Parser') :=
  if p.isAtEnd then .error (" unexpected end of file" ++ message)
  else if p.peek.type == type then .ok (p.peek, { p with current := p.current + 1 })
  else .error ("syntax error :" ++ message ++ " but Found - " ++ p.peek.lexeme)

/-- `Parser::parseType`: match one type keyword, normalized to its
canonical spelling, or throw. -/
def Parser'.parseType (p : Parser') : Except String (String × Parser') :=
  let m1 := p.matchTok .KW_VOID
  if m1.1 then .ok ("void", m1.2) else
  let m2 := p.matchTok .KW_INT
  if m2.1 then .ok ("int", m2.2) else
  let m3 := p.matchTok .KW_FLOAT
  if m3.1 then .ok ("float", m3.2) else
  let m4 := p.matchTok .KW_DOUBLE
  if m4.1 then .ok ("double", m4.2) else
  let m5 := p.matchTok .KW_CHAR
  if m5.1 then .ok ("char", m5.2) else
  let m6 := p.matchTok .KW_STRING
  if m6.1 then .ok ("string", m6.2) else
  .error "Expected type specifier."

/-- `Parser::getOperatorPrecedence` (0 = not a binary operator). -/
def getOperatorPrecedence : Tokentype → Nat
  | .MULTIPLY | .DIVIDE | .MODULO => 4
  | .PLUS | .MINUS => 3
  | .EQUAL_EQUAL | .NOT_EQUAL | .LESS_THAN | .GRE_THAN | .LESS_EQUAL | .GREATER_EQUAL => 2
  | .ASSIGN => 1
  | _ => 0

/-- `Parser::isBinaryOperator`. -/
def isBinaryOperator (type : Tokentype) : Bool :=
  decide (0 < getOperatorPrecedence type)

/-- `std::stol` on a scanned integer lexeme (digits only, as produced
by `Lexer::number`); overflow behavior is left unspecified by the
source, modelled as unbounded. -/
def stol (s : String) : Int :=
  s.toList.foldl (fun a c => a * 10 + (c.toNat - 48)) 0

/-- Sequencing of parser results (propagates thrown errors and fuel
exhaustion). -/
def pbind {α β : Type} (r : PRes α) (g : α → Parser' → PRes β) : PRes β :=
  match r with
  | none => none
  | some (.error e) => some (.error e)
  | some (.ok (a, p)) => g a p

/-- Normal return of a parser value. -/
def pret {α : Type} (a : α) (p : Parser') : PRes α := some (.ok (a, p))

/-- Lift a non-looping `Except`-valued step (`consume`, `parseType`)
into a parser result. -/
def plift {α : Type} (r : Except String (α × Parser')) : PRes α :=
  match r with
  | .error e => some (.error e)
  | .ok (a, p) => some (.ok (a, p))

mutual

/-- The `while (!isAtEnd()) functions.push_back(parseFunction())` loop
of `Parser::parse`. -/
def parseProgramLoopF : Nat → Parser' → PRes (List FunctionAST)
  | 0, _ => none
  | f + 1, p =>
    if !p.isAtEnd then
      pbind (parseFunctionF f p) fun fn p1 =>
      pbind (parseProgramLoopF f p1) fun fns p2 =>
      pret (fn :: fns) p2
    else pret [] p

/-- `Parser::parseFunction`. -/
def parseFunctionF : Nat → Parser' → PRes FunctionAST
  | 0, _ => none
  | f + 1, p =>
    pbind (plift p.parseType) fun returnType p1 =>
    pbind (plift (p1.consume .IDENTIFIER "expected function name.")) fun name p2 =>
    pbind (plift (p2.consume .LPAR "Expected (.")) fun _ p3 =>
    let mr := p3.matchTok .RPAR
    pbind
      (if mr.1 then pret [] mr.2
       else
         pbind (parseParamsF f p3) fun params p4 =>
         pbind (plift (p4.consume .RPAR "Expected ).")) fun _ p5 =>
         pret params p5)
      fun parameters p6 =>
    pbind (plift (p6.consume .LBRACE "Expected brace.")) fun _ p7 =>
    pbind (parseStmtBlockF f p7) fun body p8 =>
    pret ⟨returnType, name.lexeme, parameters, body⟩ p8

/-- The parameter `do { ... } while (match(COMMA))` loop of
`Parser::parseFunction`. -/
def parseParamsF : Nat → Parser' → PRes (List (String × String))
  | 0, _ => none
  | f + 1, p =>
    pbind (plift p.parseType) fun paramType p1 =>
    pbind (plift (p1.consume .IDENTIFIER "Expected parameter name.")) fun paramName p2 =>
    let mc := p2.matchTok .COMMA
    if mc.1 then
      pbind (parseParamsF f mc.2) fun rest p3 =>
      pret ((paramType, paramName.lexeme) :: rest) p3
    else pret [(paramType, paramName.lexeme)] mc.2

/-- The `while (!match(RBRACE) && !isAtEnd()) push_back(parseStatement())`
loop used for function bodies and for if/while/for blocks. -/
def parseStmtBlockF : Nat → Parser' → PRes StmtListAST
  | 0, _ => none
  | f + 1, p =>
    let mr := p.matchTok .RBRACE
    if !mr.1 && !p.isAtEnd then
      pbind (parseStatementF f p) fun s p1 =>
      pbind (parseStmtBlockF f p1) fun rest p2 =>
      pret (.cons s rest) p2
    else pret .nil mr.2

/-- `Parser::parseStatement`: dispatch on the current token kind,
falling back to an expression statement. -/
def parseStatementF : Nat → Parser' → PRes StmtAST
  | 0, _ => none
  | f + 1, p =>
    let t := p.peek.type
    if t == .KW_INT || t == .KW_FLOAT || t == .KW_DOUBLE || t == .KW_CHAR || t == .KW_STRING then
      pbind (parseVariableDeclF f p) fun d p1 => pret d p1
    else if p.peek.type == .KW_RETURN then parseReturnStatementF f p
    else if p.peek.type == .KW_IF then parseIfStatementF f p
    else
      let mw := p.matchTok .KW_WHILE
      if mw.1 then parseWhileStatementF f mw.2
      else
        let mf := p.matchTok .KW_FOR
        if mf.1 then parseForStatementF f mf.2
        else parsePrintStatementF f p

/-- `Parser::parsePrintStatement` (expression statement). -/
def parsePrintStatementF : Nat → Parser' → PRes StmtAST
  | 0, _ => none
  | f + 1, p =>
    pbind (parseExpressionF f p) fun expr p1 =>
    pbind (plift (p1.consume .SEMICOLON "Expected ; after expression.")) fun _ p2 =>
    pret (.print expr) p2

/-- `Parser::parseVariableDecl`. -/
def parseVariableDeclF : Nat → Parser' → PRes StmtAST
  | 0, _ => none
  | f + 1, p =>
    pbind (plift p.parseType) fun type p1 =>
    pbind (plift (p1.consume .IDENTIFIER "Expected variable name.")) fun name p2 =>
    let ma := p2.matchTok .ASSIGN
    pbind
      (if ma.1 then
         pbind (parseExpressionF f ma.2) fun e p3 => pret (some e) p3
       else pret none ma.2)
      fun initializer p4 =>
    pbind (plift (p4.consume .SEMICOLON "Expected ; after variable declaration.")) fun _ p5 =>
    pret (.varDecl type name.lexeme initializer) p5

/-- `Parser::parseReturnStatement`. -/
def parseReturnStatementF : Nat → Parser' → PRes StmtAST
  | 0, _ => none
  | f + 1, p =>
    pbind (plift (p.consume .KW_RETURN "expected return")) fun _ p1 =>
    pbind (parseExpressionF f p1) fun expression p2 =>
    pbind (plift (p2.consume .SEMICOLON "Expected ; after return value.")) fun _ p3 =>
    pret (.returnStmt expression) p3

/-- `Parser::parseIfStatement`. -/
def parseIfStatementF : Nat → Parser' → PRes StmtAST
  | 0, _ => none
  | f + 1, p =>
    pbind (plift (p.consume .KW_IF "Expected if")) fun _ p1 =>
    pbind (plift (p1.consume .LPAR "Expected ( after if")) fun _ p2 =>
    pbind (parseExpressionF f p2) fun condition p3 =>
    pbind (plift (p3.consume .RPAR "Expected ) after condition")) fun _ p4 =>
    pbind (plift (p4.consume .LBRACE "Expected brace after if condition")) fun _ p5 =>
    pbind (parseStmtBlockF f p5) fun thenBranch p6 =>
    let me := p6.matchTok .KW_ELSE
    if me.1 then
      pbind (plift (me.2.consume .LBRACE "Expected brace after else")) fun _ p7 =>
      pbind (parseStmtBlockF f p7) fun elseBranch p8 =>
      pret (.ifStmt condition thenBranch elseBranch) p8
    else pret (.ifStmt condition thenBranch .nil) me.2

/-- `Parser::parseWhileStatement` (the `while` keyword was consumed by
`parseStatement`). -/
def parseWhileStatementF : Nat → Parser' → PRes StmtAST
  | 0, _ => none
  | f + 1, p =>
    pbind (plift (p.consume .LPAR "Expected ( after while")) fun _ p1 =>
    pbind (parseExpressionF f p1) fun condition p2 =>
    pbind (plift (p2.consume .RPAR "Expected ) after condition")) fun _ p3 =>
    pbind (plift (p3.consume .LBRACE "Expected brace after while condition")) fun _ p4 =>
    pbind (parseStmtBlockF f p4) fun body p5 =>
    pret (.whileStmt condition body) p5

/-- `Parser::parseForStatement` (the `for` keyword was consumed by
`parseStatement`).  Note the source behavior preserved here: an
expression initializer is parsed and its `;` consumed, but the result
is discarded — the local `initializer` is only assigned in the
variable-declaration branch, so the built `ForStmtAST` keeps a null
initializer for expression initializers. -/
def parseForStatementF : Nat → Parser' → PRes StmtAST
  | 0, _ => none
  | f + 1, p =>
    pbind (plift (p.consume .LPAR "Expected ( after for")) fun _ p1 =>
    let ms := p1.matchTok .SEMICOLON
    pbind
      (if ms.1 then pret none ms.2
       else
         if p1.peek.type == .KW_INT || p1.peek.type == .KW_FLOAT ||
            p1.peek.type == .KW_DOUBLE then
           pbind (parseVariableDeclF f p1) fun d p2 => pret (some d) p2
         else
           pbind (parseExpressionF f p1) fun _expr p2 =>
           pbind (plift (p2.consume .SEMICOLON "Expected ; after initializer")) fun _ p3 =>
           pret none p3)
      fun initializer p4 =>
    let mc := p4.matchTok .SEMICOLON
    pbind
      (if mc.1 then pret none mc.2
       else
         pbind (parseExpressionF f p4) fun c p5 =>
         pbind (plift (p5.consume .SEMICOLON "Expected ; after condition")) fun _ p6 =>
         pret (some c) p6)
      fun condition p7 =>
    let mp := p7.matchTok .RPAR
    pbind
      (if mp.1 then pret none mp.2
       else
         pbind (parseExpressionF f p7) fun i p8 =>
         pbind (plift (p8.consume .RPAR "Expected ) after increment")) fun _ p9 =>
         pret (some i) p9)
      fun increment p10 =>
    pbind (plift (p10.consume .LBRACE "Expected brace after for statement")) fun _ p11 =>
    pbind (parseStmtBlockF f p11) fun body p12 =>
    pret (.forStmt initializer condition increment body) p12

/-- `Parser::parseExpression`. -/
def parseExpressionF : Nat → Parser' → PRes ExprAST
  | 0, _ => none
  | f + 1, p => parseBinaryExpressionF f 0 p

/-- `Parser::parseBinaryExpression(minPrecedence)`: parse a primary
then climb. -/
def parseBinaryExpressionF : Nat → Nat → Parser' → PRes ExprAST
  | 0, _, _ => none
  | f + 1, minPrecedence, p =>
    pbind (parsePrimaryF f p) fun left p1 =>
    parseBinClimbF f minPrecedence left p1

/-- The operator-climbing `while` loop of
`Parser::parseBinaryExpression`. -/
def parseBinClimbF : Nat → Nat → ExprAST → Parser' → PRes ExprAST
  | 0, _, _, _ => none
  | f + 1, minPrecedence, left, p =>
    if !p.isAtEnd && isBinaryOperator p.peek.type then
      let opType := p.peek.type
      let precedence := getOperatorPrecedence opType
      if precedence < minPrecedence then pret left p
      else
        let p1 : Parser' := { p with current := p.current + 1 }
        pbind (parseBinaryExpressionF f (precedence + 1) p1) fun right p2 =>
        parseBinClimbF f minPrecedence (.binary opType left right .Invalid none) p2
    else pret left p

/-- `Parser::parsePrimary`. -/
def parsePrimaryF : Nat → Parser' → PRes ExprAST
  | 0, _ => none
  | f + 1, p =>
    let mn := p.matchTok .NUMBER
    if mn.1 then pret (.number (stol mn.2.previous.lexeme) .Invalid none) mn.2
    else
      let mf := p.matchTok .FLOAT_LITERAL
      if mf.1 then pret (.floatE mf.2.previous.lexeme .Invalid none) mf.2
      else
        let ms := p.matchTok .STRING_LITERAL
        if ms.1 then pret (.stringE ms.2.previous.lexeme .Invalid none) ms.2
        else
          let mc := p.matchTok .CHAR_LITERAL
          if mc.1 then
            pret (.charE (mc.2.previous.lexeme.toList.getD 0 '\x00') .Invalid none) mc.2
          else
            let mi := p.matchTok .IDENTIFIER
            if mi.1 then
              let name := mi.2.previous.lexeme
              let ml := mi.2.matchTok .LPAR
              if ml.1 then
                let mr := ml.2.matchTok .RPAR
                if mr.1 then pret (.call name .nil .Invalid none) mr.2
                else
                  pbind (parseArgsF f ml.2) fun args p1 =>
                  pbind (plift (p1.consume .RPAR "Expected ) after arguments.")) fun _ p2 =>
                  pret (.call name args .Invalid none) p2
              else pret (.varE name .Invalid none) ml.2
            else some (.error (" expected expression, found " ++ p.peek.lexeme))

/-- The argument `do { ... } while (match(COMMA))` loop of
`Parser::parsePrimary`. -/
def parseArgsF : Nat → Parser' → PRes ExprListAST
  | 0, _ => none
  | f + 1, p =>
    pbind (parseExpressionF f p) fun arg p1 =>
    let mc := p1.matchTok .COMMA
    if mc.1 then
      pbind (parseArgsF f mc.2) fun rest p2 =>
      pret (.cons arg rest) p2
    else pret (.cons arg .nil) mc.2

end

/-- `Parser::parse`: run the function loop from cursor 0; a thrown
syntax error is caught and yields a null program (`none`).  The fuel
`16 * (length + 1)` bounds the call depth generously; fuel exhaustion
also yields `none` and never occurs on the inputs used here. -/
def Parser'.parse (tokens : List Token) : Option ProgramAST :=
  match parseProgramLoopF (16 * (tokens.length + 1)) ⟨tokens, 0⟩ with
  | some (.ok (funcs, _)) => some ⟨funcs⟩
  | some (.error _) => none
  | none => none

/-! ## Semantic analyzer (`src/sema/Sema.cpp`, `include/sema/Sema.h`)

State passing replaces member mutation.  The scope stack
`std::vector<std::vector<std::pair<std::string, Type>>>` is stored
innermost frame FIRST (the reverse of the C++ vector, whose `back()`
is the innermost frame): `enterScope`/`exitScope`/`declareVariable`
act on the head, and `getVariableType`, which iterates the C++ vector
`rbegin()` to `rend()`, iterates the list front to back; the linear
scan inside one frame keeps the C++ forward declaration order.
Diagnostics (`std::cerr` lines issued by `Semantics::error`) are the
`errors` list.

The visitor definitions for `PrintStmtAST`, `IfStmtAST`,
`WhileStmtAST` and `ForStmtAST` are declared in `include/sema/Sema.h`
but defined nowhere in the repository; they are modelled from the
specification (see `analyzePrintStmt` etc. below). -/

/-- `Semantics::FunctionInfo`. -/
structure FunctionInfo where
  returnType : Ty
  paramTypes : List Ty
  deriving DecidableEq, Repr

/-- The analyzer state of `class Semantics`. -/
structure Semantics where
  hasError : Bool
  errors : List String
  currentReturntype : Ty
  scopes : List (List (String × Ty))
  functions : List (String × FunctionInfo)
  deriving DecidableEq, Repr

/-- `stringToType` (file-scope helper in `Sema.cpp`). -/
def stringToType (typeName : String) : Ty :=
  if typeName = "int" then .Int
  else if typeName = "float" then .Float
  else if typeName = "double" then .Double
  else if typeName = "char" then .Char
  else if typeName = "string" then .String
  else if typeName = "void" then .Void
  else .Invalid

/-- `Semantics::error`: record the message on the diagnostic channel
and set the failure flag. -/
def Semantics.error (st : Semantics) (message : String) : Semantics :=
  { st with hasError := true, errors := st.errors ++ [message] }

/-- `Semantics::enterScope`: push an empty innermost frame. -/
def Semantics.enterScope (st : Semantics) : Semantics :=
  { st with scopes := [] :: st.scopes }

/-- `Semantics::exitScope`: pop the innermost frame. -/
def Semantics.exitScope (st : Semantics) : Semantics :=
  { st with scopes := st.scopes.tail }

/-- `Semantics::declareVariable`: append to the innermost frame (no-op
when no frame is open). -/
def Semantics.declareVariable (st : Semantics) (name : String) (type : Ty) : Semantics :=
  match st.scopes with
  | [] => st
  | frame :: rest => { st with scopes := (frame ++ [(name, type)]) :: rest }

/-- `Semantics::getVariableType`: scan frames innermost-first; inside a
frame, scan declarations in declaration order and return the first
match; `Invalid` when the name is not found. -/
def getVariableType (scopes : List (List (String × Ty))) (name : String) : Ty :=
  match scopes with
  | [] => .Invalid
  | frame :: rest =>
    match frame.find? (fun var => var.1 == name) with
    | some var => var.2
    | none => getVariableType rest name

/-- `Semantics::declareFunction`: append to the function table. -/
def Semantics.declareFunction (st : Semantics) (name : String) (returnType : Ty)
    (paramTypes : List Ty) : Semantics :=
  { st with functions := st.functions ++ [(name, ⟨returnType, paramTypes⟩)] }

/-- `Semantics::getFunction`: first match by name in table order. -/
def getFunction (functions : List (String × FunctionInfo)) (name : String) :
    Option FunctionInfo :=
  match functions.find? (fun func => func.1 == name) with
  | some func => some func.2
  | none => none

mutual

/-- The expression visitors of `Semantics`
(`visit(NumberExprAST&)` … `visit(BinaryExprAST&)`): annotate
`inferredType` in place and thread the analyzer state.  Note that no
visitor writes `constantValue`. -/
def analyzeExpr : Semantics → ExprAST → Semantics × ExprAST
  | st, .number value _ cv => (st, .number value .Int cv)
  | st, .floatE lexeme _ cv => (st, .floatE lexeme .Float cv)
  | st, .stringE value _ cv => (st, .stringE value .String cv)
  | st, .charE value _ cv => (st, .charE value .Char cv)
  | st, .varE name _ cv =>
    let type := getVariableType st.scopes name
    let st1 := if type == Ty.Invalid then st.error ("Undefined variable: " ++ name) else st
    (st1, .varE name type cv)
  | st, .call callee args _ cv =>
    match getFunction st.functions callee with
    | none =>
      (Semantics.error st ("Undefined function: " ++ callee), .call callee args .Invalid cv)
    | some func =>
      let st1 :=
        if args.length ≠ func.paramTypes.length then
          Semantics.error st ("Incorrect number of arguments for function " ++ callee)
        else st
      let r := analyzeExprList st1 args
      (r.1, .call callee r.2 func.returnType cv)
  | st, .binary op left right _ cv =>
    let rl := analyzeExpr st left
    let rr := analyzeExpr rl.1 right
    let type :=
      if rl.2.inferredType == Ty.Float || rr.2.inferredType == Ty.Float then Ty.Float
      else Ty.Int
    (rr.1, .binary op rl.2 rr.2 type cv)

/-- The `for (const auto& arg : node.args) arg->accept(*this);` loop of
`visit(CallExprAST&)`. -/
def analyzeExprList : Semantics → ExprListAST → Semantics × ExprListAST
  | st, .nil => (st, .nil)
  | st, .cons e rest =>
    let r1 := analyzeExpr st e
    let r2 := analyzeExprList r1.1 rest
    (r2.1, .cons r1.2 r2.2)

end

mutual

/-- The statement visitors of `Semantics`.  The `VariableDeclAST` and
`ReturnStmtAST` cases are from `Sema.cpp` (in `visit(VariableDeclAST&)`
the initializer/declared-type comparison of the source is dead code —
its error report is commented out — so only the initializer visit and
the declaration remain).

Modelled from the spec: the `PrintStmtAST`, `IfStmtAST`,
`WhileStmtAST` and `ForStmtAST` cases.  These four visitors are
declared in `include/sema/Sema.h` (lines 19-22) but defined nowhere in
the repository; per spec §4.3/§7 every statement and expression is
still visited — the condition/clauses and the sub-statement lists are
visited in order, with no extra scope frame (block scoping is
deliberately absent, spec §4.3 "State machine" and §9). -/
def analyzeStmt : Semantics → StmtAST → Semantics × StmtAST
  | st, .varDecl type name (some e) =>
    let r := analyzeExpr st e
    (r.1.declareVariable name (stringToType type), .varDecl type name (some r.2))
  | st, .varDecl type name none =>
    (st.declareVariable name (stringToType type), .varDecl type name none)
  | st, .returnStmt expression =>
    let r := analyzeExpr st expression
    (r.1, .returnStmt r.2)
  | st, .print expression =>
    let r := analyzeExpr st expression
    (r.1, .print r.2)
  | st, .ifStmt condition thenBranch elseBranch =>
    let rc := analyzeExpr st condition
    let rt := analyzeStmtList rc.1 thenBranch
    let re := analyzeStmtList rt.1 elseBranch
    (re.1, .ifStmt rc.2 rt.2 re.2)
  | st, .whileStmt condition body =>
    let rc := analyzeExpr st condition
    let rb := analyzeStmtList rc.1 body
    (rb.1, .whileStmt rc.2 rb.2)
  | st, .forStmt (some s) condition increment body =>
    let ri := analyzeStmt st s
    let rc :=
      match condition with
      | some e => let r := analyzeExpr ri.1 e; (r.1, some r.2)
      | none => (ri.1, none)
    let rinc :=
      match increment with
      | some e => let r := analyzeExpr rc.1 e; (r.1, some r.2)
      | none => (rc.1, none)
    let rb := analyzeStmtList rinc.1 body
    (rb.1, .forStmt (some ri.2) rc.2 rinc.2 rb.2)
  | st, .forStmt none condition increment body =>
    let rc :=
      match condition with
      | some e => let r := analyzeExpr st e; (r.1, some r.2)
      | none => (st, none)
    let rinc :=
      match increment with
      | some e => let r := analyzeExpr rc.1 e; (r.1, some r.2)
      | none => (rc.1, none)
    let rb := analyzeStmtList rinc.1 body
    (rb.1, .forStmt none rc.2 rinc.2 rb.2)

/-- The statement loop of `visit(FunctionAST&)` (and of the modelled
block visitors): visit statements in order. -/
def analyzeStmtList : Semantics → StmtListAST → Semantics × StmtListAST
  | st, .nil => (st, .nil)
  | st, .cons s rest =>
    let r1 := analyzeStmt st s
    let r2 := analyzeStmtList r1.1 rest
    (r2.1, .cons r1.2 r2.2)

end

/-- `Semantics::visit(FunctionAST&)`: set the current return type,
open one scope frame, declare the parameters, visit the body, close
the frame. -/
def analyzeFunction (st : Semantics) (fn : FunctionAST) : Semantics × FunctionAST :=
  let st1 := { st with currentReturntype := stringToType fn.returnType }
  let st2 := st1.enterScope
  let st3 := fn.parameters.foldl (fun s param => s.declareVariable param.2 (stringToType param.1)) st2
  let r := analyzeStmtList st3 fn.body
  (r.1.exitScope, { fn with body := r.2 })

/-- The first loop of `Semantics::visit(ProgramAST&)`: declare every
function from its signature (name, return type, parameter types), in
declaration order, without inspecting bodies. -/
def declareAllFunctions (st : Semantics) (prog : ProgramAST) : Semantics :=
  prog.functions.foldl
    (fun s func =>
      s.declareFunction func.name (stringToType func.returnType)
        (func.parameters.map (fun param => stringToType param.1)))
    st

/-- The second loop of `Semantics::visit(ProgramAST&)`: analyze the
function bodies in order. -/
def analyzeFunctionList : Semantics → List FunctionAST → Semantics × List FunctionAST
  | st, [] => (st, [])
  | st, fn :: rest =>
    let r1 := analyzeFunction st fn
    let r2 := analyzeFunctionList r1.1 rest
    (r2.1, r1.2 :: r2.2)

/-- `Semantics::visit(ProgramAST&)`: pass 1 declares all functions,
pass 2 analyzes all bodies. -/
def visitProgram (st : Semantics) (prog : ProgramAST) : Semantics × ProgramAST :=
  let st1 := declareAllFunctions st prog
  let r := analyzeFunctionList st1 prog.functions
  (r.1, ⟨r.2⟩)

/-- The freshly reset state at the start of `Semantics::analyze`
(`hasError = false`, cleared `functions` and `scopes`; a new
`Semantics` object also starts with an empty diagnostic channel and
`currentReturntype = Type::Invalid`). -/
def initSema : Semantics := ⟨false, [], .Invalid, [], []⟩

/-- `Semantics::analyze`: reset, then `program.accept(*this)` TWICE
(sic — `Sema.cpp` lines 8-9 call it twice in a row, so the whole
traversal, including its diagnostics, runs twice); returns
`!hasError` together with the final state and annotated tree. -/
def analyze (prog : ProgramAST) : Bool × Semantics × ProgramAST :=
  let r1 := visitProgram initSema prog
  let r2 := visitProgram r1.1 r1.2
  (!r2.1.hasError, r2.1, r2.2)

/-- The front-end pipeline of `main.cpp` up to semantic analysis:
scan, parse (null program = failure), analyze. -/
def parseSource (source : String) : Option ProgramAST :=
  match scanTokens source.toList with
  | none => none
  | some tokens => Parser'.parse tokens

/-! ## Annotation observers

Traversals collecting the annotation fields of every expression node
reachable from a node/program (preorder), and annotation erasers, used
to state which annotations the analyzer writes. -/

mutual

/-- All `constantValue` fields in an expression tree, preorder. -/
def exprCVs : ExprAST → List (Option Int)
  | .number _ _ cv => [cv]
  | .floatE _ _ cv => [cv]
  | .stringE _ _ cv => [cv]
  | .charE _ _ cv => [cv]
  | .varE _ _ cv => [cv]
  | .call _ args _ cv => cv :: exprListCVs args
  | .binary _ left right _ cv => cv :: (exprCVs left ++ exprCVs right)

/-- All `constantValue` fields in an argument list. -/
def exprListCVs : ExprListAST → List (Option Int)
  | .nil => []
  | .cons e rest => exprCVs e ++ exprListCVs rest

end

mutual

/-- All `constantValue` fields reachable from a statement. -/
def stmtCVs : StmtAST → List (Option Int)
  | .varDecl _ _ (some e) => exprCVs e
  | .varDecl _ _ none => []
  | .returnStmt e => exprCVs e
  | .print e => exprCVs e
  | .ifStmt c t e => exprCVs c ++ (stmtListCVs t ++ stmtListCVs e)
  | .whileStmt c b => exprCVs c ++ stmtListCVs b
  | .forStmt (some s) c i b =>
    stmtCVs s ++ ((match c with | some e => exprCVs e | none => []) ++
      ((match i with | some e => exprCVs e | none => []) ++ stmtListCVs b))
  | .forStmt none c i b =>
    (match c with | some e => exprCVs e | none => []) ++
      ((match i with | some e => exprCVs e | none => []) ++ stmtListCVs b)

/-- All `constantValue` fields reachable from a statement list. -/
def stmtListCVs : StmtListAST → List (Option Int)
  | .nil => []
  | .cons s rest => stmtCVs s ++ stmtListCVs rest

end

/-- All `constantValue` fields reachable from a program. -/
def progCVs (prog : ProgramAST) : List (Option Int) :=
  (prog.functions.map (fun fn => stmtListCVs fn.body)).flatten

/-! ### The analyzer never writes `constantValue` -/

mutual

/-- No expression visitor changes any `constantValue` (there is no
constant-folding code in `Sema.cpp`). -/
def analyzeExpr_cv : ∀ (st : Semantics) (e : ExprAST),
    exprCVs (analyzeExpr st e).2 = exprCVs e
  | _, .number _ _ _ => rfl
  | _, .floatE _ _ _ => rfl
  | _, .stringE _ _ _ => rfl
  | _, .charE _ _ _ => rfl
  | st, .varE name ity cv => by simp [analyzeExpr, exprCVs]
  | st, .call callee args ity cv => by
    have ih := fun st1 => analyzeExprList_cv st1 args
    cases h : getFunction st.functions callee with
    | none => simp [analyzeExpr, h, exprCVs]
    | some func => simp [analyzeExpr, h, exprCVs, ih]
  | st, .binary op left right ity cv => by
    have ihl := analyzeExpr_cv st left
    have ihr := analyzeExpr_cv (analyzeExpr st left).1 right
    simp [analyzeExpr, exprCVs, ihl, ihr]

/-- Argument-list version of `analyzeExpr_cv`. -/
def analyzeExprList_cv : ∀ (st : Semantics) (args : ExprListAST),
    exprListCVs (analyzeExprList st args).2 = exprListCVs args
  | _, .nil => rfl
  | st, .cons e rest => by
    have ih1 := analyzeExpr_cv st e
    have ih2 := analyzeExprList_cv (analyzeExpr st e).1 rest
    simp [analyzeExprList, exprListCVs, ih1, ih2]

end

mutual

/-- No statement visitor changes any `constantValue`. -/
def analyzeStmt_cv : ∀ (st : Semantics) (s : StmtAST),
    stmtCVs (analyzeStmt st s).2 = stmtCVs s
  | st, .varDecl type name (some e) => by
    have ih := analyzeExpr_cv st e
    simp [analyzeStmt, stmtCVs, ih]
  | st, .varDecl type name none => rfl
  | st, .returnStmt e => by
    have ih := analyzeExpr_cv st e
    simp [analyzeStmt, stmtCVs, ih]
  | st, .print e => by
    have ih := analyzeExpr_cv st e
    simp [analyzeStmt, stmtCVs, ih]
  | st, .ifStmt c t e => by
    have ihc := analyzeExpr_cv st c
    have iht := analyzeStmtList_cv (analyzeExpr st c).1 t
    have ihe := analyzeStmtList_cv (analyzeStmtList (analyzeExpr st c).1 t).1 e
    simp [analyzeStmt, stmtCVs, ihc, iht, ihe]
  | st, .whileStmt c b => by
    have ihc := analyzeExpr_cv st c
    have ihb := analyzeStmtList_cv (analyzeExpr st c).1 b
    simp [analyzeStmt, stmtCVs, ihc, ihb]
  | st, .forStmt (some s) c i b => by
    have ihs := analyzeStmt_cv st s
    cases c with
    | some ce =>
      have ihc := analyzeExpr_cv (analyzeStmt st s).1 ce
      cases i with
      | some ie =>
        have ihi := analyzeExpr_cv (analyzeExpr (analyzeStmt st s).1 ce).1 ie
        have ihb := analyzeStmtList_cv
          (analyzeExpr (analyzeExpr (analyzeStmt st s).1 ce).1 ie).1 b
        simp [analyzeStmt, stmtCVs, ihs, ihc, ihi, ihb]
      | none =>
        have ihb := analyzeStmtList_cv (analyzeExpr (analyzeStmt st s).1 ce).1 b
        simp [analyzeStmt, stmtCVs, ihs, ihc, ihb]
    | none =>
      cases i with
      | some ie =>
        have ihi := analyzeExpr_cv (analyzeStmt st s).1 ie
        have ihb := analyzeStmtList_cv (analyzeExpr (analyzeStmt st s).1 ie).1 b
        simp [analyzeStmt, stmtCVs, ihs, ihi, ihb]
      | none =>
        have ihb := analyzeStmtList_cv (analyzeStmt st s).1 b
        simp [analyzeStmt, stmtCVs, ihs, ihb]
  | st, .forStmt none c i b => by
    cases c with
    | some ce =>
      have ihc := analyzeExpr_cv st ce
      cases i with
      | some ie =>
        have ihi := analyzeExpr_cv (analyzeExpr st ce).1 ie
        have ihb := analyzeStmtList_cv (analyzeExpr (analyzeExpr st ce).1 ie).1 b
        simp [analyzeStmt, stmtCVs, ihc, ihi, ihb]
      | none =>
        have ihb := analyzeStmtList_cv (analyzeExpr st ce).1 b
        simp [analyzeStmt, stmtCVs, ihc, ihb]
    | none =>
      cases i with
      | some ie =>
        have ihi := analyzeExpr_cv st ie
        have ihb := analyzeStmtList_cv (analyzeExpr st ie).1 b
        simp [analyzeStmt, stmtCVs, ihi, ihb]
      | none =>
        have ihb := analyzeStmtList_cv st b
        simp [analyzeStmt, stmtCVs, ihb]

/-- Statement-list version of `analyzeStmt_cv`. -/
def analyzeStmtList_cv : ∀ (st : Semantics) (l : StmtListAST),
    stmtListCVs (analyzeStmtList st l).2 = stmtListCVs l
  | _, .nil => rfl
  | st, .cons s rest => by
    have ih1 := analyzeStmt_cv st s
    have ih2 := analyzeStmtList_cv (analyzeStmt st s).1 rest
    simp [analyzeStmtList, stmtListCVs, ih1, ih2]

end

/-- Function-body and program versions of the `constantValue`
preservation fact, including the double `accept` in
`Semantics::analyze`. -/
theorem analyze_cv_preserved (prog : ProgramAST) :
    progCVs (analyze prog).2.2 = progCVs prog := by
  have hfn : ∀ (st : Semantics) (fn : FunctionAST),
      stmtListCVs (analyzeFunction st fn).2.body = stmtListCVs fn.body := by
    intro st fn
    simp [analyzeFunction, analyzeStmtList_cv]
  have hlist : ∀ (fns : List FunctionAST) (st : Semantics),
      ((analyzeFunctionList st fns).2.map (fun fn => stmtListCVs fn.body)).flatten =
        (fns.map (fun fn => stmtListCVs fn.body)).flatten := by
    intro fns
    induction fns with
    | nil => intro st; rfl
    | cons fn rest ih =>
      intro st
      simp [analyzeFunctionList, hfn, ih]
  have hprog : ∀ (st : Semantics) (p : ProgramAST),
      progCVs (visitProgram st p).2 = progCVs p := by
    intro st p
    simp [visitProgram, progCVs, hlist]
  calc progCVs (analyze prog).2.2
      = progCVs (visitProgram initSema prog).2 := by simp [analyze, hprog]
    _ = progCVs prog := hprog _ _

/-! ## Claims C6, C10: call-expression analysis -/

/-- Claim C6 (confirmed): for every call whose callee exists in the
function table with a different parameter count, the analyzer records
the arity error first, still visits every argument expression (the
same `analyzeExprList` traversal as the well-formed path, so argument
subtrees are fully annotated), and infers the callee's declared return
type for the call node regardless of the argument error. -/
theorem claim_C6_arity_mismatch (st : Semantics) (callee : String) (args : ExprListAST)
    (func : FunctionInfo) (ity : Ty) (cv : Option Int)
    (h1 : getFunction st.functions callee = some func)
    (h2 : args.length ≠ func.paramTypes.length) :
    analyzeExpr st (.call callee args ity cv) =
      ((analyzeExprList
          (st.error ("Incorrect number of arguments for function " ++ callee)) args).1,
        .call callee
          (analyzeExprList
            (st.error ("Incorrect number of arguments for function " ++ callee)) args).2
          func.returnType cv) := by
  simp [analyzeExpr, h1, h2]

/-- Witness for C6 at a concrete input: callee `f` declared with one
`int` parameter, called with two arguments. -/
theorem claim_C6_arity_mismatch_witness :
    getFunction (⟨false, [], .Invalid, [], [("f", ⟨.Int, [.Int]⟩)]⟩ : Semantics).functions
        "f" = some ⟨.Int, [.Int]⟩ ∧
      (ExprListAST.cons (.number 1 .Invalid none)
          (.cons (.number 2 .Invalid none) .nil)).length ≠
        (FunctionInfo.mk .Int [.Int]).paramTypes.length ∧
      analyzeExpr (⟨false, [], .Invalid, [], [("f", ⟨.Int, [.Int]⟩)]⟩ : Semantics)
          (.call "f" (.cons (.number 1 .Invalid none) (.cons (.number 2 .Invalid none) .nil))
            .Invalid none) =
        ((analyzeExprList
            (Semantics.error ⟨false, [], .Invalid, [], [("f", ⟨.Int, [.Int]⟩)]⟩
              ("Incorrect number of arguments for function " ++ "f"))
            (.cons (.number 1 .Invalid none) (.cons (.number 2 .Invalid none) .nil))).1,
          .call "f"
            (analyzeExprList
              (Semantics.error ⟨false, [], .Invalid, [], [("f", ⟨.Int, [.Int]⟩)]⟩
                ("Incorrect number of arguments for function " ++ "f"))
              (.cons (.number 1 .Invalid none) (.cons (.number 2 .Invalid none) .nil))).2
            (FunctionInfo.mk .Int [.Int]).returnType none) :=
  ⟨rfl, by decide,
    claim_C6_arity_mismatch _ "f" _ ⟨.Int, [.Int]⟩ .Invalid none rfl (by decide)⟩

/-- Claim C10 (confirmed): for every call whose callee is absent from
the function table, the analyzer reports "Undefined function", sets
the call's inferred type to `Invalid`, and returns with the argument
list untouched (identically the input list: no argument is visited, no
argument annotation changes). -/
theorem claim_C10_undefined_callee (st : Semantics) (callee : String) (args : ExprListAST)
    (ity : Ty) (cv : Option Int)
    (h : getFunction st.functions callee = none) :
    analyzeExpr st (.call callee args ity cv) =
      (st.error ("Undefined function: " ++ callee), .call callee args .Invalid cv) := by
  simp [analyzeExpr, h]

/-- Witness for C10 at a concrete input: `g` undeclared, with an
argument carrying sentinel annotations that survive unchanged. -/
theorem claim_C10_undefined_callee_witness :
    getFunction (initSema.functions) "g" = none ∧
      analyzeExpr initSema
          (.call "g" (.cons (.varE "y" .Float (some 7)) .nil) .Int (some 3)) =
        (initSema.error ("Undefined function: " ++ "g"),
          .call "g" (.cons (.varE "y" .Float (some 7)) .nil) .Invalid (some 3)) :=
  ⟨rfl, claim_C10_undefined_callee initSema "g" _ .Int (some 3) rfl⟩

/-! ## Claim C4: variable lookup -/

/-- Auxiliary: the forward scan inside one frame returns the first
matching declaration, regardless of later redeclarations. -/
theorem find?_first_decl (name : String) (ty : Ty) (post : List (String × Ty)) :
    ∀ pre : List (String × Ty), (∀ v ∈ pre, v.1 ≠ name) →
      (pre ++ (name, ty) :: post).find? (fun v => v.1 == name) = some (name, ty)
  | [], _ => by simp
  | v :: pre, h => by
    have hv : (v.1 == name) = false := by
      simp only [List.mem_cons] at h
      simpa using h v (Or.inl rfl)
    simp only [List.cons_append, List.find?_cons, hv]
    exact find?_first_decl name ty post pre (fun w hw => h w (List.mem_cons_of_mem v hw))

/-- Claim C4 (corrected): variable lookup searches scope frames
innermost-first (the innermost frame containing the name decides), but
within one frame the FIRST declaration wins: the linear scan is
forward in declaration order and returns the earliest match, so later
redeclarations in the same frame are unreachable. -/
theorem claim_C4_lookup_order :
    (∀ (frame : List (String × Ty)) (rest : List (List (String × Ty)))
        (name : String) (entry : String × Ty),
        frame.find? (fun v => v.1 == name) = some entry →
        getVariableType (frame :: rest) name = entry.2) ∧
    (∀ (frame : List (String × Ty)) (rest : List (List (String × Ty))) (name : String),
        frame.find? (fun v => v.1 == name) = none →
        getVariableType (frame :: rest) name = getVariableType rest name) ∧
    (∀ (pre post : List (String × Ty)) (rest : List (List (String × Ty)))
        (name : String) (ty : Ty), (∀ v ∈ pre, v.1 ≠ name) →
        getVariableType ((pre ++ (name, ty) :: post) :: rest) name = ty) := by
  refine ⟨?_, ?_, ?_⟩
  · intro frame rest name entry h
    simp [getVariableType, h]
  · intro frame rest name h
    simp [getVariableType, h]
  · intro pre post rest name ty h
    simp [getVariableType, find?_first_decl name ty post pre h]

/-- Demonstration program for C4: `int main() { int x; float x;
return x; }` — the same name declared twice in one frame. -/
def lookupDemoProg : ProgramAST :=
  ⟨[⟨"int", "main", [],
    .cons (.varDecl "int" "x" none)
      (.cons (.varDecl "float" "x" none)
        (.cons (.returnStmt (.varE "x" .Invalid none)) .nil))⟩]⟩

/-- Counterexample to C4 as stated: with `x` declared `int` then
`float` in the same frame, the lookup (and hence the inferred type of
the subsequent `return x;`) is `Int`, the FIRST declaration — not
`Float`, the most recent one, as the claim asserts. -/
theorem claim_C4_counterexample :
    getVariableType [[("x", Ty.Int), ("x", Ty.Float)]] "x" = Ty.Int ∧
      Ty.Int ≠ Ty.Float ∧
      analyze lookupDemoProg =
        (true, ⟨false, [], .Int, [], [("main", ⟨.Int, []⟩), ("main", ⟨.Int, []⟩)]⟩,
          ⟨[⟨"int", "main", [],
            .cons (.varDecl "int" "x" none)
              (.cons (.varDecl "float" "x" none)
                (.cons (.returnStmt (.varE "x" .Int none)) .nil))⟩]⟩) :=
  ⟨rfl, by decide, rfl⟩

/-- Witness for the (corrected) C4 theorem at concrete inputs. -/
theorem claim_C4_lookup_order_witness :
    ([("y", Ty.Float)].find? (fun v => v.1 == "y") = some ("y", Ty.Float) ∧
      getVariableType [[("y", Ty.Float)], [("y", Ty.Int)]] "y" = Ty.Float) ∧
    ([("y", Ty.Float)].find? (fun v => v.1 == "x") = none ∧
      getVariableType [[("y", Ty.Float)], [("x", Ty.Int)]] "x" =
        getVariableType [[("x", Ty.Int)]] "x") ∧
    ((∀ v ∈ [("y", Ty.Float)], v.1 ≠ "x") ∧
      getVariableType [([("y", Ty.Float)] ++ ("x", Ty.Int) :: [("x", Ty.Char)])] "x" =
        Ty.Int) :=
  ⟨⟨rfl, claim_C4_lookup_order.1 [("y", Ty.Float)] [[("y", Ty.Int)]] "y" ("y", Ty.Float) rfl⟩,
    ⟨rfl, claim_C4_lookup_order.2.1 [("y", Ty.Float)] [[("x", Ty.Int)]] "x" rfl⟩,
    ⟨by decide, claim_C4_lookup_order.2.2 [("y", Ty.Float)] [("x", Ty.Char)] []
      "x" Ty.Int (by decide)⟩⟩


/-! ## Source-to-tree pipeline instances

Concrete scans are settled by `decide`, concrete parses of literal
token lists by `rfl`, and the two stages are composed by rewriting
(evaluating the composed pipeline in one reduction is needlessly
expensive for the kernel). -/

/-- `main.cpp` pipeline composition: if scanning yields exactly `T`
and parsing `T` yields program `P`, the source parses to `P`. -/
theorem parseSource_comp (s : String) (T : List Token) (P : ProgramAST)
    (h1 : scanTokens s.toList = some T) (h2 : Parser'.parse T = some P) :
    parseSource s = some P := by
  simp only [String.toList] at h1
  simp [parseSource, h1, h2]

/-! ## Claim C1: constant folding -/

/-- The token scan of `int main() { int x = 2 + 3; }`. -/
def cfoldToks : List Token :=
  [⟨.KW_INT, "int", 1, 1⟩, ⟨.IDENTIFIER, "main", 1, 5⟩, ⟨.LPAR, "(", 1, 9⟩,
   ⟨.RPAR, ")", 1, 10⟩, ⟨.LBRACE, "\x7b", 1, 12⟩, ⟨.KW_INT, "int", 1, 14⟩,
   ⟨.IDENTIFIER, "x", 1, 18⟩, ⟨.ASSIGN, "=", 1, 20⟩, ⟨.NUMBER, "2", 1, 22⟩,
   ⟨.PLUS, "+", 1, 24⟩, ⟨.NUMBER, "3", 1, 26⟩, ⟨.SEMICOLON, ";", 1, 27⟩,
   ⟨.RBRACE, "\x7d", 1, 29⟩, ⟨.E_O_F, "SIGNING_OFF", 1, 30⟩]

/-- The parsed form of the initializer `2 + 3` (all annotations at
their parser defaults). -/
def cfoldAdditionIn : ExprAST :=
  .binary .PLUS (.number 2 .Invalid none) (.number 3 .Invalid none) .Invalid none

/-- The parse of `int main() { int x = 2 + 3; }`. -/
def cfoldProgParsed : ProgramAST :=
  ⟨[⟨"int", "main", [], .cons (.varDecl "int" "x" (some cfoldAdditionIn)) .nil⟩]⟩

/-- The addition node after semantic analysis: typed `Int`, with
`constantValue` still absent. -/
def cfoldAdditionOut : ExprAST :=
  .binary .PLUS (.number 2 .Int none) (.number 3 .Int none) .Int none

/-- Counterexample to C1 as stated: analyzing a program containing
`int x = 2 + 3;` leaves the addition node's `constantValue` absent
(`none`, not `some 5`), and likewise leaves every integer literal's
`constantValue` absent (`none`, not the literal's own value) — no
visitor in `Sema.cpp` ever writes `constantValue`. -/
theorem claim_C1_counterexample :
    parseSource "int main() { int x = 2 + 3; }" = some cfoldProgParsed ∧
      analyze cfoldProgParsed =
        (true, ⟨false, [], .Int, [], [("main", ⟨.Int, []⟩), ("main", ⟨.Int, []⟩)]⟩,
          ⟨[⟨"int", "main", [], .cons (.varDecl "int" "x" (some cfoldAdditionOut)) .nil⟩]⟩) ∧
      cfoldAdditionOut.constantValue = none ∧
      (none : Option Int) ≠ some 5 ∧
      (ExprAST.number 2 .Int none).constantValue ≠ some 2 :=
  ⟨parseSource_comp _ cfoldToks cfoldProgParsed (by decide) rfl, rfl, rfl,
    by decide, by decide⟩

/-- The token scan of `int main() { int y = 0; int x = 2 + y; }`. -/
def cfoldToks2 : List Token :=
  [⟨.KW_INT, "int", 1, 1⟩, ⟨.IDENTIFIER, "main", 1, 5⟩, ⟨.LPAR, "(", 1, 9⟩,
   ⟨.RPAR, ")", 1, 10⟩, ⟨.LBRACE, "\x7b", 1, 12⟩, ⟨.KW_INT, "int", 1, 14⟩,
   ⟨.IDENTIFIER, "y", 1, 18⟩, ⟨.ASSIGN, "=", 1, 20⟩, ⟨.NUMBER, "0", 1, 22⟩,
   ⟨.SEMICOLON, ";", 1, 23⟩, ⟨.KW_INT, "int", 1, 25⟩, ⟨.IDENTIFIER, "x", 1, 29⟩,
   ⟨.ASSIGN, "=", 1, 31⟩, ⟨.NUMBER, "2", 1, 33⟩, ⟨.PLUS, "+", 1, 35⟩,
   ⟨.IDENTIFIER, "y", 1, 37⟩, ⟨.SEMICOLON, ";", 1, 38⟩, ⟨.RBRACE, "\x7d", 1, 40⟩,
   ⟨.E_O_F, "SIGNING_OFF", 1, 41⟩]

/-- The parse of `int main() { int y = 0; int x = 2 + y; }` (the
non-constant-operand case of the claim). -/
def cfoldProgParsed2 : ProgramAST :=
  ⟨[⟨"int", "main", [],
    .cons (.varDecl "int" "y" (some (.number 0 .Invalid none)))
      (.cons (.varDecl "int" "x"
        (some (.binary .PLUS (.number 2 .Invalid none) (.varE "y" .Invalid none)
          .Invalid none))) .nil)⟩]⟩

/-- Claim C1 (amended): semantic analysis performs no constant folding
at all — `constantValue` is never written by any visitor, for any
operator or operand combination; every node of every analyzed program
keeps its incoming `constantValue` (for parser-produced trees, the
parser default `none`).  In particular, after analyzing
`int x = 2 + 3;` the addition node's and both literals' `constantValue`
are absent, and after analyzing `int x = 2 + y;` (`y` non-constant) the
addition node's `constantValue` is likewise absent. -/
theorem claim_C1_no_folding :
    (∀ prog : ProgramAST, progCVs (analyze prog).2.2 = progCVs prog) ∧
      analyze cfoldProgParsed =
        (true, ⟨false, [], .Int, [], [("main", ⟨.Int, []⟩), ("main", ⟨.Int, []⟩)]⟩,
          ⟨[⟨"int", "main", [], .cons (.varDecl "int" "x" (some cfoldAdditionOut)) .nil⟩]⟩) ∧
      parseSource "int main() { int y = 0; int x = 2 + y; }" = some cfoldProgParsed2 ∧
      progCVs (analyze cfoldProgParsed2).2.2 = [none, none, none, none] :=
  ⟨analyze_cv_preserved, rfl,
    parseSource_comp _ cfoldToks2 cfoldProgParsed2 (by decide) rfl, rfl⟩

/-! ## Claim C3: the undefined-variable scenario -/

/-- The token scan of `int main() { return x; }`. -/
def undefVarToks : List Token :=
  [⟨.KW_INT, "int", 1, 1⟩, ⟨.IDENTIFIER, "main", 1, 5⟩, ⟨.LPAR, "(", 1, 9⟩,
   ⟨.RPAR, ")", 1, 10⟩, ⟨.LBRACE, "\x7b", 1, 12⟩, ⟨.KW_RETURN, "return", 1, 14⟩,
   ⟨.IDENTIFIER, "x", 1, 21⟩, ⟨.SEMICOLON, ";", 1, 22⟩, ⟨.RBRACE, "\x7d", 1, 24⟩,
   ⟨.E_O_F, "SIGNING_OFF", 1, 25⟩]

/-- The parse of `int main() { return x; }`. -/
def undefVarProgParsed : ProgramAST :=
  ⟨[⟨"int", "main", [], .cons (.returnStmt (.varE "x" .Invalid none)) .nil⟩]⟩

/-- Claim C3 (code bug): `int main() { return x; }` parses successfully
and semantic analysis returns failure — but the diagnostic
"Undefined variable: x" is emitted TWICE, not exactly once:
`Semantics::analyze` (Sema.cpp lines 8-9) calls `program.accept(*this)`
twice in a row, so the whole traversal and its diagnostics run twice. -/
theorem claim_C3_undefined_variable :
    parseSource "int main() { return x; }" = some undefVarProgParsed ∧
      analyze undefVarProgParsed =
        (false,
          ⟨true, ["Undefined variable: x", "Undefined variable: x"], .Int, [],
            [("main", ⟨.Int, []⟩), ("main", ⟨.Int, []⟩)]⟩,
          ⟨[⟨"int", "main", [], .cons (.returnStmt (.varE "x" .Invalid none)) .nil⟩]⟩) ∧
      ["Undefined variable: x", "Undefined variable: x"].length ≠ 1 :=
  ⟨parseSource_comp _ undefVarToks undefVarProgParsed (by decide) rfl, rfl, by decide⟩

/-! ## Claim C5: for-statement initializer -/

/-- The token scan of
`int main() { for (i = 0; i < 3; i = i + 1) { } return 0; }`. -/
def forDemoToks : List Token :=
  [⟨.KW_INT, "int", 1, 1⟩, ⟨.IDENTIFIER, "main", 1, 5⟩, ⟨.LPAR, "(", 1, 9⟩,
   ⟨.RPAR, ")", 1, 10⟩, ⟨.LBRACE, "\x7b", 1, 12⟩, ⟨.KW_FOR, "for", 1, 14⟩,
   ⟨.LPAR, "(", 1, 18⟩, ⟨.IDENTIFIER, "i", 1, 19⟩, ⟨.ASSIGN, "=", 1, 21⟩,
   ⟨.NUMBER, "0", 1, 23⟩, ⟨.SEMICOLON, ";", 1, 24⟩, ⟨.IDENTIFIER, "i", 1, 26⟩,
   ⟨.LESS_THAN, "<", 1, 28⟩, ⟨.NUMBER, "3", 1, 30⟩, ⟨.SEMICOLON, ";", 1, 31⟩,
   ⟨.IDENTIFIER, "i", 1, 33⟩, ⟨.ASSIGN, "=", 1, 35⟩, ⟨.IDENTIFIER, "i", 1, 37⟩,
   ⟨.PLUS, "+", 1, 39⟩, ⟨.NUMBER, "1", 1, 41⟩, ⟨.RPAR, ")", 1, 42⟩,
   ⟨.LBRACE, "\x7b", 1, 44⟩, ⟨.RBRACE, "\x7d", 1, 46⟩, ⟨.KW_RETURN, "return", 1, 48⟩,
   ⟨.NUMBER, "0", 1, 55⟩, ⟨.SEMICOLON, ";", 1, 56⟩, ⟨.RBRACE, "\x7d", 1, 58⟩,
   ⟨.E_O_F, "SIGNING_OFF", 1, 59⟩]

/-- The token scan of
`int main() { for (int i = 0; i < 3; i = i + 1) { } return 0; }`. -/
def forDemoToks2 : List Token :=
  [⟨.KW_INT, "int", 1, 1⟩, ⟨.IDENTIFIER, "main", 1, 5⟩, ⟨.LPAR, "(", 1, 9⟩,
   ⟨.RPAR, ")", 1, 10⟩, ⟨.LBRACE, "\x7b", 1, 12⟩, ⟨.KW_FOR, "for", 1, 14⟩,
   ⟨.LPAR, "(", 1, 18⟩, ⟨.KW_INT, "int", 1, 19⟩, ⟨.IDENTIFIER, "i", 1, 23⟩,
   ⟨.ASSIGN, "=", 1, 25⟩, ⟨.NUMBER, "0", 1, 27⟩, ⟨.SEMICOLON, ";", 1, 28⟩,
   ⟨.IDENTIFIER, "i", 1, 30⟩, ⟨.LESS_THAN, "<", 1, 32⟩, ⟨.NUMBER, "3", 1, 34⟩,
   ⟨.SEMICOLON, ";", 1, 35⟩, ⟨.IDENTIFIER, "i", 1, 37⟩, ⟨.ASSIGN, "=", 1, 39⟩,
   ⟨.IDENTIFIER, "i", 1, 41⟩, ⟨.PLUS, "+", 1, 43⟩, ⟨.NUMBER, "1", 1, 45⟩,
   ⟨.RPAR, ")", 1, 46⟩, ⟨.LBRACE, "\x7b", 1, 48⟩, ⟨.RBRACE, "\x7d", 1, 50⟩,
   ⟨.KW_RETURN, "return", 1, 52⟩, ⟨.NUMBER, "0", 1, 59⟩, ⟨.SEMICOLON, ";", 1, 60⟩,
   ⟨.RBRACE, "\x7d", 1, 62⟩, ⟨.E_O_F, "SIGNING_OFF", 1, 63⟩]

/-- The condition `i < 3` as parsed. -/
def forDemoCond : ExprAST :=
  .binary .LESS_THAN (.varE "i" .Invalid none) (.number 3 .Invalid none) .Invalid none

/-- The increment `i = i + 1` as parsed. -/
def forDemoIncr : ExprAST :=
  .binary .ASSIGN (.varE "i" .Invalid none)
    (.binary .PLUS (.varE "i" .Invalid none) (.number 1 .Invalid none) .Invalid none)
    .Invalid none

/-- The parse of the expression-initializer for-program: the
initializer slot is ABSENT. -/
def forDemoProgParsed : ProgramAST :=
  ⟨[⟨"int", "main", [],
    .cons (.forStmt none (some forDemoCond) (some forDemoIncr) .nil)
      (.cons (.returnStmt (.number 0 .Invalid none)) .nil)⟩]⟩

/-- The parse of the declaration-initializer for-program: the
initializer slot is present. -/
def forDemoProgParsed2 : ProgramAST :=
  ⟨[⟨"int", "main", [],
    .cons (.forStmt (some (.varDecl "int" "i" (some (.number 0 .Invalid none))))
        (some forDemoCond) (some forDemoIncr) .nil)
      (.cons (.returnStmt (.number 0 .Invalid none)) .nil)⟩]⟩

/-- Claim C5 (code bug): parsing
`int main() { for (i = 0; i < 3; i = i + 1) { } return 0; }` succeeds,
but the resulting `ForStmtAST` has an ABSENT initializer even though
the first clause `i = 0;` is textually present:
`Parser::parseForStatement` parses the expression initializer into a
local and never stores it (Parser.cpp lines 153-156); only the
variable-declaration form of the initializer is kept (second
conjunct). -/
theorem claim_C5_for_initializer_dropped :
    parseSource "int main() { for (i = 0; i < 3; i = i + 1) { } return 0; }" =
        some forDemoProgParsed ∧
      parseSource "int main() { for (int i = 0; i < 3; i = i + 1) { } return 0; }" =
        some forDemoProgParsed2 :=
  ⟨parseSource_comp _ forDemoToks forDemoProgParsed (by decide) rfl,
    parseSource_comp _ forDemoToks2 forDemoProgParsed2 (by decide) rfl⟩

/-! ## Claim C7: function table before bodies -/

/-- The signature entry pass 1 derives from a `FunctionAST` — name,
return type and parameter types only, never the body. -/
def sigOf (fn : FunctionAST) : String × FunctionInfo :=
  (fn.name, ⟨stringToType fn.returnType, fn.parameters.map (fun param => stringToType param.1)⟩)

/-- Pass 1 appends exactly the declared signatures, in declaration
order, touching nothing else in the state. -/
theorem declareAllFunctions_eq (st : Semantics) (prog : ProgramAST) :
    declareAllFunctions st prog =
      { st with functions := st.functions ++ prog.functions.map sigOf } := by
  suffices h : ∀ (fns : List FunctionAST) (st : Semantics),
      fns.foldl
        (fun s func =>
          s.declareFunction func.name (stringToType func.returnType)
            (func.parameters.map (fun param => stringToType param.1)))
        st = { st with functions := st.functions ++ fns.map sigOf } by
    simpa [declareAllFunctions] using h prog.functions st
  intro fns
  induction fns with
  | nil => intro st; simp
  | cons fn rest ih =>
    intro st
    rw [List.foldl_cons, ih]
    simp [Semantics.declareFunction, sigOf]

/-- The token scan of `int b() { return a(); } int a() { return 1; }`. -/
def fwdRefToks : List Token :=
  [⟨.KW_INT, "int", 1, 1⟩, ⟨.IDENTIFIER, "b", 1, 5⟩, ⟨.LPAR, "(", 1, 6⟩,
   ⟨.RPAR, ")", 1, 7⟩, ⟨.LBRACE, "\x7b", 1, 9⟩, ⟨.KW_RETURN, "return", 1, 11⟩,
   ⟨.IDENTIFIER, "a", 1, 18⟩, ⟨.LPAR, "(", 1, 19⟩, ⟨.RPAR, ")", 1, 20⟩,
   ⟨.SEMICOLON, ";", 1, 21⟩, ⟨.RBRACE, "\x7d", 1, 23⟩, ⟨.KW_INT, "int", 1, 25⟩,
   ⟨.IDENTIFIER, "a", 1, 29⟩, ⟨.LPAR, "(", 1, 30⟩, ⟨.RPAR, ")", 1, 31⟩,
   ⟨.LBRACE, "\x7b", 1, 33⟩, ⟨.KW_RETURN, "return", 1, 35⟩, ⟨.NUMBER, "1", 1, 42⟩,
   ⟨.SEMICOLON, ";", 1, 43⟩, ⟨.RBRACE, "\x7d", 1, 45⟩, ⟨.E_O_F, "SIGNING_OFF", 1, 46⟩]

/-- The parse of `int b() { return a(); } int a() { return 1; }` —
`b` calls `a`, which is declared textually after `b`. -/
def fwdRefProgParsed : ProgramAST :=
  ⟨[⟨"int", "b", [], .cons (.returnStmt (.call "a" .nil .Invalid none)) .nil⟩,
    ⟨"int", "a", [], .cons (.returnStmt (.number 1 .Invalid none)) .nil⟩]⟩

/-- Claim C7 (confirmed): `visit(ProgramAST&)` populates the function
table from every top-level signature, in declaration order and without
inspecting any body (`sigOf` reads only name/returnType/parameters),
before any function body is analyzed (the body pass runs on the state
produced by the completed declaration pass); hence the forward-reference
program in which `b` calls the later-declared `a` analyzes successfully
with no error at all. -/
theorem claim_C7_table_before_bodies :
    (∀ (st : Semantics) (prog : ProgramAST),
        visitProgram st prog =
          (let r := analyzeFunctionList
            { st with functions := st.functions ++ prog.functions.map sigOf }
            prog.functions
           (r.1, ⟨r.2⟩))) ∧
      parseSource "int b() { return a(); } int a() { return 1; }" =
        some fwdRefProgParsed ∧
      analyze fwdRefProgParsed =
        (true,
          ⟨false, [], .Int, [],
            [("b", ⟨.Int, []⟩), ("a", ⟨.Int, []⟩), ("b", ⟨.Int, []⟩), ("a", ⟨.Int, []⟩)]⟩,
          ⟨[⟨"int", "b", [], .cons (.returnStmt (.call "a" .nil .Int none)) .nil⟩,
            ⟨"int", "a", [], .cons (.returnStmt (.number 1 .Int none)) .nil⟩]⟩) ∧
      (analyze fwdRefProgParsed).2.1.errors = [] := by
  refine ⟨?_, parseSource_comp _ fwdRefToks fwdRefProgParsed (by decide) rfl, rfl, rfl⟩
  intro st prog
  simp [visitProgram, declareAllFunctions_eq]

/-! ## Claim C2: traversal and in-place annotation

The claim is about which annotations a run of `Semantics::analyze`
overwrites.  "The analyzer overwrites `inferredType` on node `n`" is
formalized as independence: the analysis result does not depend on the
incoming annotations of `n`.  We compare a tree against its
annotation-erased form; equal results (up to the untouched
`constantValue`) mean every annotation was overwritten. -/

mutual
/-- Reset both annotation fields on every node (the state of a freshly
parsed tree). -/
def eraseAnnE : ExprAST → ExprAST
  | .number v _ _ => .number v .Invalid none
  | .floatE s _ _ => .floatE s .Invalid none
  | .stringE s _ _ => .stringE s .Invalid none
  | .charE c _ _ => .charE c .Invalid none
  | .varE n _ _ => .varE n .Invalid none
  | .call callee args _ _ => .call callee (eraseAnnL args) .Invalid none
  | .binary op l r _ _ => .binary op (eraseAnnE l) (eraseAnnE r) .Invalid none
/-- `eraseAnnE` on argument lists. -/
def eraseAnnL : ExprListAST → ExprListAST
  | .nil => .nil
  | .cons e rest => .cons (eraseAnnE e) (eraseAnnL rest)
end

mutual
/-- Reset only the `constantValue` field on every node. -/
def eraseCVE : ExprAST → ExprAST
  | .number v t _ => .number v t none
  | .floatE s t _ => .floatE s t none
  | .stringE s t _ => .stringE s t none
  | .charE c t _ => .charE c t none
  | .varE n t _ => .varE n t none
  | .call callee args t _ => .call callee (eraseCVL args) t none
  | .binary op l r t _ => .binary op (eraseCVE l) (eraseCVE r) t none
/-- `eraseCVE` on argument lists. -/
def eraseCVL : ExprListAST → ExprListAST
  | .nil => .nil
  | .cons e rest => .cons (eraseCVE e) (eraseCVL rest)
end

mutual
/-- `eraseAnnE` on statements. -/
def eraseAnnS : StmtAST → StmtAST
  | .varDecl t n (some e) => .varDecl t n (some (eraseAnnE e))
  | .varDecl t n none => .varDecl t n none
  | .returnStmt e => .returnStmt (eraseAnnE e)
  | .print e => .print (eraseAnnE e)
  | .ifStmt c t e => .ifStmt (eraseAnnE c) (eraseAnnSL t) (eraseAnnSL e)
  | .whileStmt c b => .whileStmt (eraseAnnE c) (eraseAnnSL b)
  | .forStmt (some s) c i b =>
    .forStmt (some (eraseAnnS s)) (c.map eraseAnnE) (i.map eraseAnnE) (eraseAnnSL b)
  | .forStmt none c i b =>
    .forStmt none (c.map eraseAnnE) (i.map eraseAnnE) (eraseAnnSL b)
/-- `eraseAnnS` on statement lists. -/
def eraseAnnSL : StmtListAST → StmtListAST
  | .nil => .nil
  | .cons s rest => .cons (eraseAnnS s) (eraseAnnSL rest)
end

mutual
/-- `eraseCVE` on statements. -/
def eraseCVS : StmtAST → StmtAST
  | .varDecl t n (some e) => .varDecl t n (some (eraseCVE e))
  | .varDecl t n none => .varDecl t n none
  | .returnStmt e => .returnStmt (eraseCVE e)
  | .print e => .print (eraseCVE e)
  | .ifStmt c t e => .ifStmt (eraseCVE c) (eraseCVSL t) (eraseCVSL e)
  | .whileStmt c b => .whileStmt (eraseCVE c) (eraseCVSL b)
  | .forStmt (some s) c i b =>
    .forStmt (some (eraseCVS s)) (c.map eraseCVE) (i.map eraseCVE) (eraseCVSL b)
  | .forStmt none c i b =>
    .forStmt none (c.map eraseCVE) (i.map eraseCVE) (eraseCVSL b)
/-- `eraseCVS` on statement lists. -/
def eraseCVSL : StmtListAST → StmtListAST
  | .nil => .nil
  | .cons s rest => .cons (eraseCVS s) (eraseCVSL rest)
end

/-- `eraseAnnE` on functions (signature untouched). -/
def eraseAnnFn (fn : FunctionAST) : FunctionAST :=
  { fn with body := eraseAnnSL fn.body }

/-- `eraseAnnE` on programs. -/
def eraseAnnProg (prog : ProgramAST) : ProgramAST :=
  ⟨prog.functions.map eraseAnnFn⟩

/-- `eraseCVE` on functions. -/
def eraseCVFn (fn : FunctionAST) : FunctionAST :=
  { fn with body := eraseCVSL fn.body }

/-- `eraseCVE` on programs. -/
def eraseCVProg (prog : ProgramAST) : ProgramAST :=
  ⟨prog.functions.map eraseCVFn⟩

mutual
/-- Every call expression in the tree names a function in `names`
(with the function table built by pass 1, exactly these calls escape
the early-return of `visit(CallExprAST&)`). -/
def wcE (names : List String) : ExprAST → Bool
  | .number _ _ _ => true
  | .floatE _ _ _ => true
  | .stringE _ _ _ => true
  | .charE _ _ _ => true
  | .varE _ _ _ => true
  | .call callee args _ _ => names.contains callee && wcL names args
  | .binary _ l r _ _ => wcE names l && wcE names r
/-- `wcE` on argument lists. -/
def wcL (names : List String) : ExprListAST → Bool
  | .nil => true
  | .cons e rest => wcE names e && wcL names rest
end

mutual
/-- `wcE` on statements. -/
def wcS (names : List String) : StmtAST → Bool
  | .varDecl _ _ (some e) => wcE names e
  | .varDecl _ _ none => true
  | .returnStmt e => wcE names e
  | .print e => wcE names e
  | .ifStmt c t e => wcE names c && (wcSL names t && wcSL names e)
  | .whileStmt c b => wcE names c && wcSL names b
  | .forStmt (some s) c i b =>
    wcS names s &&
      ((match c with | some e => wcE names e | none => true) &&
        ((match i with | some e => wcE names e | none => true) && wcSL names b))
  | .forStmt none c i b =>
    (match c with | some e => wcE names e | none => true) &&
      ((match i with | some e => wcE names e | none => true) && wcSL names b)
/-- `wcS` on statement lists. -/
def wcSL (names : List String) : StmtListAST → Bool
  | .nil => true
  | .cons s rest => wcS names s && wcSL names rest
end

/-- Every call in the program names one of the program's own
top-level functions. -/
def wcProg (prog : ProgramAST) : Bool :=
  prog.functions.all (fun fn => wcSL (prog.functions.map (fun g => g.name)) fn.body)

/-! ### Small invariants used by the independence proof -/

mutual
/-- Expression analysis never changes the function table. -/
def analyzeExpr_functions : ∀ (st : Semantics) (e : ExprAST),
    (analyzeExpr st e).1.functions = st.functions
  | _, .number _ _ _ => rfl
  | _, .floatE _ _ _ => rfl
  | _, .stringE _ _ _ => rfl
  | _, .charE _ _ _ => rfl
  | st, .varE name ity cv => by
    simp only [analyzeExpr]
    split <;> simp [Semantics.error]
  | st, .call callee args ity cv => by
    cases h : getFunction st.functions callee with
    | none => simp [analyzeExpr, h, Semantics.error]
    | some func =>
      have ih : ∀ st1, (analyzeExprList st1 args).1.functions = st1.functions :=
        fun st1 => analyzeExprList_functions st1 args
      simp only [analyzeExpr, h]
      split <;> simp [ih, Semantics.error]
  | st, .binary op l r ity cv => by
    have ihl := analyzeExpr_functions st l
    have ihr := analyzeExpr_functions (analyzeExpr st l).1 r
    simp [analyzeExpr, ihr, ihl]
/-- Argument-list version of `analyzeExpr_functions`. -/
def analyzeExprList_functions : ∀ (st : Semantics) (args : ExprListAST),
    (analyzeExprList st args).1.functions = st.functions
  | _, .nil => rfl
  | st, .cons e rest => by
    have ih1 := analyzeExpr_functions st e
    have ih2 := analyzeExprList_functions (analyzeExpr st e).1 rest
    simp [analyzeExprList, ih2, ih1]
end

/-- `declareVariable` never changes the function table. -/
theorem declareVariable_functions (st : Semantics) (name : String) (ty : Ty) :
    (st.declareVariable name ty).functions = st.functions := by
  unfold Semantics.declareVariable
  split <;> rfl

mutual
/-- Statement analysis never changes the function table. -/
def analyzeStmt_functions : ∀ (st : Semantics) (s : StmtAST),
    (analyzeStmt st s).1.functions = st.functions
  | st, .varDecl t n (some e) => by
    have ih := analyzeExpr_functions st e
    simp [analyzeStmt, declareVariable_functions, ih]
  | st, .varDecl t n none => by
    simp [analyzeStmt, declareVariable_functions]
  | st, .returnStmt e => by
    have ih := analyzeExpr_functions st e
    simp [analyzeStmt, ih]
  | st, .print e => by
    have ih := analyzeExpr_functions st e
    simp [analyzeStmt, ih]
  | st, .ifStmt c t e => by
    have ihc := analyzeExpr_functions st c
    have iht := analyzeStmtList_functions (analyzeExpr st c).1 t
    have ihe := analyzeStmtList_functions (analyzeStmtList (analyzeExpr st c).1 t).1 e
    simp [analyzeStmt, ihe, iht, ihc]
  | st, .whileStmt c b => by
    have ihc := analyzeExpr_functions st c
    have ihb := analyzeStmtList_functions (analyzeExpr st c).1 b
    simp [analyzeStmt, ihb, ihc]
  | st, .forStmt (some s) c i b => by
    have ihs := analyzeStmt_functions st s
    cases c with
    | some ce =>
      cases i with
      | some ie =>
        have ihc := analyzeExpr_functions (analyzeStmt st s).1 ce
        have ihi := analyzeExpr_functions (analyzeExpr (analyzeStmt st s).1 ce).1 ie
        have ihb := analyzeStmtList_functions
          (analyzeExpr (analyzeExpr (analyzeStmt st s).1 ce).1 ie).1 b
        simp [analyzeStmt, ihb, ihi, ihc, ihs]
      | none =>
        have ihc := analyzeExpr_functions (analyzeStmt st s).1 ce
        have ihb := analyzeStmtList_functions (analyzeExpr (analyzeStmt st s).1 ce).1 b
        simp [analyzeStmt, ihb, ihc, ihs]
    | none =>
      cases i with
      | some ie =>
        have ihi := analyzeExpr_functions (analyzeStmt st s).1 ie
        have ihb := analyzeStmtList_functions (analyzeExpr (analyzeStmt st s).1 ie).1 b
        simp [analyzeStmt, ihb, ihi, ihs]
      | none =>
        have ihb := analyzeStmtList_functions (analyzeStmt st s).1 b
        simp [analyzeStmt, ihb, ihs]
  | st, .forStmt none c i b => by
    cases c with
    | some ce =>
      cases i with
      | some ie =>
        have ihc := analyzeExpr_functions st ce
        have ihi := analyzeExpr_functions (analyzeExpr st ce).1 ie
        have ihb := analyzeStmtList_functions (analyzeExpr (analyzeExpr st ce).1 ie).1 b
        simp [analyzeStmt, ihb, ihi, ihc]
      | none =>
        have ihc := analyzeExpr_functions st ce
        have ihb := analyzeStmtList_functions (analyzeExpr st ce).1 b
        simp [analyzeStmt, ihb, ihc]
    | none =>
      cases i with
      | some ie =>
        have ihi := analyzeExpr_functions st ie
        have ihb := analyzeStmtList_functions (analyzeExpr st ie).1 b
        simp [analyzeStmt, ihb, ihi]
      | none =>
        have ihb := analyzeStmtList_functions st b
        simp [analyzeStmt, ihb]
/-- Statement-list version of `analyzeStmt_functions`. -/
def analyzeStmtList_functions : ∀ (st : Semantics) (l : StmtListAST),
    (analyzeStmtList st l).1.functions = st.functions
  | _, .nil => rfl
  | st, .cons s rest => by
    have ih1 := analyzeStmt_functions st s
    have ih2 := analyzeStmtList_functions (analyzeStmt st s).1 rest
    simp [analyzeStmtList, ih2, ih1]
end

/-- Erasing `constantValue` keeps `inferredType`. -/
theorem eraseCVE_inferredType (e : ExprAST) :
    (eraseCVE e).inferredType = e.inferredType := by
  cases e <;> rfl

/-- Erasing annotations preserves the argument count. -/
def eraseAnnL_length : ∀ args : ExprListAST, (eraseAnnL args).length = args.length
  | .nil => rfl
  | .cons e rest => by simp [eraseAnnL, ExprListAST.length, eraseAnnL_length rest]

mutual
/-- Erasing annotations after erasing `constantValue` is just erasing
annotations. -/
def eraseAnnE_eraseCVE : ∀ e : ExprAST, eraseAnnE (eraseCVE e) = eraseAnnE e
  | .number _ _ _ => rfl
  | .floatE _ _ _ => rfl
  | .stringE _ _ _ => rfl
  | .charE _ _ _ => rfl
  | .varE _ _ _ => rfl
  | .call callee args ity cv => by
    simp [eraseCVE, eraseAnnE, eraseAnnL_eraseCVL args]
  | .binary op l r ity cv => by
    simp [eraseCVE, eraseAnnE, eraseAnnE_eraseCVE l, eraseAnnE_eraseCVE r]
/-- Argument-list version of `eraseAnnE_eraseCVE`. -/
def eraseAnnL_eraseCVL : ∀ args : ExprListAST, eraseAnnL (eraseCVL args) = eraseAnnL args
  | .nil => rfl
  | .cons e rest => by
    simp [eraseCVL, eraseAnnL, eraseAnnE_eraseCVE e, eraseAnnL_eraseCVL rest]
end

mutual
/-- Statement version of `eraseAnnE_eraseCVE`. -/
def eraseAnnS_eraseCVS : ∀ s : StmtAST, eraseAnnS (eraseCVS s) = eraseAnnS s
  | .varDecl t n (some e) => by simp [eraseCVS, eraseAnnS, eraseAnnE_eraseCVE e]
  | .varDecl t n none => rfl
  | .returnStmt e => by simp [eraseCVS, eraseAnnS, eraseAnnE_eraseCVE e]
  | .print e => by simp [eraseCVS, eraseAnnS, eraseAnnE_eraseCVE e]
  | .ifStmt c t e => by
    simp [eraseCVS, eraseAnnS, eraseAnnE_eraseCVE c, eraseAnnSL_eraseCVSL t,
      eraseAnnSL_eraseCVSL e]
  | .whileStmt c b => by
    simp [eraseCVS, eraseAnnS, eraseAnnE_eraseCVE c, eraseAnnSL_eraseCVSL b]
  | .forStmt (some s) c i b => by
    cases c <;> cases i <;>
      simp [eraseCVS, eraseAnnS, eraseAnnS_eraseCVS s, eraseAnnSL_eraseCVSL b,
        eraseAnnE_eraseCVE]
  | .forStmt none c i b => by
    cases c <;> cases i <;>
      simp [eraseCVS, eraseAnnS, eraseAnnSL_eraseCVSL b, eraseAnnE_eraseCVE]
/-- Statement-list version of `eraseAnnE_eraseCVE`. -/
def eraseAnnSL_eraseCVSL : ∀ l : StmtListAST, eraseAnnSL (eraseCVSL l) = eraseAnnSL l
  | .nil => rfl
  | .cons s rest => by
    simp [eraseCVSL, eraseAnnSL, eraseAnnS_eraseCVS s, eraseAnnSL_eraseCVSL rest]
end

/-- Program version of `eraseAnnE_eraseCVE`. -/
theorem eraseAnnProg_eraseCVProg (prog : ProgramAST) :
    eraseAnnProg (eraseCVProg prog) = eraseAnnProg prog := by
  simp [eraseCVProg, eraseAnnProg, Function.comp_def, eraseAnnFn, eraseCVFn,
    eraseAnnSL_eraseCVSL]

mutual
/-- Well-calledness ignores annotations. -/
def wcE_eraseAnn (names : List String) : ∀ e : ExprAST,
    wcE names (eraseAnnE e) = wcE names e
  | .number _ _ _ => rfl
  | .floatE _ _ _ => rfl
  | .stringE _ _ _ => rfl
  | .charE _ _ _ => rfl
  | .varE _ _ _ => rfl
  | .call callee args ity cv => by
    simp [eraseAnnE, wcE, wcL_eraseAnn names args]
  | .binary op l r ity cv => by
    simp [eraseAnnE, wcE, wcE_eraseAnn names l, wcE_eraseAnn names r]
/-- Argument-list version of `wcE_eraseAnn`. -/
def wcL_eraseAnn (names : List String) : ∀ args : ExprListAST,
    wcL names (eraseAnnL args) = wcL names args
  | .nil => rfl
  | .cons e rest => by
    simp [eraseAnnL, wcL, wcE_eraseAnn names e, wcL_eraseAnn names rest]
end

mutual
/-- Statement version of `wcE_eraseAnn`. -/
def wcS_eraseAnn (names : List String) : ∀ s : StmtAST,
    wcS names (eraseAnnS s) = wcS names s
  | .varDecl t n (some e) => by simp [eraseAnnS, wcS, wcE_eraseAnn names e]
  | .varDecl t n none => rfl
  | .returnStmt e => by simp [eraseAnnS, wcS, wcE_eraseAnn names e]
  | .print e => by simp [eraseAnnS, wcS, wcE_eraseAnn names e]
  | .ifStmt c t e => by
    simp [eraseAnnS, wcS, wcE_eraseAnn names c, wcSL_eraseAnn names t,
      wcSL_eraseAnn names e]
  | .whileStmt c b => by
    simp [eraseAnnS, wcS, wcE_eraseAnn names c, wcSL_eraseAnn names b]
  | .forStmt (some s) c i b => by
    cases c <;> cases i <;>
      simp [eraseAnnS, wcS, wcS_eraseAnn names s, wcSL_eraseAnn names b, wcE_eraseAnn]
  | .forStmt none c i b => by
    cases c <;> cases i <;>
      simp [eraseAnnS, wcS, wcSL_eraseAnn names b, wcE_eraseAnn]
/-- Statement-list version of `wcE_eraseAnn`. -/
def wcSL_eraseAnn (names : List String) : ∀ l : StmtListAST,
    wcSL names (eraseAnnSL l) = wcSL names l
  | .nil => rfl
  | .cons s rest => by
    simp [eraseAnnSL, wcSL, wcS_eraseAnn names s, wcSL_eraseAnn names rest]
end

mutual
/-- Analysis changes only annotations: the annotation-erased result is
the annotation-erased input. -/
def analyzeExpr_eraseAnn : ∀ (st : Semantics) (e : ExprAST),
    eraseAnnE (analyzeExpr st e).2 = eraseAnnE e
  | _, .number _ _ _ => rfl
  | _, .floatE _ _ _ => rfl
  | _, .stringE _ _ _ => rfl
  | _, .charE _ _ _ => rfl
  | st, .varE name ity cv => by simp [analyzeExpr, eraseAnnE]
  | st, .call callee args ity cv => by
    have ih := fun st1 => analyzeExprList_eraseAnn st1 args
    cases h : getFunction st.functions callee with
    | none => simp [analyzeExpr, h, eraseAnnE]
    | some func => simp [analyzeExpr, h, eraseAnnE, ih]
  | st, .binary op l r ity cv => by
    have ihl := analyzeExpr_eraseAnn st l
    have ihr := analyzeExpr_eraseAnn (analyzeExpr st l).1 r
    simp [analyzeExpr, eraseAnnE, ihl, ihr]
/-- Argument-list version of `analyzeExpr_eraseAnn`. -/
def analyzeExprList_eraseAnn : ∀ (st : Semantics) (args : ExprListAST),
    eraseAnnL (analyzeExprList st args).2 = eraseAnnL args
  | _, .nil => rfl
  | st, .cons e rest => by
    have ih1 := analyzeExpr_eraseAnn st e
    have ih2 := analyzeExprList_eraseAnn (analyzeExpr st e).1 rest
    simp [analyzeExprList, eraseAnnL, ih1, ih2]
end

mutual
/-- Statement version of `analyzeExpr_eraseAnn`. -/
def analyzeStmt_eraseAnn : ∀ (st : Semantics) (s : StmtAST),
    eraseAnnS (analyzeStmt st s).2 = eraseAnnS s
  | st, .varDecl t n (some e) => by
    simp [analyzeStmt, eraseAnnS, analyzeExpr_eraseAnn st e]
  | st, .varDecl t n none => rfl
  | st, .returnStmt e => by simp [analyzeStmt, eraseAnnS, analyzeExpr_eraseAnn st e]
  | st, .print e => by simp [analyzeStmt, eraseAnnS, analyzeExpr_eraseAnn st e]
  | st, .ifStmt c t e => by
    have ihc := analyzeExpr_eraseAnn st c
    have iht := analyzeStmtList_eraseAnn (analyzeExpr st c).1 t
    have ihe := analyzeStmtList_eraseAnn (analyzeStmtList (analyzeExpr st c).1 t).1 e
    simp [analyzeStmt, eraseAnnS, ihc, iht, ihe]
  | st, .whileStmt c b => by
    have ihc := analyzeExpr_eraseAnn st c
    have ihb := analyzeStmtList_eraseAnn (analyzeExpr st c).1 b
    simp [analyzeStmt, eraseAnnS, ihc, ihb]
  | st, .forStmt (some s) c i b => by
    have ihs := analyzeStmt_eraseAnn st s
    cases c <;> cases i <;>
      simp [analyzeStmt, eraseAnnS, ihs, analyzeExpr_eraseAnn, analyzeStmtList_eraseAnn]
  | st, .forStmt none c i b => by
    cases c <;> cases i <;>
      simp [analyzeStmt, eraseAnnS, analyzeExpr_eraseAnn, analyzeStmtList_eraseAnn]
/-- Statement-list version of `analyzeExpr_eraseAnn`. -/
def analyzeStmtList_eraseAnn : ∀ (st : Semantics) (l : StmtListAST),
    eraseAnnSL (analyzeStmtList st l).2 = eraseAnnSL l
  | _, .nil => rfl
  | st, .cons s rest => by
    have ih1 := analyzeStmt_eraseAnn st s
    have ih2 := analyzeStmtList_eraseAnn (analyzeStmt st s).1 rest
    simp [analyzeStmtList, eraseAnnSL, ih1, ih2]
end

/-- Program version of `analyzeExpr_eraseAnn` (one `visit(ProgramAST&)`
pass). -/
theorem visitProgram_eraseAnn (st : Semantics) (prog : ProgramAST) :
    eraseAnnProg (visitProgram st prog).2 = eraseAnnProg prog := by
  suffices h : ∀ (fns : List FunctionAST) (st : Semantics),
      (analyzeFunctionList st fns).2.map eraseAnnFn = fns.map eraseAnnFn by
    simp [visitProgram, eraseAnnProg, h]
  intro fns
  induction fns with
  | nil => intro st; rfl
  | cons fn rest ih =>
    intro st
    simp [analyzeFunctionList, ih, eraseAnnFn, analyzeFunction, analyzeStmtList_eraseAnn]

/-- `Semantics::error` never changes the function table. -/
theorem error_functions (st : Semantics) (m : String) :
    (st.error m).functions = st.functions := rfl

mutual

/-- Independence of expression analysis from incoming annotations
(provided every call in the expression has a known callee): analyzing
the annotation-erased tree gives the same final state, and the same
tree up to the untouched `constantValue` field. -/
def analyzeExpr_indep : ∀ (names : List String) (st : Semantics) (e : ExprAST),
    wcE names e = true →
    (∀ c, names.contains c = true → (getFunction st.functions c).isSome = true) →
    analyzeExpr st (eraseAnnE e) = ((analyzeExpr st e).1, eraseCVE (analyzeExpr st e).2)
  | _, _, .number _ _ _, _, _ => rfl
  | _, _, .floatE _ _ _, _, _ => rfl
  | _, _, .stringE _ _ _, _, _ => rfl
  | _, _, .charE _ _ _, _, _ => rfl
  | _, st, .varE name ity cv, _, _ => by
    simp [eraseAnnE, analyzeExpr, eraseCVE]
  | names, st, .call callee args ity cv, h, hm => by
    simp only [wcE, Bool.and_eq_true] at h
    have hsome := hm callee h.1
    rcases Option.isSome_iff_exists.mp hsome with ⟨func, heq⟩
    simp only [eraseAnnE, analyzeExpr, heq, eraseAnnL_length]
    have hfun : (if args.length ≠ func.paramTypes.length then
        Semantics.error st ("Incorrect number of arguments for function " ++ callee)
        else st).functions = st.functions := by
      split <;> rfl
    have ih := analyzeExprList_indep names
      (if args.length ≠ func.paramTypes.length then
        Semantics.error st ("Incorrect number of arguments for function " ++ callee)
       else st) args h.2
      (fun c hc => by rw [hfun]; exact hm c hc)
    simp only [ne_eq, ite_not] at ih
    simp [ih, eraseCVE]
  | names, st, .binary op l r ity cv, h, hm => by
    simp only [wcE, Bool.and_eq_true] at h
    have ihl := analyzeExpr_indep names st l h.1 hm
    have ihr := analyzeExpr_indep names (analyzeExpr st l).1 r h.2
      (fun c hc => by rw [analyzeExpr_functions st l]; exact hm c hc)
    simp [eraseAnnE, analyzeExpr, ihl, ihr, eraseCVE, eraseCVE_inferredType]

/-- Argument-list version of `analyzeExpr_indep`. -/
def analyzeExprList_indep : ∀ (names : List String) (st : Semantics) (args : ExprListAST),
    wcL names args = true →
    (∀ c, names.contains c = true → (getFunction st.functions c).isSome = true) →
    analyzeExprList st (eraseAnnL args) =
      ((analyzeExprList st args).1, eraseCVL (analyzeExprList st args).2)
  | _, _, .nil, _, _ => rfl
  | names, st, .cons e rest, h, hm => by
    simp only [wcL, Bool.and_eq_true] at h
    have ih1 := analyzeExpr_indep names st e h.1 hm
    have ih2 := analyzeExprList_indep names (analyzeExpr st e).1 rest h.2
      (fun c hc => by rw [analyzeExpr_functions st e]; exact hm c hc)
    simp [eraseAnnL, analyzeExprList, ih1, ih2, eraseCVL]

end

mutual

/-- Statement version of `analyzeExpr_indep`. -/
def analyzeStmt_indep : ∀ (names : List String) (st : Semantics) (s : StmtAST),
    wcS names s = true →
    (∀ c, names.contains c = true → (getFunction st.functions c).isSome = true) →
    analyzeStmt st (eraseAnnS s) = ((analyzeStmt st s).1, eraseCVS (analyzeStmt st s).2)
  | names, st, .varDecl t n (some e), h, hm => by
    have ih := analyzeExpr_indep names st e (by simpa [wcS] using h) hm
    simp [eraseAnnS, analyzeStmt, ih, eraseCVS]
  | _, st, .varDecl t n none, _, _ => rfl
  | names, st, .returnStmt e, h, hm => by
    have ih := analyzeExpr_indep names st e (by simpa [wcS] using h) hm
    simp [eraseAnnS, analyzeStmt, ih, eraseCVS]
  | names, st, .print e, h, hm => by
    have ih := analyzeExpr_indep names st e (by simpa [wcS] using h) hm
    simp [eraseAnnS, analyzeStmt, ih, eraseCVS]
  | names, st, .ifStmt c t e, h, hm => by
    simp only [wcS, Bool.and_eq_true] at h
    have ihc := analyzeExpr_indep names st c h.1 hm
    have hm1 : ∀ x, names.contains x = true →
        (getFunction (analyzeExpr st c).1.functions x).isSome = true :=
      fun x hx => by rw [analyzeExpr_functions st c]; exact hm x hx
    have iht := analyzeStmtList_indep names (analyzeExpr st c).1 t h.2.1 hm1
    have ihe := analyzeStmtList_indep names (analyzeStmtList (analyzeExpr st c).1 t).1 e
      h.2.2 (fun x hx => by
        rw [analyzeStmtList_functions (analyzeExpr st c).1 t]; exact hm1 x hx)
    simp [eraseAnnS, analyzeStmt, ihc, iht, ihe, eraseCVS]
  | names, st, .whileStmt c b, h, hm => by
    simp only [wcS, Bool.and_eq_true] at h
    have ihc := analyzeExpr_indep names st c h.1 hm
    have ihb := analyzeStmtList_indep names (analyzeExpr st c).1 b h.2
      (fun x hx => by rw [analyzeExpr_functions st c]; exact hm x hx)
    simp [eraseAnnS, analyzeStmt, ihc, ihb, eraseCVS]
  | names, st, .forStmt (some s) c i b, h, hm => by
    simp only [wcS, Bool.and_eq_true] at h
    have ihs := analyzeStmt_indep names st s h.1 hm
    have hm1 : ∀ x, names.contains x = true →
        (getFunction (analyzeStmt st s).1.functions x).isSome = true :=
      fun x hx => by rw [analyzeStmt_functions st s]; exact hm x hx
    cases c with
    | some ce =>
      have ihc := analyzeExpr_indep names (analyzeStmt st s).1 ce h.2.1 hm1
      have hm2 : ∀ x, names.contains x = true →
          (getFunction (analyzeExpr (analyzeStmt st s).1 ce).1.functions x).isSome = true :=
        fun x hx => by rw [analyzeExpr_functions]; exact hm1 x hx
      cases i with
      | some ie =>
        have ihi := analyzeExpr_indep names (analyzeExpr (analyzeStmt st s).1 ce).1 ie
          h.2.2.1 hm2
        have ihb := analyzeStmtList_indep names
          (analyzeExpr (analyzeExpr (analyzeStmt st s).1 ce).1 ie).1 b h.2.2.2
          (fun x hx => by rw [analyzeExpr_functions]; exact hm2 x hx)
        simp [eraseAnnS, analyzeStmt, ihs, ihc, ihi, ihb, eraseCVS]
      | none =>
        have ihb := analyzeStmtList_indep names
          (analyzeExpr (analyzeStmt st s).1 ce).1 b h.2.2.2 hm2
        simp [eraseAnnS, analyzeStmt, ihs, ihc, ihb, eraseCVS]
    | none =>
      cases i with
      | some ie =>
        have ihi := analyzeExpr_indep names (analyzeStmt st s).1 ie h.2.2.1 hm1
        have ihb := analyzeStmtList_indep names
          (analyzeExpr (analyzeStmt st s).1 ie).1 b h.2.2.2
          (fun x hx => by rw [analyzeExpr_functions]; exact hm1 x hx)
        simp [eraseAnnS, analyzeStmt, ihs, ihi, ihb, eraseCVS]
      | none =>
        have ihb := analyzeStmtList_indep names (analyzeStmt st s).1 b h.2.2.2 hm1
        simp [eraseAnnS, analyzeStmt, ihs, ihb, eraseCVS]
  | names, st, .forStmt none c i b, h, hm => by
    simp only [wcS, Bool.and_eq_true] at h
    cases c with
    | some ce =>
      have ihc := analyzeExpr_indep names st ce h.1 hm
      have hm2 : ∀ x, names.contains x = true →
          (getFunction (analyzeExpr st ce).1.functions x).isSome = true :=
        fun x hx => by rw [analyzeExpr_functions]; exact hm x hx
      cases i with
      | some ie =>
        have ihi := analyzeExpr_indep names (analyzeExpr st ce).1 ie h.2.1 hm2
        have ihb := analyzeStmtList_indep names (analyzeExpr (analyzeExpr st ce).1 ie).1 b
          h.2.2 (fun x hx => by rw [analyzeExpr_functions]; exact hm2 x hx)
        simp [eraseAnnS, analyzeStmt, ihc, ihi, ihb, eraseCVS]
      | none =>
        have ihb := analyzeStmtList_indep names (analyzeExpr st ce).1 b h.2.2 hm2
        simp [eraseAnnS, analyzeStmt, ihc, ihb, eraseCVS]
    | none =>
      cases i with
      | some ie =>
        have ihi := analyzeExpr_indep names st ie h.2.1 hm
        have ihb := analyzeStmtList_indep names (analyzeExpr st ie).1 b h.2.2
          (fun x hx => by rw [analyzeExpr_functions]; exact hm x hx)
        simp [eraseAnnS, analyzeStmt, ihi, ihb, eraseCVS]
      | none =>
        have ihb := analyzeStmtList_indep names st b h.2.2 hm
        simp [eraseAnnS, analyzeStmt, ihb, eraseCVS]

/-- Statement-list version of `analyzeExpr_indep`. -/
def analyzeStmtList_indep : ∀ (names : List String) (st : Semantics) (l : StmtListAST),
    wcSL names l = true →
    (∀ c, names.contains c = true → (getFunction st.functions c).isSome = true) →
    analyzeStmtList st (eraseAnnSL l) =
      ((analyzeStmtList st l).1, eraseCVSL (analyzeStmtList st l).2)
  | _, _, .nil, _, _ => rfl
  | names, st, .cons s rest, h, hm => by
    simp only [wcSL, Bool.and_eq_true] at h
    have ih1 := analyzeStmt_indep names st s h.1 hm
    have ih2 := analyzeStmtList_indep names (analyzeStmt st s).1 rest h.2
      (fun x hx => by rw [analyzeStmt_functions st s]; exact hm x hx)
    simp [eraseAnnSL, analyzeStmtList, ih1, ih2, eraseCVSL]

end

/-- The parameter-declaration fold of `visit(FunctionAST&)` never
changes the function table. -/
theorem paramsFold_functions (params : List (String × String)) :
    ∀ st : Semantics,
      (params.foldl (fun s param => s.declareVariable param.2 (stringToType param.1))
        st).functions = st.functions := by
  induction params with
  | nil => intro st; rfl
  | cons p rest ih =>
    intro st
    rw [List.foldl_cons, ih, declareVariable_functions]

/-- `visit(FunctionAST&)` never changes the function table. -/
theorem analyzeFunction_functions (st : Semantics) (fn : FunctionAST) :
    (analyzeFunction st fn).1.functions = st.functions := by
  simp [analyzeFunction, Semantics.exitScope, analyzeStmtList_functions,
    paramsFold_functions, Semantics.enterScope]

/-- Annotation erasure keeps the declared signature. -/
theorem sigOf_eraseAnnFn (fn : FunctionAST) : sigOf (eraseAnnFn fn) = sigOf fn := rfl

/-- Body analysis keeps the declared signature. -/
theorem sigOf_analyzeFunction (st : Semantics) (fn : FunctionAST) :
    sigOf (analyzeFunction st fn).2 = sigOf fn := rfl

/-- The body pass keeps every declared signature. -/
theorem analyzeFunctionList_sigs (fns : List FunctionAST) :
    ∀ st : Semantics, (analyzeFunctionList st fns).2.map sigOf = fns.map sigOf := by
  induction fns with
  | nil => intro st; rfl
  | cons fn rest ih => intro st; simp [analyzeFunctionList, ih, sigOf_analyzeFunction]

/-- Function version of `analyzeExpr_indep`. -/
theorem analyzeFunction_indep (names : List String) (st : Semantics) (fn : FunctionAST)
    (h : wcSL names fn.body = true)
    (hm : ∀ c, names.contains c = true → (getFunction st.functions c).isSome = true) :
    analyzeFunction st (eraseAnnFn fn) =
      ((analyzeFunction st fn).1, eraseCVFn (analyzeFunction st fn).2) := by
  have hb := analyzeStmtList_indep names
    (fn.parameters.foldl (fun s param => s.declareVariable param.2 (stringToType param.1))
      ({ st with currentReturntype := stringToType fn.returnType }).enterScope)
    fn.body h
    (fun c hc => by
      rw [paramsFold_functions]
      exact hm c hc)
  simp [analyzeFunction, eraseAnnFn, eraseCVFn, hb]

/-- The body pass keeps well-calledness of every function body. -/
theorem analyzeFunctionList_wc (names : List String) (fns : List FunctionAST) :
    ∀ st : Semantics,
      (analyzeFunctionList st fns).2.all (fun fn => wcSL names fn.body) =
        fns.all (fun fn => wcSL names fn.body) := by
  induction fns with
  | nil => intro st; rfl
  | cons fn rest ih =>
    intro st
    have hbody : wcSL names (analyzeFunction st fn).2.body = wcSL names fn.body := by
      calc wcSL names (analyzeFunction st fn).2.body
          = wcSL names (eraseAnnSL (analyzeFunction st fn).2.body) :=
            (wcSL_eraseAnn names _).symm
        _ = wcSL names (eraseAnnSL fn.body) := by
            simp [analyzeFunction, analyzeStmtList_eraseAnn]
        _ = wcSL names fn.body := wcSL_eraseAnn names _
    simp [analyzeFunctionList, List.all_cons, hbody, ih]

/-- Function-list version of `analyzeExpr_indep`. -/
theorem analyzeFunctionList_indep (names : List String) (fns : List FunctionAST) :
    ∀ st : Semantics, fns.all (fun fn => wcSL names fn.body) = true →
      (∀ c, names.contains c = true → (getFunction st.functions c).isSome = true) →
      analyzeFunctionList st (fns.map eraseAnnFn) =
        ((analyzeFunctionList st fns).1, (analyzeFunctionList st fns).2.map eraseCVFn) := by
  induction fns with
  | nil => intro st _ _; rfl
  | cons fn rest ih =>
    intro st h hm
    simp only [List.all_cons, Bool.and_eq_true] at h
    have ih1 := analyzeFunction_indep names st fn h.1 hm
    have ih2 := ih (analyzeFunction st fn).1 h.2
      (fun c hc => by rw [analyzeFunction_functions]; exact hm c hc)
    simp [analyzeFunctionList, ih1, ih2]

/-- Program version of `analyzeExpr_indep` (one `visit(ProgramAST&)`
pass): with every call well-defined, annotations do not influence the
resulting state, and the output trees agree up to `constantValue`. -/
theorem visitProgram_indep (names : List String) (st : Semantics) (prog : ProgramAST)
    (hwc : prog.functions.all (fun fn => wcSL names fn.body) = true)
    (hm : ∀ c, names.contains c = true →
      (getFunction (st.functions ++ prog.functions.map sigOf) c).isSome = true) :
    visitProgram st (eraseAnnProg prog) =
      ((visitProgram st prog).1, eraseCVProg (visitProgram st prog).2) := by
  have hwc' : (prog.functions.map eraseAnnFn).all (fun fn => wcSL names fn.body) = true := by
    rw [List.all_map]
    calc prog.functions.all ((fun fn => wcSL names fn.body) ∘ eraseAnnFn)
        = prog.functions.all (fun fn => wcSL names (eraseAnnSL fn.body)) := rfl
      _ = prog.functions.all (fun fn => wcSL names fn.body) := by
          simp [wcSL_eraseAnn]
      _ = true := hwc
  have htab : (prog.functions.map eraseAnnFn).map sigOf = prog.functions.map sigOf := by
    simp [Function.comp_def, sigOf_eraseAnnFn]
  have hfl := analyzeFunctionList_indep names prog.functions
    { st with functions := st.functions ++ prog.functions.map sigOf } hwc hm
  simp only [visitProgram, eraseAnnProg, declareAllFunctions_eq]
  rw [htab]
  simp [hfl, eraseCVProg]

/-- One step of the linear `getFunction` scan. -/
theorem getFunction_cons (t : String × FunctionInfo) (T : List (String × FunctionInfo))
    (c : String) :
    getFunction (t :: T) c = if t.1 == c then some t.2 else getFunction T c := by
  by_cases hpa : (t.1 == c) = true
  · simp [getFunction, List.find?_cons_of_pos, hpa]
  · simp only [Bool.not_eq_true] at hpa
    simp [getFunction, List.find?_cons_of_neg, hpa]

/-- A name found in a table is still found after appending entries. -/
theorem getFunction_append_isSome (T1 T2 : List (String × FunctionInfo)) (c : String)
    (h : (getFunction T1 c).isSome = true) :
    (getFunction (T1 ++ T2) c).isSome = true := by
  induction T1 with
  | nil => simp [getFunction] at h
  | cons t rest ih =>
    rw [List.cons_append, getFunction_cons]
    rw [getFunction_cons] at h
    by_cases he : (t.1 == c) = true
    · simp [he]
    · simp only [he, Bool.false_eq_true, if_false] at h ⊢
      exact ih h

/-- Looking up a declared program name in the signature table
succeeds. -/
theorem getFunction_sigs (fns : List FunctionAST) (c : String)
    (h : (fns.map (fun g => g.name)).contains c = true) :
    (getFunction (fns.map sigOf) c).isSome = true := by
  induction fns with
  | nil => simp at h
  | cons fn rest ih =>
    rw [List.map_cons, getFunction_cons]
    by_cases he : ((sigOf fn).1 == c) = true
    · simp [he]
    · have hfc : ¬ fn.name = c := by simpa [sigOf] using he
      have hcf : (c == fn.name) = false :=
        beq_eq_false_iff_ne.mpr (fun hh => hfc hh.symm)
      simp only [List.map_cons, List.contains_cons, hcf, Bool.false_or] at h
      simp only [he, Bool.false_eq_true, if_false]
      exact ih h

/-- The body pass never changes the function table. -/
theorem analyzeFunctionList_functions (fns : List FunctionAST) :
    ∀ st : Semantics, (analyzeFunctionList st fns).1.functions = st.functions := by
  induction fns with
  | nil => intro st; rfl
  | cons fn rest ih =>
    intro st
    simp [analyzeFunctionList, ih, analyzeFunction_functions]

/-- The state after one `visit(ProgramAST&)` pass carries exactly the
incoming table plus the program's signatures. -/
theorem visitProgram_functions (st : Semantics) (prog : ProgramAST) :
    (visitProgram st prog).1.functions = st.functions ++ prog.functions.map sigOf := by
  simp [visitProgram, declareAllFunctions_eq, analyzeFunctionList_functions]

/-- The program tree after one `visit(ProgramAST&)` pass. -/
theorem visitProgram_snd (st : Semantics) (prog : ProgramAST) :
    (visitProgram st prog).2 =
      ⟨(analyzeFunctionList
        { st with functions := st.functions ++ prog.functions.map sigOf }
        prog.functions).2⟩ := by
  simp [visitProgram, declareAllFunctions_eq]

/-- `constantValue` erasure keeps the declared signature. -/
theorem sigOf_eraseCVFn (fn : FunctionAST) : sigOf (eraseCVFn fn) = sigOf fn := rfl

/-- Well-calledness ignores `constantValue` erasure. -/
theorem wcSL_eraseCV (names : List String) (l : StmtListAST) :
    wcSL names (eraseCVSL l) = wcSL names l := by
  calc wcSL names (eraseCVSL l)
      = wcSL names (eraseAnnSL (eraseCVSL l)) := (wcSL_eraseAnn names _).symm
    _ = wcSL names (eraseAnnSL l) := by rw [eraseAnnSL_eraseCVSL]
    _ = wcSL names l := wcSL_eraseAnn names l

/-- Claim C2 (amended): a run of `Semantics::analyze` visits every
statement — including statements inside if/while/for bodies and bare
expression statements (those four visitors modelled from the spec, as
their definitions are absent from the repository) — and every
expression reachable from the program EXCEPT the argument subtrees of
calls whose callee is not in the function table; it overwrites
`inferredType` in place on every visited expression node (formally:
when every call's callee is among the program's declared functions,
the entire analysis outcome — verdict, final state with its
diagnostics, and every annotation other than `constantValue` — is
independent of the incoming annotations), and it never modifies
`constantValue` on any node. -/
theorem claim_C2_traversal_and_inference :
    (∀ prog : ProgramAST, wcProg prog = true →
        (analyze (eraseAnnProg prog)).1 = (analyze prog).1 ∧
        (analyze (eraseAnnProg prog)).2.1 = (analyze prog).2.1 ∧
        eraseCVProg (analyze (eraseAnnProg prog)).2.2 = eraseCVProg (analyze prog).2.2) ∧
    (∀ prog : ProgramAST, progCVs (analyze prog).2.2 = progCVs prog) := by
  refine ⟨?_, analyze_cv_preserved⟩
  intro prog hwc
  simp only [wcProg] at hwc
  set names := prog.functions.map (fun g => g.name) with hnames
  have hm₁ : ∀ c, names.contains c = true →
      (getFunction (initSema.functions ++ prog.functions.map sigOf) c).isSome = true := by
    intro c hc
    simpa [initSema] using getFunction_sigs prog.functions c hc
  have step1 := visitProgram_indep names initSema prog hwc hm₁
  set r1 := visitProgram initSema prog with hr1
  -- table and well-calledness facts about the first pass's output
  have hr1fns : r1.1.functions = prog.functions.map sigOf := by
    rw [hr1, visitProgram_functions]; simp [initSema]
  have hr1sigs : r1.2.functions.map sigOf = prog.functions.map sigOf := by
    rw [hr1, visitProgram_snd]
    simpa using analyzeFunctionList_sigs prog.functions _
  have hr1wc : r1.2.functions.all (fun fn => wcSL names fn.body) = true := by
    rw [hr1, visitProgram_snd]
    simpa [analyzeFunctionList_wc] using hwc
  have hm₂ : ∀ c, names.contains c = true →
      (getFunction (r1.1.functions ++ r1.2.functions.map sigOf) c).isSome = true := by
    intro c hc
    rw [hr1fns]
    exact getFunction_append_isSome _ _ c (getFunction_sigs prog.functions c hc)
  have stepA := visitProgram_indep names r1.1 r1.2 hr1wc hm₂
  have hcvwc : (eraseCVProg r1.2).functions.all (fun fn => wcSL names fn.body) = true := by
    simp only [eraseCVProg, List.all_map]
    calc r1.2.functions.all ((fun fn => wcSL names fn.body) ∘ eraseCVFn)
        = r1.2.functions.all (fun fn => wcSL names (eraseCVSL fn.body)) := rfl
      _ = r1.2.functions.all (fun fn => wcSL names fn.body) := by simp [wcSL_eraseCV]
      _ = true := hr1wc
  have hm₃ : ∀ c, names.contains c = true →
      (getFunction (r1.1.functions ++ (eraseCVProg r1.2).functions.map sigOf) c).isSome =
        true := by
    intro c hc
    have : (eraseCVProg r1.2).functions.map sigOf = r1.2.functions.map sigOf := by
      simp [eraseCVProg, Function.comp_def, sigOf_eraseCVFn]
    rw [this]
    exact hm₂ c hc
  have stepB := visitProgram_indep names r1.1 (eraseCVProg r1.2) hcvwc hm₃
  rw [eraseAnnProg_eraseCVProg] at stepB
  have hpair : ((visitProgram r1.1 (eraseCVProg r1.2)).1,
      eraseCVProg (visitProgram r1.1 (eraseCVProg r1.2)).2) =
      ((visitProgram r1.1 r1.2).1, eraseCVProg (visitProgram r1.1 r1.2).2) := by
    rw [← stepB, ← stepA]
  have h1 := congrArg Prod.fst hpair
  have h2 := congrArg Prod.snd hpair
  simp only at h1 h2
  constructor
  · simp only [analyze, ← hr1, step1]
    simp [h1]
  constructor
  · simp only [analyze, ← hr1, step1]
    simp [h1]
  · simp only [analyze, ← hr1, step1]
    simp [h2]

/-- A program whose arguments carry sentinel annotations under a call
to an undefined function: `int main() { return g(y); }` with `y`
seeded `inferredType = Float`, `constantValue = 7`. -/
def undefCallSeedProg : ProgramAST :=
  ⟨[⟨"int", "main", [],
    .cons (.returnStmt (.call "g" (.cons (.varE "y" .Float (some 7)) .nil) .Int (some 3)))
      .nil⟩]⟩

/-- Counterexample to C2 as stated: the argument `y` of the
undefined-function call `g(y)` is reachable from the program, yet
analysis leaves BOTH its annotations at their seeded sentinel values
(`Float`/`some 7` — it is never visited, and no "Undefined variable:
y" is diagnosed), and it never mutates `constantValue` anywhere (the
call node keeps `some 3`), so analysis does not mutate `inferredType`
and `constantValue` on every reachable expression node. -/
theorem claim_C2_counterexample :
    analyze undefCallSeedProg =
      (false,
        ⟨true, ["Undefined function: g", "Undefined function: g"], .Int, [],
          [("main", ⟨.Int, []⟩), ("main", ⟨.Int, []⟩)]⟩,
        ⟨[⟨"int", "main", [],
          .cons (.returnStmt
            (.call "g" (.cons (.varE "y" .Float (some 7)) .nil) .Invalid (some 3)))
            .nil⟩]⟩) ∧
      Ty.Float ≠ Ty.Invalid ∧ (some 7 : Option Int) ≠ none ∧
      ¬ "Undefined variable: y" ∈
        ["Undefined function: g", "Undefined function: g"] :=
  ⟨rfl, by decide, by decide, by decide⟩

/-- A well-called two-function program with if/while/for bodies, bare
expression statements and sentinel annotations on many nodes, used to
witness C2. -/
def annSeedProg : ProgramAST :=
  ⟨[⟨"int", "f", [("int", "a")], .cons (.returnStmt (.varE "a" .Char (some 11))) .nil⟩,
    ⟨"int", "main", [],
      .cons (.ifStmt (.number 1 .String (some 4))
          (.cons (.print (.call "f" (.cons (.number 2 .Void (some 5)) .nil) .Char none)) .nil)
          (.cons (.varDecl "int" "z" (some (.number 3 .Float (some 6)))) .nil))
        (.cons (.whileStmt (.varE "z" .Double (some 8))
            (.cons (.print (.binary .PLUS (.varE "z" .Void none) (.number 4 .Char (some 9))
              .String (some 10))) .nil))
          (.cons (.forStmt (some (.varDecl "int" "k" (some (.number 0 .Void (some 12)))))
              (some (.binary .LESS_THAN (.varE "k" .Invalid none) (.number 3 .Char none)
                .Void (some 13)))
              (some (.binary .ASSIGN (.varE "k" .Double none)
                (.binary .PLUS (.varE "k" .Invalid none) (.number 1 .Invalid none)
                  .Float (some 14)) .Void none))
              (.cons (.print (.varE "k" .String (some 15))) .nil))
            .nil))⟩]⟩

/-- Witness for C2 at a concrete input: the seeded program above is
well-called, and the theorem's conclusions hold for it. -/
theorem claim_C2_traversal_and_inference_witness :
    wcProg annSeedProg = true ∧
      (analyze (eraseAnnProg annSeedProg)).1 = (analyze annSeedProg).1 ∧
      (analyze (eraseAnnProg annSeedProg)).2.1 = (analyze annSeedProg).2.1 ∧
      eraseCVProg (analyze (eraseAnnProg annSeedProg)).2.2 =
        eraseCVProg (analyze annSeedProg).2.2 ∧
      progCVs (analyze annSeedProg).2.2 = progCVs annSeedProg :=
  ⟨by decide,
    (claim_C2_traversal_and_inference.1 annSeedProg (by decide)).1,
    (claim_C2_traversal_and_inference.1 annSeedProg (by decide)).2.1,
    (claim_C2_traversal_and_inference.1 annSeedProg (by decide)).2.2,
    claim_C2_traversal_and_inference.2 annSeedProg⟩

/-! ## Scanner termination and position tracking (claims C8, C9) -/

/-- Lexicographic order on (line, column) positions. -/
def lexLe (a b : Nat × Nat) : Prop :=
  a.1 < b.1 ∨ (a.1 = b.1 ∧ a.2 ≤ b.2)

theorem lexLe_refl (a : Nat × Nat) : lexLe a a := Or.inr ⟨rfl, Nat.le_refl _⟩

theorem lexLe_trans {a b c : Nat × Nat} (h1 : lexLe a b) (h2 : lexLe b c) : lexLe a c := by
  rcases h1 with h1 | ⟨h1, h1'⟩ <;> rcases h2 with h2 | ⟨h2, h2'⟩ <;>
    simp only [lexLe] <;> omega

/-- The position cursor of a scanner state. -/
def lc (L : Lexer) : Nat × Nat := (L.line, L.column)

/-- `advance` off the end of input: identity. -/
theorem advance_atEnd (L : Lexer) (h : L.isAtEnd = true) :
    (L.advance).2 = L := by
  simp [Lexer.advance, h]

/-- `advance` before the end of input: cursor and column step. -/
theorem advance_not_atEnd (L : Lexer) (h : L.isAtEnd = false) :
    (L.advance).2 = { L with currentPos := L.currentPos + 1, column := L.column + 1 } := by
  simp [Lexer.advance, h]

/-- `isAtEnd` in arithmetic form. -/
theorem isAtEnd_false_iff (L : Lexer) :
    L.isAtEnd = false ↔ L.currentPos < L.sourcecode.length := by
  simp [Lexer.isAtEnd]

/-- What a successful scanner loop guarantees: same source, the
cursor moved monotonically and stayed in bounds, and the (line,
column) position moved up in lexicographic order. -/
def StateOK (L : Lexer) (r : Option Lexer) : Prop :=
  match r with
  | none => False
  | some L' =>
    L'.sourcecode = L.sourcecode ∧ L.currentPos ≤ L'.currentPos ∧
      L'.currentPos ≤ L.sourcecode.length ∧ lexLe (lc L) (lc L')

theorem StateOK.bound {L : Lexer} {r : Option Lexer} (h : StateOK L r) :
    ∃ L', r = some L' ∧ L'.sourcecode = L.sourcecode ∧ L.currentPos ≤ L'.currentPos ∧
      L'.currentPos ≤ L.sourcecode.length ∧ lexLe (lc L) (lc L') := by
  match r with
  | none => exact absurd h (by simp [StateOK])
  | some L' => exact ⟨L', rfl, h⟩

/-- Weaken a loop guarantee from an intermediate state back to the
state it was stepped from. -/
theorem StateOK_mono (L L1 : Lexer) (r : Option Lexer) (h : StateOK L1 r)
    (hsrc : L1.sourcecode = L.sourcecode) (hpos : L.currentPos ≤ L1.currentPos)
    (hlex : lexLe (lc L) (lc L1)) : StateOK L r := by
  match r with
  | none => exact absurd h (by simp [StateOK])
  | some L' =>
    obtain ⟨h1, h2, h3, h4⟩ := h
    exact ⟨h1.trans hsrc, hpos.trans h2, by rw [← hsrc]; exact h3, lexLe_trans hlex h4⟩

/-- The fields of `advance` before the end of input. -/
theorem advance_fields (L : Lexer) (h : L.isAtEnd = false) :
    (L.advance).2.sourcecode = L.sourcecode ∧
      (L.advance).2.currentPos = L.currentPos + 1 ∧
      (L.advance).2.line = L.line ∧ (L.advance).2.column = L.column + 1 := by
  rw [advance_not_atEnd L h]
  exact ⟨rfl, rfl, rfl, rfl⟩

/-- `Lexer::skipWhitespace` terminates in bounds with monotone
position. -/
theorem skipWhitespace_spec : ∀ (f : Nat) (L : Lexer),
    L.currentPos ≤ L.sourcecode.length →
    L.sourcecode.length - L.currentPos < f →
    StateOK L (skipWhitespace f L) := by
  intro f
  induction f with
  | zero => intro L h1 h2; omega
  | succ f ih =>
    intro L h1 h2
    by_cases hend : L.isAtEnd = true
    · simp only [skipWhitespace, hend, if_true]
      exact ⟨rfl, Nat.le_refl _, h1, lexLe_refl _⟩
    · have hend' : L.isAtEnd = false := by simpa using hend
      have hlt := (isAtEnd_false_iff L).mp hend'
      obtain ⟨e1, e2, e3, e4⟩ := advance_fields L hend'
      by_cases hws : (L.peek == ' ' || L.peek == '\r' || L.peek == '\t') = true
      · simp only [skipWhitespace, hend', Bool.false_eq_true, if_false, hws, if_true]
        refine StateOK_mono L (L.advance).2 _
          (ih (L.advance).2 (by rw [e1, e2]; omega) (by rw [e1, e2]; omega))
          e1 (by rw [e2]; omega) ?_
        rw [lc, lc, e3, e4]
        exact Or.inr ⟨rfl, Nat.le_succ _⟩
      · by_cases hnl : (L.peek == '\n') = true
        · have hend2 : ({ L with line := L.line + 1, column := 0 } : Lexer).isAtEnd = false := by
            simpa [Lexer.isAtEnd] using hend'
          obtain ⟨g1, g2, g3, g4⟩ :=
            advance_fields { L with line := L.line + 1, column := 0 } hend2
          have m1 : ({ L with line := L.line + 1, column := 0 } : Lexer).sourcecode =
            L.sourcecode := rfl
          have m2 : ({ L with line := L.line + 1, column := 0 } : Lexer).currentPos =
            L.currentPos := rfl
          have m3 : ({ L with line := L.line + 1, column := 0 } : Lexer).line =
            L.line + 1 := rfl
          have m4 : ({ L with line := L.line + 1, column := 0 } : Lexer).column = 0 := rfl
          rw [m1] at g1
          rw [m2] at g2
          rw [m3] at g3
          rw [m4] at g4
          simp only [skipWhitespace, hend', Bool.false_eq_true, if_false, hws, hnl, if_true]
          refine StateOK_mono L _ _
            (ih ({ L with line := L.line + 1, column := 0 } : Lexer).advance.2
              (by rw [g1, g2]; omega) (by rw [g1, g2]; omega))
            g1 (by rw [g2]; omega) ?_
          rw [lc, lc, g3, g4]
          exact Or.inl (Nat.lt_succ_self _)
        · simp only [skipWhitespace, hend', Bool.false_eq_true, if_false, hws, hnl]
          exact ⟨rfl, Nat.le_refl _, h1, lexLe_refl _⟩

/-- `peek` at the end of input is the null character. -/
theorem peek_atEnd (L : Lexer) (h : L.isAtEnd = true) : L.peek = '\x00' := by
  simp [Lexer.peek, h]

/-- The line-comment loop terminates in bounds with monotone
position. -/
theorem skipLineComment_spec : ∀ (f : Nat) (L : Lexer),
    L.currentPos ≤ L.sourcecode.length →
    L.sourcecode.length - L.currentPos < f →
    StateOK L (skipLineComment f L) := by
  intro f
  induction f with
  | zero => intro L h1 h2; omega
  | succ f ih =>
    intro L h1 h2
    by_cases hg : (L.peek != '\n' && !L.isAtEnd) = true
    · have hend' : L.isAtEnd = false := by
        rcases Bool.and_eq_true_iff.mp hg with ⟨_, hh⟩
        simpa using hh
      have hlt := (isAtEnd_false_iff L).mp hend'
      obtain ⟨e1, e2, e3, e4⟩ := advance_fields L hend'
      simp only [skipLineComment, hg, if_true]
      refine StateOK_mono L (L.advance).2 _
        (ih (L.advance).2 (by rw [e1, e2]; omega) (by rw [e1, e2]; omega))
        e1 (by rw [e2]; omega) ?_
      rw [lc, lc, e3, e4]
      exact Or.inr ⟨rfl, Nat.le_succ _⟩
    · simp only [skipLineComment, hg, Bool.false_eq_true, if_false]
      exact ⟨rfl, Nat.le_refl _, h1, lexLe_refl _⟩

/-- The block-comment loop terminates in bounds with monotone
position. -/
theorem skipBlockComment_spec : ∀ (f : Nat) (L : Lexer),
    L.currentPos ≤ L.sourcecode.length →
    L.sourcecode.length - L.currentPos < f →
    StateOK L (skipBlockComment f L) := by
  intro f
  induction f with
  | zero => intro L h1 h2; omega
  | succ f ih =>
    intro L h1 h2
    by_cases hend : L.isAtEnd = true
    · simp only [skipBlockComment, hend, if_true]
      exact ⟨rfl, Nat.le_refl _, h1, lexLe_refl _⟩
    · have hend' : L.isAtEnd = false := by simpa using hend
      have hlt := (isAtEnd_false_iff L).mp hend'
      obtain ⟨e1, e2, e3, e4⟩ := advance_fields L hend'
      by_cases hterm : (L.peek == '*' && decide (L.currentPos + 1 < L.sourcecode.length) &&
          L.sourcecode.getD (L.currentPos + 1) '\x00' == '/') = true
      · have hlt2 : L.currentPos + 1 < L.sourcecode.length := by
          rcases Bool.and_eq_true_iff.mp hterm with ⟨hx, _⟩
          rcases Bool.and_eq_true_iff.mp hx with ⟨_, hd⟩
          exact of_decide_eq_true hd
        have hend2 : (L.advance).2.isAtEnd = false := by
          rw [isAtEnd_false_iff, e1, e2]; omega
        obtain ⟨g1, g2, g3, g4⟩ := advance_fields (L.advance).2 hend2
        simp only [skipBlockComment, hend', Bool.false_eq_true, if_false, hterm, if_true]
        refine ⟨by rw [g1, e1], by rw [g2, e2]; omega, by rw [g2, e2]; omega, ?_⟩
        rw [lc, lc, g3, g4, e3, e4]
        exact Or.inr ⟨rfl, by omega⟩
      · by_cases hnl : (L.peek == '\n') = true
        · have hend2 : ({ L with line := L.line + 1, column := 0 } : Lexer).isAtEnd = false := by
            simpa [Lexer.isAtEnd] using hend'
          obtain ⟨g1, g2, g3, g4⟩ :=
            advance_fields { L with line := L.line + 1, column := 0 } hend2
          have m1 : ({ L with line := L.line + 1, column := 0 } : Lexer).sourcecode =
            L.sourcecode := rfl
          have m2 : ({ L with line := L.line + 1, column := 0 } : Lexer).currentPos =
            L.currentPos := rfl
          rw [m1] at g1
          rw [m2] at g2
          rw [show ({ L with line := L.line + 1, column := 0 } : Lexer).line = L.line + 1
            from rfl] at g3
          rw [show ({ L with line := L.line + 1, column := 0 } : Lexer).column = 0
            from rfl] at g4
          simp only [skipBlockComment, hend', Bool.false_eq_true, if_false, hterm, hnl,
            if_true]
          refine StateOK_mono L _ _
            (ih ({ L with line := L.line + 1, column := 0 } : Lexer).advance.2
              (by rw [g1, g2]; omega) (by rw [g1, g2]; omega))
            g1 (by rw [g2]; omega) ?_
          rw [lc, lc, g3, g4]
          exact Or.inl (Nat.lt_succ_self _)
        · have hnl' : (L.peek == '\n') = false := by simpa using hnl
          simp only [skipBlockComment, hend', Bool.false_eq_true, if_false, hterm, hnl',
            if_true]
          refine StateOK_mono L (L.advance).2 _
            (ih (L.advance).2 (by rw [e1, e2]; omega) (by rw [e1, e2]; omega))
            e1 (by rw [e2]; omega) ?_
          rw [lc, lc, e3, e4]
          exact Or.inr ⟨rfl, Nat.le_succ _⟩

/-- The digit loop terminates in bounds with monotone position. -/
theorem scanDigits_spec : ∀ (f : Nat) (L : Lexer),
    L.currentPos ≤ L.sourcecode.length →
    L.sourcecode.length - L.currentPos < f →
    StateOK L (scanDigits f L) := by
  intro f
  induction f with
  | zero => intro L h1 h2; omega
  | succ f ih =>
    intro L h1 h2
    by_cases hg : L.peek.isDigit = true
    · have hend' : L.isAtEnd = false := by
        cases hend : L.isAtEnd with
        | false => rfl
        | true => rw [peek_atEnd L hend] at hg; simp at hg
      have hlt := (isAtEnd_false_iff L).mp hend'
      obtain ⟨e1, e2, e3, e4⟩ := advance_fields L hend'
      simp only [scanDigits, hg, if_true]
      refine StateOK_mono L (L.advance).2 _
        (ih (L.advance).2 (by rw [e1, e2]; omega) (by rw [e1, e2]; omega))
        e1 (by rw [e2]; omega) ?_
      rw [lc, lc, e3, e4]
      exact Or.inr ⟨rfl, Nat.le_succ _⟩
    · simp only [scanDigits, hg, Bool.false_eq_true, if_false]
      exact ⟨rfl, Nat.le_refl _, h1, lexLe_refl _⟩

/-- The string-body loop terminates in bounds with monotone
position. -/
theorem scanStringBody_spec : ∀ (f : Nat) (L : Lexer),
    L.currentPos ≤ L.sourcecode.length →
    L.sourcecode.length - L.currentPos < f →
    StateOK L (scanStringBody f L) := by
  intro f
  induction f with
  | zero => intro L h1 h2; omega
  | succ f ih =>
    intro L h1 h2
    by_cases hg : (L.peek != '"' && !L.isAtEnd) = true
    · have hend' : L.isAtEnd = false := by
        rcases Bool.and_eq_true_iff.mp hg with ⟨_, hh⟩
        simpa using hh
      have hlt := (isAtEnd_false_iff L).mp hend'
      obtain ⟨e1, e2, e3, e4⟩ := advance_fields L hend'
      by_cases hnl : (L.peek == '\n') = true
      · have hend2 : ({ L with line := L.line + 1, column := 0 } : Lexer).isAtEnd = false := by
          simpa [Lexer.isAtEnd] using hend'
        obtain ⟨g1, g2, g3, g4⟩ :=
          advance_fields { L with line := L.line + 1, column := 0 } hend2
        rw [show ({ L with line := L.line + 1, column := 0 } : Lexer).sourcecode =
          L.sourcecode from rfl] at g1
        rw [show ({ L with line := L.line + 1, column := 0 } : Lexer).currentPos =
          L.currentPos from rfl] at g2
        rw [show ({ L with line := L.line + 1, column := 0 } : Lexer).line = L.line + 1
          from rfl] at g3
        rw [show ({ L with line := L.line + 1, column := 0 } : Lexer).column = 0
          from rfl] at g4
        simp only [scanStringBody, hg, hnl, if_true]
        refine StateOK_mono L _ _
          (ih ({ L with line := L.line + 1, column := 0 } : Lexer).advance.2
            (by rw [g1, g2]; omega) (by rw [g1, g2]; omega))
          g1 (by rw [g2]; omega) ?_
        rw [lc, lc, g3, g4]
        exact Or.inl (Nat.lt_succ_self _)
      · have hnl' : (L.peek == '\n') = false := by simpa using hnl
        simp only [scanStringBody, hg, hnl', Bool.false_eq_true, if_false, if_true]
        refine StateOK_mono L (L.advance).2 _
          (ih (L.advance).2 (by rw [e1, e2]; omega) (by rw [e1, e2]; omega))
          e1 (by rw [e2]; omega) ?_
        rw [lc, lc, e3, e4]
        exact Or.inr ⟨rfl, Nat.le_succ _⟩
    · simp only [scanStringBody, hg, Bool.false_eq_true, if_false]
      exact ⟨rfl, Nat.le_refl _, h1, lexLe_refl _⟩

/-- The identifier-body loop terminates in bounds with monotone
position. -/
theorem scanIdentBody_spec : ∀ (f : Nat) (L : Lexer),
    L.currentPos ≤ L.sourcecode.length →
    L.sourcecode.length - L.currentPos < f →
    StateOK L (scanIdentBody f L) := by
  intro f
  induction f with
  | zero => intro L h1 h2; omega
  | succ f ih =>
    intro L h1 h2
    by_cases hg : (L.peek.isAlphanum || L.peek == '_') = true
    · have hend' : L.isAtEnd = false := by
        cases hend : L.isAtEnd with
        | false => rfl
        | true => rw [peek_atEnd L hend] at hg; simp [Char.isAlphanum, Char.isAlpha,
            Char.isUpper, Char.isLower, Char.isDigit] at hg
      have hlt := (isAtEnd_false_iff L).mp hend'
      obtain ⟨e1, e2, e3, e4⟩ := advance_fields L hend'
      simp only [scanIdentBody, hg, if_true]
      refine StateOK_mono L (L.advance).2 _
        (ih (L.advance).2 (by rw [e1, e2]; omega) (by rw [e1, e2]; omega))
        e1 (by rw [e2]; omega) ?_
      rw [lc, lc, e3, e4]
      exact Or.inr ⟨rfl, Nat.le_succ _⟩
    · simp only [scanIdentBody, hg, Bool.false_eq_true, if_false]
      exact ⟨rfl, Nat.le_refl _, h1, lexLe_refl _⟩

/-- What a successful token-producing helper guarantees: state moved
monotonically in bounds and the token carries the given start
position. -/
def TokenOK (L : Lexer) (sl sc : Nat) (r : Option (Token × Lexer)) : Prop :=
  match r with
  | none => False
  | some (t, L') =>
    L'.sourcecode = L.sourcecode ∧ L.currentPos ≤ L'.currentPos ∧
      L'.currentPos ≤ L.sourcecode.length ∧ lexLe (lc L) (lc L') ∧
      t.line = sl ∧ t.column = sc

/-- `advance` from any in-bounds state: source kept, cursor moves at
most one and stays in bounds, position moves up. -/
theorem advance_props (L : Lexer) (h : L.currentPos ≤ L.sourcecode.length) :
    (L.advance).2.sourcecode = L.sourcecode ∧
      L.currentPos ≤ (L.advance).2.currentPos ∧
      (L.advance).2.currentPos ≤ L.sourcecode.length ∧
      lexLe (lc L) (lc (L.advance).2) := by
  by_cases hend : L.isAtEnd = true
  · rw [advance_atEnd L hend]
    exact ⟨rfl, Nat.le_refl _, h, lexLe_refl _⟩
  · have hend' : L.isAtEnd = false := by simpa using hend
    have hlt := (isAtEnd_false_iff L).mp hend'
    obtain ⟨e1, e2, e3, e4⟩ := advance_fields L hend'
    refine ⟨e1, by omega, by omega, ?_⟩
    rw [lc, lc, e3, e4]
    exact Or.inr ⟨rfl, Nat.le_succ _⟩

/-- A peeked character other than `'\0'` means the scanner is not at
the end of input. -/
theorem not_atEnd_of_peek (L : Lexer) (c : Char) (h : (L.peek == c) = true)
    (hc : c ≠ '\x00') : L.isAtEnd = false := by
  cases hend : L.isAtEnd with
  | false => rfl
  | true =>
    rw [peek_atEnd L hend] at h
    exact absurd (beq_iff_eq.mp h).symm hc

/-- `Lexer::number` (first digit consumed) terminates in bounds with
monotone position and the given token start. -/
theorem scanNumber_spec (f : Nat) (L : Lexer) (sl sc : Nat)
    (h1 : L.currentPos ≤ L.sourcecode.length)
    (h2 : L.sourcecode.length - L.currentPos < f) :
    TokenOK L sl sc (scanNumber f L sl sc) := by
  obtain ⟨L1, heq1, hs1, hp1, hb1, hl1⟩ := (scanDigits_spec f L h1 h2).bound
  by_cases hfrac : (L1.peek == '.' &&
      (L1.sourcecode.getD (L1.currentPos + 1) '\x00').isDigit) = true
  · have hend1 : L1.isAtEnd = false := by
      rcases Bool.and_eq_true_iff.mp hfrac with ⟨hx, _⟩
      exact not_atEnd_of_peek L1 '.' hx (by decide)
    have hlt1 : L1.currentPos < L.sourcecode.length := by
      have := (isAtEnd_false_iff L1).mp hend1
      rw [hs1] at this
      exact this
    obtain ⟨e1, e2, e3, e4⟩ := advance_fields L1 hend1
    obtain ⟨L3, heq3, hs3, hp3, hb3, hl3⟩ :=
      (scanDigits_spec f (L1.advance).2
        (by rw [e1, e2, hs1]; omega)
        (by rw [e1, e2, hs1]; omega)).bound
    have a4 : lexLe (lc L1) (lc (L1.advance).2) := by
      rw [lc, lc, e3, e4]
      exact Or.inr ⟨rfl, Nat.le_succ _⟩
    simp only [scanNumber, heq1, hfrac, if_true, heq3]
    refine ⟨by rw [hs3, e1, hs1], by rw [e2] at hp3; omega,
      by rw [e1, hs1] at hb3; exact hb3, ?_, rfl, rfl⟩
    exact lexLe_trans hl1 (lexLe_trans a4 hl3)
  · have hfrac' : (L1.peek == '.' &&
        (L1.sourcecode.getD (L1.currentPos + 1) '\x00').isDigit) = false := by
      simpa using hfrac
    simp only [scanNumber, heq1, hfrac', Bool.false_eq_true, if_false]
    exact ⟨hs1, hp1, hb1, hl1, rfl, rfl⟩

/-- `Lexer::string` (opening quote consumed) terminates in bounds with
monotone position and the given token start. -/
theorem scanString_spec (f : Nat) (L : Lexer) (sl sc : Nat)
    (h1 : L.currentPos ≤ L.sourcecode.length)
    (h2 : L.sourcecode.length - L.currentPos < f) :
    TokenOK L sl sc (scanString f L sl sc) := by
  obtain ⟨L1, heq1, hs1, hp1, hb1, hl1⟩ := (scanStringBody_spec f L h1 h2).bound
  by_cases hend1 : L1.isAtEnd = true
  · simp only [scanString, heq1, hend1, if_true]
    exact ⟨hs1, hp1, hb1, hl1, rfl, rfl⟩
  · have hend1' : L1.isAtEnd = false := by simpa using hend1
    obtain ⟨e1, e2, e3, e4⟩ := advance_fields L1 hend1'
    have hlt1 : L1.currentPos < L.sourcecode.length := by
      have := (isAtEnd_false_iff L1).mp hend1'
      rw [hs1] at this
      exact this
    have a4 : lexLe (lc L1) (lc (L1.advance).2) := by
      rw [lc, lc, e3, e4]
      exact Or.inr ⟨rfl, Nat.le_succ _⟩
    simp only [scanString, heq1, hend1', Bool.false_eq_true, if_false]
    refine ⟨by rw [e1, hs1], by rw [e2]; omega, by rw [e2]; omega, ?_, rfl, rfl⟩
    exact lexLe_trans hl1 a4

/-- `Lexer::identifier` (first character consumed) terminates in
bounds with monotone position and the given token start. -/
theorem scanIdentifier_spec (f : Nat) (L : Lexer) (sl sc : Nat)
    (h1 : L.currentPos ≤ L.sourcecode.length)
    (h2 : L.sourcecode.length - L.currentPos < f) :
    TokenOK L sl sc (scanIdentifier f L sl sc) := by
  obtain ⟨L1, heq1, hs1, hp1, hb1, hl1⟩ := (scanIdentBody_spec f L h1 h2).bound
  simp only [scanIdentifier, heq1]
  exact ⟨hs1, hp1, hb1, hl1, rfl, rfl⟩

/-- `Lexer::character` (opening quote consumed) stays in bounds with
monotone position and the given token start. -/
theorem scanCharacter_spec (L : Lexer) (sl sc : Nat)
    (h1 : L.currentPos ≤ L.sourcecode.length) :
    TokenOK L sl sc (some (scanCharacter L sl sc)) := by
  by_cases hq : (L.peek == squote) = true
  · simp only [scanCharacter, hq, if_true]
    exact ⟨rfl, Nat.le_refl _, h1, lexLe_refl _, rfl, rfl⟩
  · have hq' : (L.peek == squote) = false := by simpa using hq
    by_cases hesc : (L.peek == '\\') = true
    · obtain ⟨b1, b2, b3, b4⟩ := advance_props L h1
      obtain ⟨c1, c2, c3, c4⟩ := advance_props (L.advance).2 (by rw [b1]; exact b3)
      by_cases hu : (((L.advance).2.advance).2.peek != squote) = true
      · simp only [scanCharacter, hq', Bool.false_eq_true, if_false, hesc, if_true, hu]
        refine ⟨by rw [c1, b1], by omega, by rw [b1] at c3; exact c3, ?_, rfl, rfl⟩
        exact lexLe_trans b4 c4
      · have hu' : (((L.advance).2.advance).2.peek != squote) = false := by simpa using hu
        obtain ⟨d1, d2, d3, d4⟩ := advance_props ((L.advance).2.advance).2
          (by rw [c1]; exact c3)
        simp only [scanCharacter, hq', Bool.false_eq_true, if_false, hesc, if_true, hu']
        refine ⟨by rw [d1, c1, b1], by omega, by rw [c1, b1] at d3; exact d3, ?_,
          rfl, rfl⟩
        exact lexLe_trans b4 (lexLe_trans c4 d4)
    · have hesc' : (L.peek == '\\') = false := by simpa using hesc
      obtain ⟨c1, c2, c3, c4⟩ := advance_props L h1
      by_cases hu : ((L.advance).2.peek != squote) = true
      · simp only [scanCharacter, hq', Bool.false_eq_true, if_false, hesc', hu, if_true]
        exact ⟨c1, c2, c3, c4, rfl, rfl⟩
      · have hu' : ((L.advance).2.peek != squote) = false := by simpa using hu
        obtain ⟨d1, d2, d3, d4⟩ := advance_props (L.advance).2 (by rw [c1]; exact c3)
        simp only [scanCharacter, hq', Bool.false_eq_true, if_false, hesc', hu',
          if_true]
        refine ⟨by rw [d1, c1], by omega, by rw [c1] at d3; exact d3, ?_, rfl, rfl⟩
        exact lexLe_trans c4 d4

/-- What a successful `scanToken` guarantees: source kept, cursor
monotone and in bounds (strictly advanced unless the token is the
end-of-input token), and the token's start position between the
starting and final scanner positions. -/
def ScanOK (L : Lexer) (r : Option (Token × Lexer)) : Prop :=
  match r with
  | none => False
  | some (t, L') =>
    L'.sourcecode = L.sourcecode ∧ L.currentPos ≤ L'.currentPos ∧
      L'.currentPos ≤ L.sourcecode.length ∧
      (t.type ≠ Tokentype.E_O_F → L.currentPos < L'.currentPos) ∧
      lexLe (lc L) (t.line, t.column) ∧
      lexLe (t.line, t.column) (lc L')

theorem ScanOK.boundTok {L : Lexer} {r : Option (Token × Lexer)} (h : ScanOK L r) :
    ∃ t L', r = some (t, L') ∧ L'.sourcecode = L.sourcecode ∧
      L.currentPos ≤ L'.currentPos ∧ L'.currentPos ≤ L.sourcecode.length ∧
      (t.type ≠ Tokentype.E_O_F → L.currentPos < L'.currentPos) ∧
      lexLe (lc L) (t.line, t.column) ∧ lexLe (t.line, t.column) (lc L') := by
  match r with
  | none => exact absurd h (by simp [ScanOK])
  | some (t, L') => exact ⟨t, L', rfl, h⟩

/-- Weaken a `scanToken` guarantee across the preceding whitespace
skip. -/
theorem scanOK_preWs (L0 S : Lexer) (r : Option (Token × Lexer)) (h : ScanOK S r)
    (hsrc : S.sourcecode = L0.sourcecode) (hpos : L0.currentPos ≤ S.currentPos)
    (hlex : lexLe (lc L0) (lc S)) : ScanOK L0 r := by
  match r with
  | none => exact absurd h (by simp [ScanOK])
  | some (t, L') =>
    obtain ⟨x1, x2, x3, x4, x5, x6⟩ := h
    exact ⟨x1.trans hsrc, hpos.trans x2, by rw [← hsrc]; exact x3,
      fun hne => Nat.lt_of_le_of_lt hpos (x4 hne), lexLe_trans hlex x5, x6⟩

/-- Weaken a `scanToken` guarantee across a consumed comment (the
recursion always sits strictly past the starting cursor). -/
theorem scanOK_step (S L2 : Lexer) (r : Option (Token × Lexer)) (h : ScanOK L2 r)
    (hsrc : L2.sourcecode = S.sourcecode) (hpos : S.currentPos < L2.currentPos)
    (hlex : lexLe (lc S) (lc L2)) : ScanOK S r := by
  match r with
  | none => exact absurd h (by simp [ScanOK])
  | some (t, L') =>
    obtain ⟨x1, x2, x3, x4, x5, x6⟩ := h
    exact ⟨x1.trans hsrc, by omega, by rw [← hsrc]; exact x3,
      fun _ => Nat.lt_of_lt_of_le hpos x2, lexLe_trans hlex x5, x6⟩

/-- Turn a literal-helper guarantee (entered one character past the
token start) into a `scanToken` guarantee. -/
theorem scanOK_of_tokenOK (S L1 : Lexer) (r : Option (Token × Lexer))
    (h : TokenOK L1 S.line S.column r)
    (hsrc : L1.sourcecode = S.sourcecode) (hpos : S.currentPos < L1.currentPos)
    (hlex : lexLe (lc S) (lc L1)) : ScanOK S r := by
  match r with
  | none => exact absurd h (by simp [TokenOK])
  | some (t, L') =>
    obtain ⟨x1, x2, x3, x4, x5, x6⟩ := h
    refine ⟨x1.trans hsrc, by omega, by rw [← hsrc]; exact x3,
      fun _ => by omega, ?_, ?_⟩
    · rw [x5, x6]; exact lexLe_refl _
    · rw [x5, x6]; exact lexLe_trans hlex x4

/-- A one-character token scanned from a non-final state. -/
theorem scanOK_tok1 (S : Lexer) (hend : S.isAtEnd = false) (ty : Tokentype)
    (lex : String) :
    ScanOK S (some (makeToken ty lex S.line S.column, (S.advance).2)) := by
  have hlt := (isAtEnd_false_iff S).mp hend
  obtain ⟨e1, e2, e3, e4⟩ := advance_fields S hend
  have m1 : (makeToken ty lex S.line S.column).line = S.line := rfl
  have m2 : (makeToken ty lex S.line S.column).column = S.column := rfl
  refine ⟨e1, by omega, by omega, fun _ => by omega, lexLe_refl _, ?_⟩
  rw [m1, m2, lc, e3, e4]
  exact Or.inr ⟨rfl, Nat.le_succ _⟩

/-- A two-character token scanned from a non-final state. -/
theorem scanOK_tok2 (S : Lexer) (hend : S.isAtEnd = false)
    (hend2 : (S.advance).2.isAtEnd = false) (ty : Tokentype) (lex : String) :
    ScanOK S (some (makeToken ty lex S.line S.column, ((S.advance).2.advance).2)) := by
  have hlt := (isAtEnd_false_iff S).mp hend
  obtain ⟨e1, e2, e3, e4⟩ := advance_fields S hend
  have hlt2 := (isAtEnd_false_iff _).mp hend2
  rw [e1, e2] at hlt2
  obtain ⟨g1, g2, g3, g4⟩ := advance_fields (S.advance).2 hend2
  have m1 : (makeToken ty lex S.line S.column).line = S.line := rfl
  have m2 : (makeToken ty lex S.line S.column).column = S.column := rfl
  refine ⟨by rw [g1, e1], by omega, by omega, fun _ => by omega,
    lexLe_refl _, ?_⟩
  rw [m1, m2, lc, g3, g4, e3, e4]
  exact Or.inr ⟨rfl, by omega⟩

/-- `Lexer::scanToken` with enough fuel succeeds from any in-bounds
state, keeps the source, moves the cursor monotonically (strictly
unless the token is the end-of-input token) and within bounds, and
stamps the token between the starting and final positions. -/
theorem scanToken_spec : ∀ (f : Nat) (L0 : Lexer),
    L0.currentPos ≤ L0.sourcecode.length →
    L0.sourcecode.length - L0.currentPos < f →
    ScanOK L0 (scanToken f L0) := by
  intro f
  induction f with
  | zero => intro L0 h1 h2; omega
  | succ f ih =>
    intro L0 h1 h2
    obtain ⟨S, heqw, hsW, hpW, hbW, hlW⟩ :=
      (skipWhitespace_spec (f + 1) L0 h1 (by omega)).bound
    have hbS : S.currentPos ≤ S.sourcecode.length := by rw [hsW]; exact hbW
    have hsl : S.sourcecode.length = L0.sourcecode.length := by rw [hsW]
    simp only [scanToken, heqw]
    refine scanOK_preWs L0 S _ ?_ hsW hpW hlW
    by_cases hae : S.isAtEnd = true
    · simp only [hae, if_true]
      exact ⟨rfl, Nat.le_refl _, hbS, fun hne => absurd rfl hne,
        lexLe_refl _, lexLe_refl _⟩
    have hae2 : S.isAtEnd = false := by simpa using hae
    simp only [hae2, Bool.false_eq_true, if_false]
    have hlt := (isAtEnd_false_iff S).mp hae2
    obtain ⟨e1, e2, e3, e4⟩ := advance_fields S hae2
    have hb1 : (S.advance).2.currentPos ≤ (S.advance).2.sourcecode.length := by
      rw [e1, e2]; omega
    have hf1 : (S.advance).2.sourcecode.length - (S.advance).2.currentPos < f + 1 := by
      rw [e1, e2]; omega
    have hlex1 : lexLe (lc S) (lc (S.advance).2) := by
      rw [lc, lc, e3, e4]; exact Or.inr ⟨rfl, Nat.le_succ _⟩
    by_cases c1 : ((S.advance).1 == '(') = true
    · simp only [c1, if_true]; exact scanOK_tok1 S hae2 _ _
    have c1x : ((S.advance).1 == '(') = false := by simpa using c1
    simp only [c1x, Bool.false_eq_true, if_false]
    by_cases c2 : ((S.advance).1 == ')') = true
    · simp only [c2, if_true]; exact scanOK_tok1 S hae2 _ _
    have c2x : ((S.advance).1 == ')') = false := by simpa using c2
    simp only [c2x, Bool.false_eq_true, if_false]
    by_cases c3 : ((S.advance).1 == '\x7b') = true
    · simp only [c3, if_true]; exact scanOK_tok1 S hae2 _ _
    have c3x : ((S.advance).1 == '\x7b') = false := by simpa using c3
    simp only [c3x, Bool.false_eq_true, if_false]
    by_cases c4 : ((S.advance).1 == '\x7d') = true
    · simp only [c4, if_true]; exact scanOK_tok1 S hae2 _ _
    have c4x : ((S.advance).1 == '\x7d') = false := by simpa using c4
    simp only [c4x, Bool.false_eq_true, if_false]
    by_cases c5 : ((S.advance).1 == ';') = true
    · simp only [c5, if_true]; exact scanOK_tok1 S hae2 _ _
    have c5x : ((S.advance).1 == ';') = false := by simpa using c5
    simp only [c5x, Bool.false_eq_true, if_false]
    by_cases c6 : ((S.advance).1 == '+') = true
    · simp only [c6, if_true]; exact scanOK_tok1 S hae2 _ _
    have c6x : ((S.advance).1 == '+') = false := by simpa using c6
    simp only [c6x, Bool.false_eq_true, if_false]
    by_cases c7 : ((S.advance).1 == '-') = true
    · simp only [c7, if_true]; exact scanOK_tok1 S hae2 _ _
    have c7x : ((S.advance).1 == '-') = false := by simpa using c7
    simp only [c7x, Bool.false_eq_true, if_false]
    by_cases c8 : ((S.advance).1 == '*') = true
    · simp only [c8, if_true]; exact scanOK_tok1 S hae2 _ _
    have c8x : ((S.advance).1 == '*') = false := by simpa using c8
    simp only [c8x, Bool.false_eq_true, if_false]
    by_cases c9 : ((S.advance).1 == '/') = true
    · simp only [c9, if_true]
      by_cases d1 : ((S.advance).2.peek == '/') = true
      · simp only [d1, if_true]
        obtain ⟨L2, heq2, hs2, hp2, hb2, hl2⟩ :=
          (skipLineComment_spec (f + 1) (S.advance).2 hb1 hf1).bound
        simp only [heq2]
        have hrec := ih L2 (by rw [hs2]; exact hb2)
          (by rw [hs2, e1]; omega)
        exact scanOK_step S L2 _ hrec (by rw [hs2, e1]) (by omega)
          (lexLe_trans hlex1 hl2)
      have d1x : ((S.advance).2.peek == '/') = false := by simpa using d1
      simp only [d1x, Bool.false_eq_true, if_false]
      by_cases d2 : ((S.advance).2.peek == '*') = true
      · simp only [d2, if_true]
        have hend2 : (S.advance).2.isAtEnd = false :=
          not_atEnd_of_peek _ '*' d2 (by decide)
        have hlt2 := (isAtEnd_false_iff _).mp hend2
        rw [e1, e2] at hlt2
        obtain ⟨g1, g2, g3, g4⟩ := advance_fields (S.advance).2 hend2
        have hb2a : ((S.advance).2.advance).2.currentPos ≤
            ((S.advance).2.advance).2.sourcecode.length := by
          rw [g1, g2, e1, e2]; omega
        have hlex2 : lexLe (lc (S.advance).2) (lc ((S.advance).2.advance).2) := by
          rw [lc, lc, g3, g4]; exact Or.inr ⟨rfl, Nat.le_succ _⟩
        obtain ⟨L2, heq2, hs2, hp2, hb2, hl2⟩ :=
          (skipBlockComment_spec (f + 1) ((S.advance).2.advance).2 hb2a
            (by rw [g1, g2, e1, e2]; omega)).bound
        simp only [heq2]
        have hrec := ih L2 (by rw [hs2]; exact hb2)
          (by rw [hs2, g1, e1]; omega)
        exact scanOK_step S L2 _ hrec (by rw [hs2, g1, e1]) (by omega)
          (lexLe_trans hlex1 (lexLe_trans hlex2 hl2))
      have d2x : ((S.advance).2.peek == '*') = false := by simpa using d2
      simp only [d2x, Bool.false_eq_true, if_false]
      exact scanOK_tok1 S hae2 _ _
    have c9x : ((S.advance).1 == '/') = false := by simpa using c9
    simp only [c9x, Bool.false_eq_true, if_false]
    by_cases c10 : ((S.advance).1 == '%') = true
    · simp only [c10, if_true]; exact scanOK_tok1 S hae2 _ _
    have c10x : ((S.advance).1 == '%') = false := by simpa using c10
    simp only [c10x, Bool.false_eq_true, if_false]
    by_cases c11 : ((S.advance).1 == '#') = true
    · simp only [c11, if_true]; exact scanOK_tok1 S hae2 _ _
    have c11x : ((S.advance).1 == '#') = false := by simpa using c11
    simp only [c11x, Bool.false_eq_true, if_false]
    by_cases c12 : ((S.advance).1 == '<') = true
    · simp only [c12, if_true]
      by_cases d : ((S.advance).2.peek == '=') = true
      · simp only [d, if_true]
        exact scanOK_tok2 S hae2 (not_atEnd_of_peek _ '=' d (by decide)) _ _
      have dx : ((S.advance).2.peek == '=') = false := by simpa using d
      simp only [dx, Bool.false_eq_true, if_false]
      exact scanOK_tok1 S hae2 _ _
    have c12x : ((S.advance).1 == '<') = false := by simpa using c12
    simp only [c12x, Bool.false_eq_true, if_false]
    by_cases c13 : ((S.advance).1 == '>') = true
    · simp only [c13, if_true]
      by_cases d : ((S.advance).2.peek == '=') = true
      · simp only [d, if_true]
        exact scanOK_tok2 S hae2 (not_atEnd_of_peek _ '=' d (by decide)) _ _
      have dx : ((S.advance).2.peek == '=') = false := by simpa using d
      simp only [dx, Bool.false_eq_true, if_false]
      exact scanOK_tok1 S hae2 _ _
    have c13x : ((S.advance).1 == '>') = false := by simpa using c13
    simp only [c13x, Bool.false_eq_true, if_false]
    by_cases c14 : ((S.advance).1 == '=') = true
    · simp only [c14, if_true]
      by_cases d : ((S.advance).2.peek == '=') = true
      · simp only [d, if_true]
        exact scanOK_tok2 S hae2 (not_atEnd_of_peek _ '=' d (by decide)) _ _
      have dx : ((S.advance).2.peek == '=') = false := by simpa using d
      simp only [dx, Bool.false_eq_true, if_false]
      exact scanOK_tok1 S hae2 _ _
    have c14x : ((S.advance).1 == '=') = false := by simpa using c14
    simp only [c14x, Bool.false_eq_true, if_false]
    by_cases c15 : ((S.advance).1 == '!') = true
    · simp only [c15, if_true]
      by_cases d : ((S.advance).2.peek == '=') = true
      · simp only [d, if_true]
        exact scanOK_tok2 S hae2 (not_atEnd_of_peek _ '=' d (by decide)) _ _
      have dx : ((S.advance).2.peek == '=') = false := by simpa using d
      simp only [dx, Bool.false_eq_true, if_false]
      exact scanOK_tok1 S hae2 _ _
    have c15x : ((S.advance).1 == '!') = false := by simpa using c15
    simp only [c15x, Bool.false_eq_true, if_false]
    by_cases c16 : ((S.advance).1 == ',') = true
    · simp only [c16, if_true]; exact scanOK_tok1 S hae2 _ _
    have c16x : ((S.advance).1 == ',') = false := by simpa using c16
    simp only [c16x, Bool.false_eq_true, if_false]
    by_cases c17 : ((S.advance).1 == '"') = true
    · simp only [c17, if_true]
      exact scanOK_of_tokenOK S (S.advance).2 _
        (scanString_spec (f + 1) (S.advance).2 S.line S.column hb1 hf1)
        e1 (by omega) hlex1
    have c17x : ((S.advance).1 == '"') = false := by simpa using c17
    simp only [c17x, Bool.false_eq_true, if_false]
    by_cases c18 : ((S.advance).1 == squote) = true
    · simp only [c18, if_true]
      exact scanOK_of_tokenOK S (S.advance).2 _
        (scanCharacter_spec (S.advance).2 S.line S.column hb1)
        e1 (by omega) hlex1
    have c18x : ((S.advance).1 == squote) = false := by simpa using c18
    simp only [c18x, Bool.false_eq_true, if_false]
    by_cases c19 : ((S.advance).1.isDigit) = true
    · simp only [c19, if_true]
      exact scanOK_of_tokenOK S (S.advance).2 _
        (scanNumber_spec (f + 1) (S.advance).2 S.line S.column hb1 hf1)
        e1 (by omega) hlex1
    have c19x : ((S.advance).1.isDigit) = false := by simpa using c19
    simp only [c19x, Bool.false_eq_true, if_false]
    by_cases c20 : ((S.advance).1.isAlpha || (S.advance).1 == '_') = true
    · simp only [c20, if_true]
      exact scanOK_of_tokenOK S (S.advance).2 _
        (scanIdentifier_spec (f + 1) (S.advance).2 S.line S.column hb1 hf1)
        e1 (by omega) hlex1
    have c20x : ((S.advance).1.isAlpha || (S.advance).1 == '_') = false := by
      simpa using c20
    simp only [c20x, Bool.false_eq_true, if_false]
    exact scanOK_tok1 S hae2 _ _

/-- The token-collecting loop with enough fuel succeeds from any
in-bounds state; its output is non-empty, all token positions are at
or after the starting position, successive token positions are
non-decreasing in lexicographic order, and the last token is the
end-of-input token. -/
theorem scanTokensLoop_spec : ∀ (f : Nat) (L : Lexer),
    L.currentPos ≤ L.sourcecode.length →
    L.sourcecode.length - L.currentPos < f →
    ∃ ts : List Token, scanTokensLoop f L = some ts ∧ ts ≠ [] ∧
      (∀ t ∈ ts, lexLe (lc L) (t.line, t.column)) ∧
      List.Chain' lexLe (ts.map fun t => (t.line, t.column)) ∧
      (∃ te, ts.getLast? = some te ∧ te.type = Tokentype.E_O_F) := by
  intro f
  induction f with
  | zero => intro L h1 h2; omega
  | succ f ih =>
    intro L h1 h2
    obtain ⟨t, L', heqt, hs, hp, hb, hstrict, hl1, hl2⟩ :=
      (scanToken_spec (f + 1) L h1 h2).boundTok
    simp only [scanTokensLoop, heqt]
    by_cases hE : (t.type == Tokentype.E_O_F) = true
    · simp only [hE, if_true]
      refine ⟨[t], rfl, by simp, ?_, by simp, t, rfl, by simpa using hE⟩
      intro u hu
      rw [List.mem_singleton] at hu
      rw [hu]; exact hl1
    · have hEx : (t.type == Tokentype.E_O_F) = false := by simpa using hE
      have hne : t.type ≠ Tokentype.E_O_F := by simpa using hE
      have hstep := hstrict hne
      have hb2 : L'.currentPos ≤ L'.sourcecode.length := by rw [hs]; exact hb
      have hf2 : L'.sourcecode.length - L'.currentPos < f := by rw [hs]; omega
      obtain ⟨rest, heqr, hrne, hrmem, hrchain, te, hrlast, hrty⟩ := ih L' hb2 hf2
      simp only [hEx, Bool.false_eq_true, if_false, heqr]
      cases rest with
      | nil => exact absurd rfl hrne
      | cons t0 rest2 =>
        refine ⟨t :: t0 :: rest2, rfl, by simp, ?_, ?_, te, ?_, hrty⟩
        · intro u hu
          rw [List.mem_cons] at hu
          rcases hu with hu | hu
          · rw [hu]; exact hl1
          · exact lexLe_trans (lexLe_trans hl1 hl2) (hrmem u hu)
        · simp only [List.map_cons]
          rw [List.chain'_cons]
          refine ⟨lexLe_trans hl2 (hrmem t0 (by simp)), ?_⟩
          simp only [List.map_cons] at hrchain
          exact hrchain
        · rw [List.getLast?_cons_cons]
          exact hrlast

theorem drop_cons_head {src : List Char} {p : Nat} {c : Char} {r : List Char}
    (h : src.drop p = c :: r) :
    p < src.length ∧ src.getD p '\x00' = c ∧ src.drop (p + 1) = r := by
  refine ⟨?_, ?_, ?_⟩
  · by_contra hle
    push_neg at hle
    rw [List.drop_eq_nil_of_le hle] at h
    exact absurd h (by simp)
  · have h1 : src[p]? = some c := by
      have := List.getElem?_drop src p 0
      rw [h] at this
      simpa using this.symm
    simp [List.getD_eq_getElem?_getD, h1]
  · rw [← List.drop_drop 1 p src, h]
    rfl

theorem drop_getElem_cons {src : List Char} {p : Nat} (h : p < src.length) :
    src.drop p = src.getD p '\x00' :: src.drop (p + 1) := by
  have h2 := List.drop_eq_getElem_cons h
  rw [h2]
  congr 1
  simp [List.getD_eq_getElem?_getD, List.getElem?_eq_getElem h]

theorem peek_not_atEnd (L : Lexer) (h : L.isAtEnd = false) :
    L.peek = L.sourcecode.getD L.currentPos '\x00' := by
  simp [Lexer.peek, h]

theorem advance_fst (L : Lexer) (h : L.isAtEnd = false) :
    (L.advance).1 = L.sourcecode.getD L.currentPos '\x00' := by
  simp [Lexer.advance, h]

/-- No `*/` terminator pair occurs inside the list. -/
def NoTerm : List Char → Prop
  | [] => True
  | [_] => True
  | a :: b :: r => ¬(a = '*' ∧ b = '/') ∧ NoTerm (b :: r)

/-- Sources made only of whitespace, line comments (running to a
newline or to the end of input) and terminated block comments. -/
inductive WsOnly : List Char → Prop where
  | nil : WsOnly []
  | ws (c : Char) (rest : List Char)
      (hc : c = ' ' ∨ c = '\r' ∨ c = '\t' ∨ c = '\n')
      (h : WsOnly rest) : WsOnly (c :: rest)
  | lineComment (body rest : List Char)
      (hb : ∀ x ∈ body, x ≠ '\n')
      (hr : rest = [] ∨ ∃ r2, rest = '\n' :: r2)
      (h : WsOnly rest) : WsOnly ('/' :: '/' :: (body ++ rest))
  | blockComment (body rest : List Char)
      (hb : NoTerm body)
      (h : WsOnly rest) : WsOnly ('/' :: '*' :: (body ++ '*' :: '/' :: rest))

theorem wsOnly_cons_inv {c : Char} {r : List Char} (h : WsOnly (c :: r)) :
    ((c = ' ' ∨ c = '\r' ∨ c = '\t' ∨ c = '\n') ∧ WsOnly r) ∨
    (c = '/' ∧ ∃ body rest, (∀ x ∈ body, x ≠ '\n') ∧
      (rest = [] ∨ ∃ r2, rest = '\n' :: r2) ∧ WsOnly rest ∧
      r = '/' :: (body ++ rest)) ∨
    (c = '/' ∧ ∃ body rest, NoTerm body ∧ WsOnly rest ∧
      r = '*' :: (body ++ '*' :: '/' :: rest)) := by
  cases h with
  | ws c rest hc h => exact Or.inl ⟨hc, h⟩
  | lineComment body rest hb hr h =>
    exact Or.inr (Or.inl ⟨rfl, body, rest, hb, hr, h, rfl⟩)
  | blockComment body rest hb h =>
    exact Or.inr (Or.inr ⟨rfl, body, rest, hb, h, rfl⟩)

/-- On a whitespace/comment-only suffix, the whitespace skipper stops
either at the end of input or at a character that is not whitespace
(which, by `WsOnly`, must start a comment). -/
theorem skipWhitespace_wsOnly : ∀ (f : Nat) (L : Lexer),
    L.currentPos ≤ L.sourcecode.length →
    L.sourcecode.length - L.currentPos < f →
    WsOnly (L.sourcecode.drop L.currentPos) →
    ∃ L1, skipWhitespace f L = some L1 ∧ L1.sourcecode = L.sourcecode ∧
      L.currentPos ≤ L1.currentPos ∧ L1.currentPos ≤ L.sourcecode.length ∧
      WsOnly (L1.sourcecode.drop L1.currentPos) ∧
      (L1.isAtEnd = true ∨
        (L1.peek ≠ ' ' ∧ L1.peek ≠ '\r' ∧ L1.peek ≠ '\t' ∧ L1.peek ≠ '\n')) := by
  intro f
  induction f with
  | zero => intro L h1 h2 _; omega
  | succ f ih =>
    intro L h1 h2 hW
    by_cases hae : L.isAtEnd = true
    · exact ⟨L, by simp [skipWhitespace, hae], rfl, Nat.le_refl _, h1, hW, Or.inl hae⟩
    have hae2 : L.isAtEnd = false := by simpa using hae
    have hlt := (isAtEnd_false_iff L).mp hae2
    have hpeek := peek_not_atEnd L hae2
    have hdrop := drop_getElem_cons hlt
    rw [hdrop] at hW
    by_cases cw : (L.peek == ' ' || L.peek == '\r' || L.peek == '\t') = true
    · have cw2 : (L.peek = ' ' ∨ L.peek = '\r') ∨ L.peek = '\t' := by
        simpa [Bool.or_eq_true, beq_iff_eq] using cw
      rw [hpeek] at cw2
      have hWt : WsOnly (L.sourcecode.drop (L.currentPos + 1)) := by
        rcases wsOnly_cons_inv hW with ⟨_, hWt⟩ | ⟨hcs, _⟩ | ⟨hcs, _⟩
        · exact hWt
        · rw [hcs] at cw2
          rcases cw2 with (h | h) | h <;> exact absurd h (by decide)
        · rw [hcs] at cw2
          rcases cw2 with (h | h) | h <;> exact absurd h (by decide)
      obtain ⟨e1, e2, e3, e4⟩ := advance_fields L hae2
      obtain ⟨L1, heq, hs1, hp1, hb1, hW1, hstop1⟩ := ih (L.advance).2
        (by rw [e1, e2]; omega) (by rw [e1, e2]; omega) (by rw [e1, e2]; exact hWt)
      simp only [skipWhitespace, hae2, Bool.false_eq_true, if_false, cw, if_true]
      refine ⟨L1, heq, hs1.trans e1, by omega, ?_, hW1, hstop1⟩
      rw [e1] at hb1; omega
    · have cwx : (L.peek == ' ' || L.peek == '\r' || L.peek == '\t') = false := by
        simpa using cw
      by_cases cn : (L.peek == '\n') = true
      · have cn2 : L.peek = '\n' := by simpa using cn
        rw [hpeek] at cn2
        have hWt : WsOnly (L.sourcecode.drop (L.currentPos + 1)) := by
          rcases wsOnly_cons_inv hW with ⟨_, hWt⟩ | ⟨hcs, _⟩ | ⟨hcs, _⟩
          · exact hWt
          · rw [hcs] at cn2; exact absurd cn2 (by decide)
          · rw [hcs] at cn2; exact absurd cn2 (by decide)
        have haeM : ({ L with line := L.line + 1, column := 0 } : Lexer).isAtEnd = false :=
          hae2
        obtain ⟨e1, e2, e3, e4⟩ :=
          advance_fields ({ L with line := L.line + 1, column := 0 } : Lexer) haeM
        have e1' : (({ L with line := L.line + 1, column := 0 } : Lexer).advance).2.sourcecode
            = L.sourcecode := e1
        have e2' : (({ L with line := L.line + 1, column := 0 } : Lexer).advance).2.currentPos
            = L.currentPos + 1 := e2
        obtain ⟨L1, heq, hs1, hp1, hb1, hW1, hstop1⟩ :=
          ih (({ L with line := L.line + 1, column := 0 } : Lexer).advance).2
          (by rw [e1', e2']; omega) (by rw [e1', e2']; omega)
          (by rw [e1', e2']; exact hWt)
        simp only [skipWhitespace, hae2, Bool.false_eq_true, if_false, cwx, cn, if_true]
        refine ⟨L1, heq, hs1.trans e1', by omega, ?_, hW1, hstop1⟩
        rw [e1'] at hb1; omega
      · have cnx : (L.peek == '\n') = false := by simpa using cn
        refine ⟨L, ?_, rfl, Nat.le_refl _, h1, by rw [← hdrop] at hW; exact hW, Or.inr ?_⟩
        · simp only [skipWhitespace, hae2, Bool.false_eq_true, if_false, cwx, cnx]
        · simp only [Bool.or_eq_false_iff, beq_eq_false_iff_ne] at cwx
          exact ⟨cwx.1.1, cwx.1.2, cwx.2, by simpa using cnx⟩

/-- The line-comment loop consumes exactly a newline-free body and
stops at the following newline or end of input. -/
theorem skipLineComment_to : ∀ (f : Nat) (L : Lexer) (body rest : List Char),
    L.currentPos ≤ L.sourcecode.length →
    L.sourcecode.length - L.currentPos < f →
    L.sourcecode.drop L.currentPos = body ++ rest →
    (∀ x ∈ body, x ≠ '\n') →
    (rest = [] ∨ ∃ r2, rest = '\n' :: r2) →
    ∃ L2, skipLineComment f L = some L2 ∧ L2.sourcecode = L.sourcecode ∧
      L2.currentPos = L.currentPos + body.length ∧
      L2.currentPos ≤ L2.sourcecode.length ∧
      L2.sourcecode.drop L2.currentPos = rest := by
  intro f
  induction f with
  | zero => intro L body rest h1 h2 hd hb hr; omega
  | succ f ih =>
    intro L body rest h1 h2 hd hb hr
    cases body with
    | nil =>
      rw [List.nil_append] at hd
      rcases hr with rfl | ⟨r2, rfl⟩
      · have hlen : L.sourcecode.length ≤ L.currentPos := by
          have hx := congrArg List.length hd
          simp only [List.length_drop, List.length_nil] at hx
          omega
        have hae : L.isAtEnd = true := by
          simp only [Lexer.isAtEnd, decide_eq_true_eq]
          omega
        simp only [skipLineComment, hae, Bool.not_true, Bool.and_false,
          Bool.false_eq_true, if_false]
        exact ⟨L, rfl, rfl, by simp, h1, hd⟩
      · obtain ⟨hlt, hg, hd2⟩ := drop_cons_head hd
        have hae2 : L.isAtEnd = false := (isAtEnd_false_iff L).mpr hlt
        have hp : L.peek = '\n' := by rw [peek_not_atEnd L hae2, hg]
        have hcond : (L.peek != '\n') = false := by rw [hp]; decide
        simp only [skipLineComment, hcond, Bool.false_and, Bool.false_eq_true, if_false]
        exact ⟨L, rfl, rfl, by simp, h1, hd⟩
    | cons c body2 =>
      rw [List.cons_append] at hd
      obtain ⟨hlt, hg, hd2⟩ := drop_cons_head hd
      have hae2 : L.isAtEnd = false := (isAtEnd_false_iff L).mpr hlt
      have hp : L.peek = c := by rw [peek_not_atEnd L hae2, hg]
      have hcn : c ≠ '\n' := hb c (by simp)
      have hcond : (L.peek != '\n' && !L.isAtEnd) = true := by
        simp only [hp, hae2, Bool.not_false, Bool.and_true, bne_iff_ne, ne_eq]
        exact hcn
      simp only [skipLineComment, hcond, if_true]
      obtain ⟨e1, e2, e3, e4⟩ := advance_fields L hae2
      obtain ⟨L2, heq, hs2, hpos2, hb2, hd3⟩ := ih (L.advance).2 body2 rest
        (by rw [e1, e2]; omega) (by rw [e1, e2]; omega) (by rw [e1, e2]; exact hd2)
        (fun x hx => hb x (by simp [hx])) hr
      refine ⟨L2, heq, hs2.trans e1, ?_, hb2, hd3⟩
      rw [hpos2, e2, List.length_cons]
      omega

/-- The block-comment loop consumes exactly a terminator-free body and
its closing terminator. -/
theorem skipBlockComment_to : ∀ (f : Nat) (L : Lexer) (body rest : List Char),
    L.currentPos ≤ L.sourcecode.length →
    L.sourcecode.length - L.currentPos < f →
    L.sourcecode.drop L.currentPos = body ++ '*' :: '/' :: rest →
    NoTerm body →
    ∃ L2, skipBlockComment f L = some L2 ∧ L2.sourcecode = L.sourcecode ∧
      L2.currentPos = L.currentPos + body.length + 2 ∧
      L2.currentPos ≤ L2.sourcecode.length ∧
      L2.sourcecode.drop L2.currentPos = rest := by
  intro f
  induction f with
  | zero => intro L body rest h1 h2 hd hnt; omega
  | succ f ih =>
    intro L body rest h1 h2 hd hnt
    cases body with
    | nil =>
      rw [List.nil_append] at hd
      obtain ⟨hlt, hg, hd2⟩ := drop_cons_head hd
      obtain ⟨hlt2, hg2, hd3⟩ := drop_cons_head hd2
      have hae2 : L.isAtEnd = false := (isAtEnd_false_iff L).mpr hlt
      have hp : L.peek = '*' := by rw [peek_not_atEnd L hae2, hg]
      have hcond : (L.peek == '*' && decide (L.currentPos + 1 < L.sourcecode.length) &&
          (L.sourcecode.getD (L.currentPos + 1) '\x00' == '/')) = true := by
        rw [hp, hg2]
        simp [hlt2]
      simp only [skipBlockComment, hae2, Bool.false_eq_true, if_false, hcond, if_true]
      obtain ⟨e1, e2, e3, e4⟩ := advance_fields L hae2
      have hend2 : (L.advance).2.isAtEnd = false := by
        rw [isAtEnd_false_iff, e1, e2]; exact hlt2
      obtain ⟨g1, g2, g3, g4⟩ := advance_fields (L.advance).2 hend2
      refine ⟨_, rfl, by rw [g1, e1], ?_, ?_, ?_⟩
      · rw [g2, e2]; simp
      · rw [g1, g2, e1, e2]; omega
      · rw [g1, g2, e1, e2]; exact hd3
    | cons c body2 =>
      rw [List.cons_append] at hd
      obtain ⟨hlt, hg, hd2⟩ := drop_cons_head hd
      have hae2 : L.isAtEnd = false := (isAtEnd_false_iff L).mpr hlt
      have hp : L.peek = c := by rw [peek_not_atEnd L hae2, hg]
      have hnt2 : NoTerm body2 := by
        cases body2 with
        | nil => trivial
        | cons b body3 => exact hnt.2
      have hcond : (L.peek == '*' && decide (L.currentPos + 1 < L.sourcecode.length) &&
          (L.sourcecode.getD (L.currentPos + 1) '\x00' == '/')) = false := by
        cases body2 with
        | nil =>
          rw [List.nil_append] at hd2
          obtain ⟨_, hg2, _⟩ := drop_cons_head hd2
          rw [hg2]
          simp
        | cons b body3 =>
          rw [List.cons_append] at hd2
          obtain ⟨_, hg2, _⟩ := drop_cons_head hd2
          by_cases hc : c = '*'
          · have hb2 : b ≠ '/' := fun hx => hnt.1 ⟨hc, hx⟩
            have h3 : (L.sourcecode.getD (L.currentPos + 1) '\x00' == '/') = false := by
              rw [hg2]; exact beq_eq_false_iff_ne.mpr hb2
            simp only [h3, Bool.and_false]
          · have h3 : (L.peek == '*') = false := by
              rw [hp]; exact beq_eq_false_iff_ne.mpr hc
            simp only [h3, Bool.false_and]
      simp only [skipBlockComment, hae2, Bool.false_eq_true, if_false, hcond]
      by_cases hn : (L.peek == '\n') = true
      · simp only [hn, if_true]
        have haeM : ({ L with line := L.line + 1, column := 0 } : Lexer).isAtEnd = false :=
          hae2
        obtain ⟨e1, e2, e3, e4⟩ :=
          advance_fields ({ L with line := L.line + 1, column := 0 } : Lexer) haeM
        have e1' : (({ L with line := L.line + 1, column := 0 } : Lexer).advance).2.sourcecode
            = L.sourcecode := e1
        have e2' : (({ L with line := L.line + 1, column := 0 } : Lexer).advance).2.currentPos
            = L.currentPos + 1 := e2
        obtain ⟨L2, heq, hs2, hpos2, hb2, hd3⟩ :=
          ih (({ L with line := L.line + 1, column := 0 } : Lexer).advance).2 body2 rest
          (by rw [e1', e2']; omega) (by rw [e1', e2']; omega)
          (by rw [e1', e2']; exact hd2) hnt2
        refine ⟨L2, heq, hs2.trans e1', ?_, hb2, hd3⟩
        rw [hpos2, e2', List.length_cons]
        omega
      · have hnx : (L.peek == '\n') = false := by simpa using hn
        simp only [hnx, Bool.false_eq_true, if_false]
        obtain ⟨e1, e2, e3, e4⟩ := advance_fields L hae2
        obtain ⟨L2, heq, hs2, hpos2, hb2, hd3⟩ := ih (L.advance).2 body2 rest
          (by rw [e1, e2]; omega) (by rw [e1, e2]; omega) (by rw [e1, e2]; exact hd2) hnt2
        refine ⟨L2, heq, hs2.trans e1, ?_, hb2, hd3⟩
        rw [hpos2, e2, List.length_cons]
        omega

/-- On a whitespace/comment-only suffix, `scanToken` (with enough
fuel) produces the end-of-input token. -/
theorem scanToken_wsOnly : ∀ (f : Nat) (L : Lexer),
    L.currentPos ≤ L.sourcecode.length →
    L.sourcecode.length - L.currentPos < f →
    WsOnly (L.sourcecode.drop L.currentPos) →
    ∃ t L2, scanToken f L = some (t, L2) ∧ t.type = Tokentype.E_O_F := by
  intro f
  induction f with
  | zero => intro L h1 h2 _; omega
  | succ f ih =>
    intro L h1 h2 hW
    obtain ⟨L1, heqw, hs1, hp1, hb1, hW1, hstop⟩ :=
      skipWhitespace_wsOnly (f + 1) L h1 h2 hW
    have hb1b : L1.currentPos ≤ L1.sourcecode.length := by rw [hs1]; exact hb1
    have hsl : L1.sourcecode.length = L.sourcecode.length := by rw [hs1]
    simp only [scanToken, heqw]
    by_cases hae : L1.isAtEnd = true
    · simp only [hae, if_true]
      exact ⟨_, L1, rfl, rfl⟩
    have hae2 : L1.isAtEnd = false := by simpa using hae
    have hnw := hstop.resolve_left hae
    have hlt := (isAtEnd_false_iff L1).mp hae2
    have hpeek := peek_not_atEnd L1 hae2
    have hdrop := drop_getElem_cons hlt
    rw [hdrop] at hW1
    have ha1 : (L1.advance).1 = L1.sourcecode.getD L1.currentPos '\x00' :=
      advance_fst L1 hae2
    simp only [hae2, Bool.false_eq_true, if_false]
    rcases wsOnly_cons_inv hW1 with ⟨hc, _⟩ |
      ⟨hcs, body, rest, hbody, hrest, hWr, htail⟩ |
      ⟨hcs, body, rest, hnt, hWr, htail⟩
    · rcases hc with h | h | h | h <;> rw [← hpeek] at h
      · exact absurd h hnw.1
      · exact absurd h hnw.2.1
      · exact absurd h hnw.2.2.1
      · exact absurd h hnw.2.2.2
    · have hsl2 : (L1.advance).1 = '/' := by rw [ha1, hcs]
      have b1 : ((L1.advance).1 == '(') = false := by rw [hsl2]; decide
      have b2 : ((L1.advance).1 == ')') = false := by rw [hsl2]; decide
      have b3 : ((L1.advance).1 == '{') = false := by rw [hsl2]; decide
      have b4 : ((L1.advance).1 == '}') = false := by rw [hsl2]; decide
      have b5 : ((L1.advance).1 == ';') = false := by rw [hsl2]; decide
      have b6 : ((L1.advance).1 == '+') = false := by rw [hsl2]; decide
      have b7 : ((L1.advance).1 == '-') = false := by rw [hsl2]; decide
      have b8 : ((L1.advance).1 == '*') = false := by rw [hsl2]; decide
      have b9 : ((L1.advance).1 == '/') = true := by rw [hsl2]; decide
      simp only [b1, b2, b3, b4, b5, b6, b7, b8, Bool.false_eq_true, if_false,
        b9, if_true]
      obtain ⟨eA1, eA2, eA3, eA4⟩ := advance_fields L1 hae2
      obtain ⟨hlt2, hg2, hd2⟩ := drop_cons_head htail
      have hend2 : (L1.advance).2.isAtEnd = false := by
        rw [isAtEnd_false_iff, eA1, eA2]; exact hlt2
      have hpk2 : (L1.advance).2.peek = '/' := by
        rw [peek_not_atEnd _ hend2, eA1, eA2, hg2]
      have d1 : ((L1.advance).2.peek == '/') = true := by rw [hpk2]; decide
      simp only [d1, if_true]
      obtain ⟨L2, heqC, hsC, hposC, hbC, hdC⟩ :=
        skipLineComment_to (f + 1) (L1.advance).2 ('/' :: body) rest
        (by rw [eA1, eA2]; omega) (by rw [eA1, eA2]; omega)
        (by rw [eA1, eA2, List.cons_append]; exact htail)
        (by
          intro x hx
          rcases List.mem_cons.mp hx with rfl | hx2
          · decide
          · exact hbody x hx2)
        hrest
      simp only [heqC]
      have hslC : L2.sourcecode.length = L.sourcecode.length := by
        rw [hsC, eA1, hsl]
      simp only [List.length_cons] at hposC
      apply ih L2 hbC
      · omega
      · rw [hdC]; exact hWr
    · have hsl2 : (L1.advance).1 = '/' := by rw [ha1, hcs]
      have b1 : ((L1.advance).1 == '(') = false := by rw [hsl2]; decide
      have b2 : ((L1.advance).1 == ')') = false := by rw [hsl2]; decide
      have b3 : ((L1.advance).1 == '{') = false := by rw [hsl2]; decide
      have b4 : ((L1.advance).1 == '}') = false := by rw [hsl2]; decide
      have b5 : ((L1.advance).1 == ';') = false := by rw [hsl2]; decide
      have b6 : ((L1.advance).1 == '+') = false := by rw [hsl2]; decide
      have b7 : ((L1.advance).1 == '-') = false := by rw [hsl2]; decide
      have b8 : ((L1.advance).1 == '*') = false := by rw [hsl2]; decide
      have b9 : ((L1.advance).1 == '/') = true := by rw [hsl2]; decide
      simp only [b1, b2, b3, b4, b5, b6, b7, b8, Bool.false_eq_true, if_false,
        b9, if_true]
      obtain ⟨eA1, eA2, eA3, eA4⟩ := advance_fields L1 hae2
      obtain ⟨hlt2, hg2, hd2⟩ := drop_cons_head htail
      have hend2 : (L1.advance).2.isAtEnd = false := by
        rw [isAtEnd_false_iff, eA1, eA2]; exact hlt2
      have hpk2 : (L1.advance).2.peek = '*' := by
        rw [peek_not_atEnd _ hend2, eA1, eA2, hg2]
      have d1 : ((L1.advance).2.peek == '/') = false := by rw [hpk2]; decide
      have d2 : ((L1.advance).2.peek == '*') = true := by rw [hpk2]; decide
      simp only [d1, Bool.false_eq_true, if_false, d2, if_true]
      obtain ⟨g1, g2, g3, g4⟩ := advance_fields (L1.advance).2 hend2
      obtain ⟨L2, heqC, hsC, hposC, hbC, hdC⟩ :=
        skipBlockComment_to (f + 1) ((L1.advance).2.advance).2 body rest
        (by rw [g1, g2, eA1, eA2]; omega) (by rw [g1, g2, eA1, eA2]; omega)
        (by rw [g1, g2, eA1, eA2]; exact hd2) hnt
      simp only [heqC]
      have hslC : L2.sourcecode.length = L.sourcecode.length := by
        rw [hsC, g1, eA1, hsl]
      apply ih L2 hbC
      · omega
      · rw [hdC]; exact hWr

/-- Claim C8 (confirmed): scanning is total and terminating — for
every input, `scanTokens` (whose fuel, `length + 1`, is proved
sufficient here) succeeds and its output ends with an end-of-input
token; and for any source consisting only of whitespace, line
comments and (terminated) block comments, it yields exactly one
token, the end-of-input token. -/
theorem claim_C8_termination :
    (∀ source : List Char, ∃ ts, scanTokens source = some ts ∧
      ∃ te, ts.getLast? = some te ∧ te.type = Tokentype.E_O_F) ∧
    (∀ source : List Char, WsOnly source →
      ∃ t, scanTokens source = some [t] ∧ t.type = Tokentype.E_O_F) := by
  constructor
  · intro source
    obtain ⟨ts, heq, hne, hmem, hchain, te, hlast, hty⟩ :=
      scanTokensLoop_spec (source.length + 1) ⟨source, 0, 1, 1⟩
        (Nat.zero_le _) (by show source.length - 0 < source.length + 1; omega)
    refine ⟨ts, ?_, te, hlast, hty⟩
    simp only [scanTokens]
    exact heq
  · intro source hws
    obtain ⟨t, L2, heqT, hty⟩ := scanToken_wsOnly (source.length + 1)
      ⟨source, 0, 1, 1⟩ (Nat.zero_le _)
      (by show source.length - 0 < source.length + 1; omega) hws
    have hbeq : (t.type == Tokentype.E_O_F) = true := beq_iff_eq.mpr hty
    refine ⟨t, ?_, hty⟩
    simp only [scanTokens, scanTokensLoop, heqT, hbeq, if_true]

theorem claim_C8_termination_witness :
    (∃ ts, scanTokens ['a'] = some ts ∧
      ∃ te, ts.getLast? = some te ∧ te.type = Tokentype.E_O_F) ∧
    (∃ t, scanTokens [' '] = some [t] ∧ t.type = Tokentype.E_O_F) :=
  ⟨claim_C8_termination.1 ['a'],
   claim_C8_termination.2 [' '] (WsOnly.ws ' ' [] (Or.inl rfl) WsOnly.nil)⟩

/-- Claim C9 (corrected): the (line, column) positions of successive
tokens are non-decreasing in lexicographic order; and a newline
consumed by the whitespace skipper, inside a string literal or inside
a block comment strictly increases the line counter and resets the
column (`column := 0`, then `advance` moves it to 1). The original
claim's universal newline statement fails only for newlines inside
character literals (see the counterexample), which are consumed by
plain `advance`. -/
theorem claim_C9_position_monotonicity :
    (∀ (source : List Char) (ts : List Token), scanTokens source = some ts →
      List.Chain' lexLe (ts.map fun t => (t.line, t.column))) ∧
    (∀ (f : Nat) (L : Lexer), L.isAtEnd = false → L.peek = '\n' →
      skipWhitespace (f + 1) L =
        skipWhitespace f ⟨L.sourcecode, L.currentPos + 1, L.line + 1, 1⟩) ∧
    (∀ (f : Nat) (L : Lexer), L.isAtEnd = false → L.peek = '\n' →
      scanStringBody (f + 1) L =
        scanStringBody f ⟨L.sourcecode, L.currentPos + 1, L.line + 1, 1⟩) ∧
    (∀ (f : Nat) (L : Lexer), L.isAtEnd = false → L.peek = '\n' →
      skipBlockComment (f + 1) L =
        skipBlockComment f ⟨L.sourcecode, L.currentPos + 1, L.line + 1, 1⟩) := by
  refine ⟨?_, ?_, ?_, ?_⟩
  · intro source ts h
    obtain ⟨ts0, heq0, _, _, hchain, _⟩ :=
      scanTokensLoop_spec (source.length + 1) ⟨source, 0, 1, 1⟩
        (Nat.zero_le _) (by show source.length - 0 < source.length + 1; omega)
    simp only [scanTokens] at h
    rw [heq0] at h
    have he : ts0 = ts := Option.some.inj h
    rw [← he]
    exact hchain
  · intro f L hae hp
    have cw : (L.peek == ' ' || L.peek == '\r' || L.peek == '\t') = false := by
      rw [hp]; decide
    have cn : (L.peek == '\n') = true := by rw [hp]; decide
    have haeM : ({ L with line := L.line + 1, column := 0 } : Lexer).isAtEnd = false :=
      hae
    simp only [skipWhitespace, hae, Bool.false_eq_true, if_false, cw, cn, if_true]
    congr 1
    simp only [Lexer.advance, haeM, Bool.false_eq_true, if_false]
  · intro f L hae hp
    have h1 : (L.peek != '"') = true := by rw [hp]; decide
    have cn : (L.peek == '\n') = true := by rw [hp]; decide
    have hcond : (L.peek != '"' && !L.isAtEnd) = true := by
      rw [h1, hae]; decide
    have haeM : ({ L with line := L.line + 1, column := 0 } : Lexer).isAtEnd = false :=
      hae
    simp only [scanStringBody, hcond, if_true, cn]
    congr 1
    simp only [Lexer.advance, haeM, Bool.false_eq_true, if_false]
  · intro f L hae hp
    have h1 : (L.peek == '*') = false := by rw [hp]; decide
    have cn : (L.peek == '\n') = true := by rw [hp]; decide
    have haeM : ({ L with line := L.line + 1, column := 0 } : Lexer).isAtEnd = false :=
      hae
    simp only [skipBlockComment, hae, Bool.false_eq_true, if_false, h1,
      Bool.false_and, cn, if_true]
    congr 1
    simp only [Lexer.advance, haeM, Bool.false_eq_true, if_false]

/-- Claim C9 counterexample: the three-character source consisting of
a character literal containing a newline. The newline is consumed by
plain `advance` inside `scanCharacter`, so the line counter never
increases and the column is not reset: the end-of-input token sits at
line 1, column 4, refuting the claim that consuming a newline always
increments the line and resets the column. -/
theorem claim_C9_counterexample :
    scanTokens [squote, '\n', squote] =
      some [⟨Tokentype.CHAR_LITERAL, "\n", 1, 1⟩,
            ⟨Tokentype.E_O_F, "SIGNING_OFF", 1, 4⟩] := by
  decide

theorem claim_C9_position_monotonicity_witness :
    List.Chain' lexLe (([⟨Tokentype.IDENTIFIER, "a", 1, 1⟩,
        ⟨Tokentype.E_O_F, "SIGNING_OFF", 1, 2⟩] : List Token).map
        fun t => (t.line, t.column)) ∧
    skipWhitespace 2 ⟨['\n'], 0, 1, 1⟩ = skipWhitespace 1 ⟨['\n'], 1, 2, 1⟩ ∧
    scanStringBody 2 ⟨['\n'], 0, 1, 1⟩ = scanStringBody 1 ⟨['\n'], 1, 2, 1⟩ ∧
    skipBlockComment 2 ⟨['\n'], 0, 1, 1⟩ = skipBlockComment 1 ⟨['\n'], 1, 2, 1⟩ :=
  ⟨claim_C9_position_monotonicity.1 ['a'] _ (by decide),
   claim_C9_position_monotonicity.2.1 1 ⟨['\n'], 0, 1, 1⟩ (by decide) (by decide),
   claim_C9_position_monotonicity.2.2.1 1 ⟨['\n'], 0, 1, 1⟩ (by decide) (by decide),
   claim_C9_position_monotonicity.2.2.2 1 ⟨['\n'], 0, 1, 1⟩ (by decide) (by decide)⟩
